import Mathlib

/-!
Delinearization pass of llvm-cudarrays: embedding and verification.

Shallow embedding of `lib/Delinear/Delinear.cpp`.

* IR values are identified by natural numbers (standing for `llvm::Value *`
  addresses); the IR is a function from identifiers to `Value`s, so that cyclic
  value graphs (control-flow merges referring to themselves) are representable.
* The recursive formula builders are defined by recursion on a fuel counter; an
  exhausted counter is the outcome `Res.timeout`, distinct from `Res.fatal`
  (failed `assert`, `abort()`, null dereference or out-of-bounds table read).
* The per-dimension `mask` member that `getFunctionName` updates in place is
  threaded through the traversal as explicit state.
-/

namespace Delinear

/-! ## Outcomes -/

/-- Outcome of running a piece of the pass. -/
inductive Res (α : Type) where
  | ok (a : α)
  | fatal
  | timeout
deriving DecidableEq, Repr

/-- Sequencing: the first failure stops the run. -/
def Res.bind {α β : Type} : Res α → (α → Res β) → Res β
  | .ok a, k => k a
  | .fatal, _ => .fatal
  | .timeout, _ => .timeout

/-! ## `enum DimMask` -/

def DimNone : Nat := 0
def DimX : Nat := 1
def DimY : Nat := 2
def DimZ : Nat := 4

/-! ## String primitives (`std::string::find`, `StringRef::find`) -/

/-- The value `std::string::npos` on a 64-bit target. -/
def npos : Nat := 2 ^ 64 - 1

/-- First position `≥ i` at which `pat` occurs, scanning the remaining characters. -/
def findFrom (pat : List Char) : List Char → Nat → Nat
  | [], i => if pat.isEmpty then i else npos
  | c :: cs, i => if pat.isPrefixOf (c :: cs) then i else findFrom pat cs (i + 1)

/-- The call `s.find(pat)`: index of the first occurrence, or `npos`. -/
def find (s pat : String) : Nat := findFrom pat.data s.data 0

/-- Subtraction on `size_t`. -/
def subSizeT (a b : Nat) : Nat := (a + 2 ^ 64 - b % 2 ^ 64) % 2 ^ 64

/-- The table `offset_dims[] = { "x", "y", "z" }`; an index outside the table has no entry. -/
def offset_dims : Int → Option String
  | 0 => some "x"
  | 1 => some "y"
  | 2 => some "z"
  | _ => none

/-! ## The IR -/

/-- What the pass reads of an `llvm::Function`. -/
structure FunInfo where
  /-- Result of `demangle_symbol(getName())`. -/
  demangled : String
  doesNotReturn : Bool
  /-- Number of formal parameters, `arg_size()`. -/
  argSize : Nat
deriving DecidableEq, Repr

/-- What the pass reads of an `llvm::Type`; a literal struct has no name. -/
inductive Ty where
  | struct (name : Option String)
  | other
deriving DecidableEq, Repr

inductive Opcode where
  | Ret | Br | Switch | Invoke
  | Add | FAdd | Sub | FSub | Mul | FMul | UDiv | SDiv | FDiv | URem | SRem | FRem
  | Shl | LShr | AShr | And | Or | Xor
  | Store | ICmp | FCmp | Select | Other
deriving DecidableEq, Repr

/-- Comparison predicates of `CmpInst`; `FCMP` stands for all floating-point predicates. -/
inductive Predicate where
  | ICMP_EQ | ICMP_NE | ICMP_UGT | ICMP_UGE | ICMP_ULT | ICMP_ULE
  | ICMP_SGT | ICMP_SGE | ICMP_SLT | ICMP_SLE | FCMP
deriving DecidableEq, Repr

/-- The classes of `llvm::Value` that `getDimInfo` tells apart. Operands are value identifiers. -/
inductive Node where
  /-- A null `Value *`. -/
  | null
  /-- A `CallInst`: called value and argument operands. -/
  | call (calledValue : Nat) (args : List Nat)
  | extractValue (aggregate : Nat) (indices : List Nat)
  | extractElement
  | getElementPtr (pointer : Nat)
  /-- A `CastInst`; `isBitCast` tells a `BitCastInst` from the other casts. -/
  | cast (isBitCast : Bool) (operand0 : Nat)
  | load (pointer : Nat)
  | alloca
  /-- A `ConstantInt` of bit width `width` holding the bit pattern `bits`. -/
  | constantInt (width bits : Nat)
  | constantArray
  | constantStruct
  | constantVector
  /-- A `Function`, which is a `GlobalValue`. -/
  | function (info : FunInfo)
  /-- A `GlobalValue` that is not a function (global variable, alias). -/
  | globalVariable
  | undefValue
  | constantDataSequential
  | constantExpr (opcode : Opcode) (operands : List Nat)
  /-- Any other `Constant` (floating point, null pointer, aggregate zero, block address). -/
  | constantOther
  /-- Any other non-merge `Instruction` (binary operators, comparisons, stores, branches). -/
  | inst (opcode : Opcode) (pred : Predicate) (operands : List Nat)
  | phi (incoming : List Nat)
  | argument (ty : Ty)
  /-- A value that is neither instruction, constant nor argument (basic block, metadata). -/
  | other
deriving DecidableEq, Repr

structure Value where
  name : String
  node : Node
deriving DecidableEq, Repr

inductive SCEVCastKind where
  | Truncate | ZeroExtend | SignExtend
deriving DecidableEq, Repr

/-- The evolution expressions of `ScalarEvolutionExpressions.h` (all kinds of the LLVM
release the pass is written for). Loops are identified by natural numbers. -/
inductive SCEV where
  /-- A null `SCEV *`. -/
  | null
  | unknown (value : Nat)
  | constant (width bits : Nat)
  | udiv (lhs rhs : SCEV)
  | addRec (operands : List SCEV) (loop : Nat)
  | mul (operands : List SCEV)
  | add (operands : List SCEV)
  | smax (operands : List SCEV)
  | umax (operands : List SCEV)
  | cast (kind : SCEVCastKind) (operand : SCEV)
  | couldNotCompute
deriving Repr

/-- What the pass reads of an `llvm::Loop`. -/
structure Loop where
  /-- Nesting depth, `getLoopDepth()`. -/
  depth : Nat
  /-- Instructions of `getLoopLatch()`, in block order; `none` when there is no latch. -/
  latch : Option (List Nat)

/-- The IR of the function under analysis with the answers of the analyses the pass
queries (`LoopInfo`, `ScalarEvolution`, `Value::stripPointerCasts`). -/
structure Env where
  ir : Nat → Value
  loops : Nat → Loop
  getSCEV : Nat → SCEV
  hasLoopInvariantBackedgeTakenCount : Nat → Bool
  getBackedgeTakenCount : Nat → SCEV
  getMaxBackedgeTakenCount : Nat → SCEV
  /-- The call `SE.getAddRecExpr(operands, loop, FlagAnyWrap)`. -/
  getAddRecExpr : List SCEV → Nat → SCEV
  stripPointerCasts : Nat → Nat

/-! ## `APInt` accessors of a `ConstantInt` -/

/-- The signed (two's complement) value, `getSExtValue()`. -/
def sextValue (width bits : Nat) : Int :=
  if 2 ^ (width - 1) ≤ bits % 2 ^ width then (bits % 2 ^ width : Nat) - (2 ^ width : Nat)
  else (bits % 2 ^ width : Nat)

/-- The call `getLimitedValue()`: the unsigned value, saturated at `UINT64_MAX`. -/
def getLimitedValue (width bits : Nat) : Nat := min (bits % 2 ^ width) (2 ^ 64 - 1)

/-- The call `isNegative()`: the sign bit is set. -/
def isNegative (width bits : Nat) : Bool := decide (2 ^ (width - 1) ≤ bits % 2 ^ width)

/-- The call `getValue().toString(10, true)`: signed decimal rendering. -/
def toStringSigned (width bits : Nat) : String := toString (sextValue width bits)

/-! ## The built-in register tables -/

def ThreadIdFunNames : List String :=
  ["llvm.nvvm.read.ptx.sreg.tid.x", "llvm.nvvm.read.ptx.sreg.tid.y", "llvm.nvvm.read.ptx.sreg.tid.z"]

def BlockIdFunNames : List String :=
  ["llvm.nvvm.read.ptx.sreg.ctaid.x", "llvm.nvvm.read.ptx.sreg.ctaid.y",
   "llvm.nvvm.read.ptx.sreg.ctaid.z"]

def SizeFunNames : List String :=
  ["llvm.nvvm.read.ptx.sreg.ntid.x", "llvm.nvvm.read.ptx.sreg.ntid.y",
   "llvm.nvvm.read.ptx.sreg.ntid.z"]

/-- State of the static `std::map<std::string, std::string> CudaIntrinsicTranslations`. -/
abbrev Translations := List (String × String)

/-- The call `map.count(key)`. -/
def Translations.count (t : Translations) (key : String) : Nat :=
  if (t.find? (fun e => e.1 == key)).isSome then 1 else 0

/-- The call `map.insert({key, value})`: no effect when the key is present. -/
def Translations.insert (t : Translations) (key value : String) : Translations :=
  if t.count key > 0 then t else t ++ [(key, value)]

/-- The access `map[key]` for a key that is present (an absent key reads as `""`). -/
def Translations.get (t : Translations) (key : String) : String :=
  match t.find? (fun e => e.1 == key) with
  | some e => e.2
  | none => ""

def initFunctionTranslations (t : Translations) : Translations :=
  if t.length > 0 then t
  else
    ((((((((t.insert "llvm.nvvm.read.ptx.sreg.ctaid.x" "b.x").insert
      "llvm.nvvm.read.ptx.sreg.ctaid.y" "b.y").insert
      "llvm.nvvm.read.ptx.sreg.ctaid.z" "b.z").insert
      "llvm.nvvm.read.ptx.sreg.tid.x" "t.x").insert
      "llvm.nvvm.read.ptx.sreg.tid.y" "t.y").insert
      "llvm.nvvm.read.ptx.sreg.tid.z" "t.z").insert
      "llvm.nvvm.read.ptx.sreg.ntid.x" "bsize.x").insert
      "llvm.nvvm.read.ptx.sreg.ntid.y" "bsize.y").insert
      "llvm.nvvm.read.ptx.sreg.ntid.z" "bsize.z"

/-! ## Call helpers -/

/-- The call `getCalledFunction()`: name and data of the callee when the called value is a
function, `none` for an indirect call. -/
def getCalledFunction (E : Env) (calledValue : Nat) : Option (String × FunInfo) :=
  match (E.ir calledValue).node with
  | .function info => some ((E.ir calledValue).name, info)
  | _ => none

/-- The call `getArgOperand(i)` of a `CallInst`: the operand list of a call is its
arguments followed by the called value; an index beyond it is out of range. -/
def getArgOperand (calledValue : Nat) (args : List Nat) (i : Nat) : Option Nat :=
  (args ++ [calledValue]).get? i

def isThreadID (E : Env) (v : Nat) : Bool :=
  match (E.ir v).node with
  | .call cv _ =>
    match getCalledFunction E cv with
    | some f => ThreadIdFunNames.contains f.1
    | none => false
  | _ => false

def isBlockSize (E : Env) (v : Nat) : Bool :=
  match (E.ir v).node with
  | .call cv _ =>
    match getCalledFunction E cv with
    | some f => SizeFunNames.contains f.1
    | none => false
  | _ => false

def isBlockIdx (E : Env) (v : Nat) : Bool :=
  match (E.ir v).node with
  | .call cv _ =>
    match getCalledFunction E cv with
    | some f => BlockIdFunNames.contains f.1
    | none => false
  | _ => false

/-- The test `name.find("cudarrays::dynarray") == 0 && name.find(what) != npos`. -/
def isDynarrayMember (demangled what : String) : Bool :=
  find demangled "cudarrays::dynarray" == 0 && find demangled what != npos

/-- The update of the `mask` member in `getFunctionName`, keyed on the translated name. -/
def orMask (_raw translated : String) (mask : Nat) : Nat :=
  if translated == "b.x" then mask ||| DimX
  else if translated == "b.y" then mask ||| DimY
  else if translated == "b.z" then mask ||| DimZ
  else mask

/-! ## The Symbolic Formula Builder: `getDimInfo(const Value *, bool)`

The traversal is written once over the type `σ` of the state it threads; `upd raw translated`
is the effect on that state of rendering the built-in register call `raw` as `translated`.
The pass runs it with `σ := Nat` (the `mask` member) and `upd := orMask`. -/

section Builders

variable {σ : Type}

/-- The method `getFunctionName`. -/
def getFunctionName (E : Env) (tbl : Translations) (upd : String → String → σ → σ)
    (calledValue : Nat) (args : List Nat) (st : σ) : Res (String × σ) :=
  match getCalledFunction E calledValue with
  | none => .fatal
  | some (name, info) =>
    if tbl.count name > 0 then
      .ok (tbl.get name, upd name (tbl.get name) st)
    else if isDynarrayMember info.demangled "get_dim" then
      if args.length != 0 then
        match getArgOperand calledValue args 1 with
        | none => .fatal
        | some idDimVal =>
          match (E.ir idDimVal).node with
          | .constantInt w b => .ok ("dim" ++ "(" ++ toString (getLimitedValue w b) ++ ")", st)
          | _ => .ok ("dim" ++ "(" ++ (E.ir idDimVal).name ++ ")", st)
      else .ok ("dim" ++ "(" ++ ")", st)
    else .ok (name, st)

/-- The loops `for (i = 0; i < n; ++i) { ret << f(x_i); if (i != n - 1) ret << sep; else
ret << last; }` of the builders, started at index `i` on the remaining elements. -/
def renderLoop {α : Type} (f : α → σ → Res (String × σ)) (sep last : String) (n : Nat) :
    List α → Nat → σ → Res (String × σ)
  | [], _, st => .ok ("", st)
  | x :: xs, i, st =>
    (f x st).bind fun r =>
    (renderLoop f sep last n xs (i + 1) r.2).bind fun t =>
    .ok (r.1 ++ (if i != n - 1 then sep else last) ++ t.1, t.2)

/-- The operator symbol written between the operands of a two-operand instruction; `none`
where the source asserts (`"Unknown operator"`, `"Unimplemented"`). -/
def opSymbol (opcode : Opcode) (pred : Predicate) : Option String :=
  if opcode = .SDiv ∨ opcode = .UDiv then some " / "
  else if opcode = .SRem ∨ opcode = .URem then some " % "
  else if opcode = .Shl then some " << "
  else if opcode = .Mul then some " * "
  else if opcode = .Add then some " + "
  else if opcode = .Sub then some " - "
  else if opcode = .ICmp then
    match pred with
    | .ICMP_EQ => some " == "
    | .ICMP_NE => some " != "
    | .ICMP_UGT | .ICMP_SGT => some " > "
    | .ICMP_UGE | .ICMP_SGE => some " >= "
    | .ICMP_ULT | .ICMP_SLT => some " < "
    | .ICMP_ULE | .ICMP_SLE => some " <= "
    | .FCMP => none
  else if opcode = .And then some " ^ "
  else if opcode = .And then some " v "
  else none

def isGlobalValue : Node → Bool
  | .function _ => true
  | .globalVariable => true
  | _ => false

/-- Rendering of a `GlobalValue` named `name`. -/
def renderGlobal (name : String) : String :=
  if find name "offset" == 0 then "off" else "#GLOBAL:" ++ name

/-- One level of `getDimInfo(const Value *val, bool inPHI)`; `recV` is the recursive call. -/
def stepV (E : Env) (tbl : Translations) (upd : String → String → σ → σ)
    (recV : Nat → Bool → σ → Res (String × σ)) (val : Nat) (inPHI : Bool) (st : σ) :
    Res (String × σ) :=
  match (E.ir val).node with
  | .null => .ok ("", st)
  | .call cv args =>
    if isThreadID E val then getFunctionName E tbl upd cv args st
    else if isBlockSize E val then getFunctionName E tbl upd cv args st
    else if isBlockIdx E val then getFunctionName E tbl upd cv args st
    else
      match getCalledFunction E cv with
      | none => .fatal
      | some (_, info) =>
        if isDynarrayMember info.demangled "operator()" && info.doesNotReturn == false then
          .ok ("#MEM", st)
        else getFunctionName E tbl upd cv args st
  | .extractValue agg indices =>
    match (E.ir agg).node with
    | .argument (.struct none) => .fatal
    | .argument (.struct (some structName)) =>
      if find structName "dim3" != npos &&
          find (E.ir agg).name "off" == subSizeT (E.ir agg).name.length 3 then
        match indices.head? with
        | none => .fatal
        | some k =>
          match offset_dims k with
          | none => .fatal
          | some d => .ok ("b_off." ++ d, st)
      else recV agg inPHI st
    | _ => recV agg inPHI st
  | .extractElement => .fatal
  | .getElementPtr ptr => recV ptr inPHI st
  | .cast _ op0 => recV op0 inPHI st
  | .load ptr => recV ptr inPHI st
  | .constantInt w b => .ok (toStringSigned w b, st)
  | .constantArray => .fatal
  | .constantStruct => .fatal
  | .constantVector => .fatal
  | .function _ => .ok (renderGlobal (E.ir val).name, st)
  | .globalVariable => .ok (renderGlobal (E.ir val).name, st)
  | .undefValue => .fatal
  | .constantDataSequential => .fatal
  | .constantExpr _ operands =>
    match operands.head? with
    | none => .fatal
    | some op0 =>
      if isGlobalValue (E.ir op0).node && find (E.ir op0).name "offset" == 0 then
        (recV op0 inPHI st).bind fun r =>
        if operands.length == 3 then
          match operands.get? 2 with
          | none => .fatal
          | some op2 =>
            match (E.ir op2).node with
            | .constantInt w b =>
              match offset_dims (sextValue w b) with
              | none => .fatal
              | some d => .ok (r.1 ++ "." ++ d, r.2)
            | _ => .fatal
        else .ok r
      else renderLoop (fun x s => recV x inPHI s) "" "" operands.length operands 0 st
  | .constantOther => .ok ("K", st)
  | .alloca => .ok ("", st)
  | .inst opcode pred operands =>
    match operands with
    | [left, right] =>
      (recV left inPHI st).bind fun l =>
      match opSymbol opcode pred with
      | none => .fatal
      | some sym =>
        (recV right inPHI l.2).bind fun r =>
        .ok ("(" ++ l.1 ++ sym ++ r.1 ++ ")", r.2)
    | _ => .fatal
  | .phi incoming =>
    if inPHI == false then
      (renderLoop (fun x s => recV x true s) " | " "" incoming.length incoming 0 st).bind fun r =>
      .ok ("(" ++ r.1 ++ ")", r.2)
    else .ok ("#PHIRECURSION", st)
  | .argument _ => .ok ("#PARAM:" ++ (E.ir val).name, st)
  | .other => .fatal

/-- The method `getDimInfo(const Value *, bool)`, with a bound on the recursion depth. -/
def getDimInfo (E : Env) (tbl : Translations) (upd : String → String → σ → σ) :
    Nat → Nat → Bool → σ → Res (String × σ)
  | 0 => fun _ _ _ => .timeout
  | fuel + 1 => stepV E tbl upd (getDimInfo E tbl upd fuel)

/-! ## The Evolution Formula Builder: `getDimInfo(const SCEV *, ScalarEvolution &, bool)` -/

def isSCEVConstant : SCEV → Bool
  | .constant _ _ => true
  | _ => false

def isCouldNotCompute : SCEV → Bool
  | .couldNotCompute => true
  | _ => false

/-- The test behind `neg.push_back(op)`: a constant whose value is negative. -/
def isNegativeConstant : SCEV → Bool
  | .constant w b => isNegative w b
  | _ => false

/-- The call `addrec->getStepRecurrence(SE)`. -/
def getStepRecurrence (E : Env) (operands : List SCEV) (loop : Nat) : SCEV :=
  if operands.length == 2 then operands.getD 1 .null
  else E.getAddRecExpr operands.tail loop

def isBranchInst : Node → Bool
  | .inst .Br _ _ => true
  | _ => false

/-- Operands of `cond` when it is an `Operator` (instruction or constant expression) with
opcode `ICmp`; `none` where the source asserts on the loop condition. -/
def icmpOperands : Node → Option (List Nat)
  | .inst .ICmp _ operands => some operands
  | .constantExpr .ICmp operands => some operands
  | _ => none

/-- The order in which the operands of an addition are written: the vectors `rest`, `pos`
and `neg` of the source, one after the other. -/
def addOrder (operands : List SCEV) : List SCEV :=
  operands.filter (fun op => !isSCEVConstant op) ++
  operands.filter (fun op => isSCEVConstant op && !isNegativeConstant op) ++
  operands.filter (fun op => isSCEVConstant op && isNegativeConstant op)

/-- One level of `getDimInfo(const SCEV *scev, ScalarEvolution &SE, bool inPHI)`; `recV` is
the builder on IR values and `recS` the recursive call. -/
def stepS (E : Env) (recV : Nat → Bool → σ → Res (String × σ))
    (recS : SCEV → Bool → σ → Res (String × σ)) (scev : SCEV) (inPHI : Bool) (st : σ) :
    Res (String × σ) :=
  match scev with
  | .null => .ok ("", st)
  | .unknown value => recV value inPHI st
  | .constant w b => .ok (toStringSigned w b, st)
  | .udiv left right =>
    (recS left inPHI st).bind fun l =>
    (recS right inPHI l.2).bind fun r =>
    .ok ("(" ++ l.1 ++ "/" ++ r.1 ++ ")", r.2)
  | .addRec operands loop =>
    match operands.head? with
    | none => .fatal
    | some start =>
      let depth := (E.loops loop).depth
      let step := getStepRecurrence E operands loop
      let count :=
        if E.hasLoopInvariantBackedgeTakenCount loop then E.getBackedgeTakenCount loop
        else E.getMaxBackedgeTakenCount loop
      (recS start inPHI st).bind fun s =>
      let head := "\x7b" ++ toString depth ++ "\x7d" ++ ("<" ++ s.1 ++ " : ")
      if !E.hasLoopInvariantBackedgeTakenCount loop || isCouldNotCompute count then
        match (E.loops loop).latch with
        | none => .fatal
        | some block =>
          match block.find? (fun i => isBranchInst (E.ir i).node) with
          | none => .ok (head ++ ">", s.2)
          | some branch =>
            match (E.ir branch).node with
            | .inst _ _ [cond, _, _] =>
              match icmpOperands (E.ir cond).node with
              | none => .fatal
              | some cmpOperands =>
                match cmpOperands.get? 1 with
                | none => .fatal
                | some bound =>
                  (recV bound inPHI s.2).bind fun b =>
                  (recS step inPHI b.2).bind fun t =>
                  .ok (head ++ b.1 ++ " , " ++ t.1 ++ ">", t.2)
            | _ => .fatal
      else
        (recS count inPHI s.2).bind fun b =>
        (recS step inPHI b.2).bind fun t =>
        .ok (head ++ b.1 ++ " , " ++ t.1 ++ ">", t.2)
  | .mul operands =>
    (renderLoop (fun x s => recS x inPHI s) " * " "" operands.length operands 0 st).bind fun r =>
    .ok ("(" ++ r.1 ++ ")", r.2)
  | .add operands =>
    (renderLoop (fun x s => recS x inPHI s) " + " "" operands.length (addOrder operands) 0
      st).bind fun r =>
    .ok ("(" ++ r.1 ++ ")", r.2)
  | .smax operands =>
    (renderLoop (fun x s => recS x inPHI s) ", " ")" operands.length operands 0 st).bind fun r =>
    .ok ("smax(" ++ r.1, r.2)
  | .umax operands =>
    (renderLoop (fun x s => recS x inPHI s) ", " ")" operands.length operands 0 st).bind fun r =>
    .ok ("umax(" ++ r.1, r.2)
  | .cast _ operand => recS operand inPHI st
  | .couldNotCompute => .ok ("#EXPR", st)

/-- The method `getDimInfo(const SCEV *, ScalarEvolution &, bool)`, with a bound on the
recursion depth; the builder on IR values gets the same bound. -/
def getDimInfoSCEV (E : Env) (tbl : Translations) (upd : String → String → σ → σ) :
    Nat → SCEV → Bool → σ → Res (String × σ)
  | 0 => fun _ _ _ => .timeout
  | fuel + 1 => stepS E (getDimInfo E tbl upd fuel) (getDimInfoSCEV E tbl upd fuel)

end Builders

/-! ## Access records: `AccessInfo::DimInfo` and `AccessInfo` -/

structure DimInfo where
  scev : SCEV
  dim : Nat
  strAccess : String
  mask : Nat

/-- The default constructor `DimInfo()`; `dim(-1)` on an `unsigned`. -/
def DimInfo.default : DimInfo :=
  { scev := .null, dim := 2 ^ 32 - 1, strAccess := "", mask := DimNone }

/-- The constructor `DimInfo(SE, scev, dim)`. -/
def DimInfo.new (E : Env) (tbl : Translations) (fuel : Nat) (scev : SCEV) (dim : Nat) :
    Res DimInfo :=
  (getDimInfoSCEV E tbl orMask fuel scev false DimNone).bind fun r =>
  .ok { scev := scev, dim := dim, strAccess := r.1, mask := r.2 }

structure AccessInfo where
  base_ : List DimInfo
  dynarray_ : Nat
  dim_ : Nat
  write_ : Bool

def AccessInfo.getNumDims (a : AccessInfo) : Nat := a.dim_

def AccessInfo.getDimInfo (a : AccessInfo) : List DimInfo := a.base_

def AccessInfo.getDynarray (a : AccessInfo) : Nat := a.dynarray_

/-- The method `addDimInfo`: `base_[dim] = DimInfo(SE, scev, dim)`. -/
def addDimInfo (E : Env) (tbl : Translations) (fuel : Nat) (base : List DimInfo) (scev : SCEV)
    (dim : Nat) : Res (List DimInfo) :=
  (DimInfo.new E tbl fuel scev dim).bind fun d => .ok (base.set dim d)

/-- The loop `for (unsigned i = 0; i < dim_; ++i)` of the constructor, run on the indices
in `is`. -/
def fillDims (E : Env) (tbl : Translations) (fuel : Nat) (calledValue : Nat) (args : List Nat)
    (dim : Nat) : List Nat → List DimInfo → Res (List DimInfo)
  | [], base => .ok base
  | i :: is, base =>
    match getArgOperand calledValue args (i + 1) with
    | none => .fatal
    | some val =>
      (addDimInfo E tbl fuel base (E.getSCEV val) (dim - (i + 1))).bind fun base1 =>
      fillDims E tbl fuel calledValue args dim is base1

/-- The constructor `AccessInfo(dynarray, call, loop, SE, write)`, given the state `tbl0` of
the static translation table; returns the record and the new state of the table. The
dimension count is `arg_size() - 1` on an `unsigned`; with no formal parameter the count
wraps around and the `resize` cannot be served. The query `SE.getLoopDisposition(scev, loop)`
made when a loop is given has its answer discarded. -/
def AccessInfo.new (E : Env) (tbl0 : Translations) (fuel : Nat) (dynarray : Nat)
    (calledValue : Nat) (args : List Nat) (_loop : Option Nat) (write : Bool) :
    Res (AccessInfo × Translations) :=
  match getCalledFunction E calledValue with
  | none => .fatal
  | some (_, info) =>
    if info.argSize = 0 then .fatal
    else
      let dim := (info.argSize - 1) % 2 ^ 32
      let tbl := initFunctionTranslations tbl0
      (fillDims E tbl fuel calledValue args dim (List.range dim)
        (List.replicate dim DimInfo.default)).bind fun base =>
      .ok ({ base_ := base, dynarray_ := E.stripPointerCasts dynarray, dim_ := dim,
             write_ := write }, tbl)

/-! ## Per-function collection: `FunctionAccessInfo` -/

/-- The member `std::map<const Value *, std::vector<AccessInfo>> _arrayInfo`, as the list of
its entries in key order. -/
abbrev ArrayInfoMap := List (Nat × List AccessInfo)

/-- The statement `_arrayInfo[key].push_back(info)`. -/
def ArrayInfoMap.pushBack : ArrayInfoMap → Nat → AccessInfo → ArrayInfoMap
  | [], key, info => [(key, [info])]
  | (k, infos) :: rest, key, info =>
    if key < k then (key, [info]) :: (k, infos) :: rest
    else if key = k then (k, infos ++ [info]) :: rest
    else (k, infos) :: ArrayInfoMap.pushBack rest key info

def addAccessInfo (m : ArrayInfoMap) (arrayInfo : AccessInfo) : ArrayInfoMap :=
  m.pushBack arrayInfo.getDynarray arrayInfo

/-! ## The Per-Array Aggregator and the report to a sink -/

def hasConsistentDims (infos : List AccessInfo) : Bool :=
  match infos with
  | [] => false
  | first :: _ => infos.all fun it => it.getNumDims == first.getNumDims

/-- The inner loop of `getArrayMask` over the `DimInfo`s of one record. -/
def maskOfRecord (dim : Nat) (dimInfos : List DimInfo) (mask : Nat) : Nat :=
  dimInfos.foldl (fun acc dimInfo => if dimInfo.dim == dim then acc ||| dimInfo.mask else acc)
    mask

def getArrayMask (infos : List AccessInfo) (dim : Nat) : Nat :=
  infos.foldl (fun mask it => maskOfRecord dim it.getDimInfo mask) DimNone

/-- The calls a sink (`CUDArraysDriver`, `CUDArraysRTDriver`) receives; arguments and
functions are given by their identifiers. -/
inductive Fact where
  | resetInfo (function : Nat)
  | setArrayInfo (array : Nat) (dims : Nat) (isRead isWritten : Bool)
  | setArrayDimInfo (array : Nat) (dim gridDim : Nat)
deriving DecidableEq, Repr

/-- State of a run of `insertCUDArrayInfo`: the calls made on the sink so far and whether
the run is still alive (`false` after a failed `assert`). -/
structure Run where
  log : List Fact
  alive : Bool
deriving DecidableEq, Repr

/-- The calls of one iteration of the loop `for (unsigned i = 0; i < dims; ++i)`. -/
def dimFacts (array : Nat) (infos : List AccessInfo) (i : Nat) : List Fact :=
  let mask := getArrayMask infos i
  (if mask &&& DimX ≠ 0 then [Fact.setArrayDimInfo array i 0] else []) ++
  (if mask &&& DimY ≠ 0 then [Fact.setArrayDimInfo array i 1] else []) ++
  (if mask &&& DimZ ≠ 0 then [Fact.setArrayDimInfo array i 2] else [])

def isAlloca (E : Env) (v : Nat) : Bool :=
  match (E.ir v).node with
  | .alloca => true
  | _ => false

/-- The body of the loop `for (auto &info : F)`: `none` when one of its assertions fails
(`cast<AllocaInst>`, `arg != argMap.end()`, `hasConsistentDims`), else the calls made. -/
def arrayFacts (E : Env) (argMap : List (Nat × Nat)) (readSet writeSet : List Nat)
    (info : Nat × List AccessInfo) : Option (List Fact) :=
  if isAlloca E info.1 then
    match argMap.lookup info.1 with
    | none => none
    | some arg =>
      if hasConsistentDims info.2 then
        match info.2.head? with
        | none => none
        | some first =>
          let dims := first.getNumDims
          some (Fact.setArrayInfo arg dims (readSet.contains info.1) (writeSet.contains info.1) ::
            (List.range dims).flatMap (dimFacts arg info.2))
      else none
  else none

/-- The loop `for (auto &info : F)` from the state `run`. -/
def insertArrays (E : Env) (argMap : List (Nat × Nat)) (readSet writeSet : List Nat) :
    ArrayInfoMap → Run → Run
  | [], run => run
  | info :: rest, run =>
    match arrayFacts E argMap readSet writeSet info with
    | none => { log := run.log, alive := false }
    | some facts =>
      insertArrays E argMap readSet writeSet rest { log := run.log ++ facts, alive := true }

/-- The method `insertCUDArrayInfo(driver, F, argMap, readSet, writeSet)` on a sink that has
received the calls `sink` so far; `function` identifies the kernel. -/
def insertCUDArrayInfo (E : Env) (sink : List Fact) (function : Nat) (F : ArrayInfoMap)
    (argMap : List (Nat × Nat)) (readSet writeSet : List Nat) : Run :=
  insertArrays E argMap readSet writeSet F
    { log := sink ++ [Fact.resetInfo function], alive := true }

/-! ## Notions used to state the properties -/

/-- The table after `initFunctionTranslations()` has run on the initial (empty) static map;
every later call leaves it unchanged. -/
def cudaTable : Translations := initFunctionTranslations []

/-- Simulation of one run by another over related states: when the first run ends, the
second ends the same way, with the same formula and a related state. -/
def Sim {σ τ : Type} (R : σ → τ → Prop) (r1 : Res (String × σ)) (r2 : Res (String × τ)) :
    Prop :=
  match r1 with
  | .timeout => True
  | .fatal => r2 = .fatal
  | .ok a => ∃ b, r2 = .ok (a.1, b) ∧ R a.2 b

/-- Recording state: the names of the built-in register calls rendered so far. -/
def logCall (raw _translated : String) (log : List String) : List String := log ++ [raw]

/-- The Symbolic Formula Builder returns formula `s` and mask `m'` on value `v`, entered
with flag `inPHI` and mask `m`. -/
def Renders (E : Env) (tbl : Translations) (v : Nat) (inPHI : Bool) (m : Nat) (s : String)
    (m' : Nat) : Prop :=
  ∃ fuel, getDimInfo E tbl orMask fuel v inPHI m = .ok (s, m')

/-- The builder returns the formulas `ss`, in order, on the values `vs`, the mask being
passed from one to the next. -/
def RendersAll (E : Env) (tbl : Translations) (inPHI : Bool) :
    List Nat → Nat → List String → Nat → Prop
  | [], m, ss, m' => ss = [] ∧ m' = m
  | v :: vs, m, ss, m' =>
    ∃ s m1 rest, ss = s :: rest ∧ Renders E tbl v inPHI m s m1 ∧
      RendersAll E tbl inPHI vs m1 rest m'

/-- True of the calls `insertSetArrayDimInfo`. -/
def isSetArrayDimInfo : Fact → Bool
  | .setArrayDimInfo _ _ _ => true
  | _ => false

/-- True of the calls `insertSetArrayInfo`. -/
def isSetArrayInfo : Fact → Bool
  | .setArrayInfo _ _ _ _ => true
  | _ => false

/-- A kernel with one 2-D array parameter (value 7, stored in the stack slot 3) accessed
once, outside any loop, as `arr(blockIdx.x, threadIdx.y)` (the call 6). -/
def kernelBxTy : Env where
  ir := fun v =>
    match v with
    | 0 => ⟨"llvm.nvvm.read.ptx.sreg.ctaid.x", .function ⟨"llvm.nvvm.read.ptx.sreg.ctaid.x", false, 0⟩⟩
    | 1 => ⟨"llvm.nvvm.read.ptx.sreg.tid.y", .function ⟨"llvm.nvvm.read.ptx.sreg.tid.y", false, 0⟩⟩
    | 2 => ⟨"_ZN9cudarrays8dynarrayIA0_A0_fEclEjj",
            .function ⟨"cudarrays::dynarray<float [0][0]>::operator()(unsigned int, unsigned int)",
              false, 3⟩⟩
    | 3 => ⟨"arr.addr", .alloca⟩
    | 4 => ⟨"bx", .call 0 []⟩
    | 5 => ⟨"ty", .call 1 []⟩
    | 6 => ⟨"elem", .call 2 [3, 4, 5]⟩
    | 7 => ⟨"arr", .argument .other⟩
    | _ => ⟨"", .other⟩
  loops := fun _ => ⟨0, none⟩
  getSCEV := fun v => .unknown v
  hasLoopInvariantBackedgeTakenCount := fun _ => false
  getBackedgeTakenCount := fun _ => .couldNotCompute
  getMaxBackedgeTakenCount := fun _ => .couldNotCompute
  getAddRecExpr := fun ops l => .addRec ops l
  stripPointerCasts := fun v => v

/-- The mask of one access site for dimension `d`: the union of the masks of its dimension
records whose `getDim()` is `d`. -/
def siteMask (r : AccessInfo) (d : Nat) : Nat :=
  ((r.base_.filter fun di => di.dim == d).map DimInfo.mask).foldr (· ||| ·) 0

/-- The bitwise union of the dimension-`d` masks of all the records of a list. -/
def unionMask (records : List AccessInfo) (d : Nat) : Nat :=
  (records.map fun r => siteMask r d).foldr (· ||| ·) 0

/-- The calls expected for dimension `i` of an array whose aggregated mask is `mask`: one
per axis present in the mask, in the order X (0), Y (1), Z (2). -/
def expectedDimFacts (array mask i : Nat) : List Fact :=
  ([0, 1, 2].filter fun axis => mask.testBit axis).map fun axis =>
    Fact.setArrayDimInfo array i axis

/-- The calls expected for one array of a kernel: one `set_array_info`, then the calls of
its dimensions in increasing index order. -/
def expectedArrayFacts (argMap : List (Nat × Nat)) (readSet writeSet : List Nat)
    (info : Nat × List AccessInfo) : List Fact :=
  match argMap.lookup info.1, info.2.head? with
  | some arg, some first =>
    Fact.setArrayInfo arg first.getNumDims (readSet.contains info.1)
        (writeSet.contains info.1) ::
      (List.range first.getNumDims).flatMap fun i =>
        expectedDimFacts arg (getArrayMask info.2 i) i
  | _, _ => []

/-- Two records of one array with different dimension counts. -/
def inconsistentRecords : List AccessInfo :=
  [{ base_ := [⟨.unknown 4, 0, "b.x", DimX⟩], dynarray_ := 3, dim_ := 1, write_ := true },
   { base_ := [⟨.unknown 5, 0, "t.y", DimNone⟩, ⟨.unknown 4, 1, "b.x", DimX⟩], dynarray_ := 3,
     dim_ := 2, write_ := true }]

/-- A record of the array in slot 3 whose dimension 0 is driven by the axes X and Z. -/
def recordXZ : AccessInfo :=
  { base_ := [⟨.unknown 4, 0, "(b.x + b.z)", DimX ||| DimZ⟩, ⟨.unknown 5, 1, "t.y", DimNone⟩],
    dynarray_ := 3, dim_ := 2, write_ := true }

/-- A function with control-flow merges: value 3 merges a thread-id read and a constant,
value 4 merges itself and a constant, value 5 merges the merge 3 and a constant; value 6 adds
a block-id read and a constant. -/
def kernelPhi : Env where
  ir := fun v =>
    match v with
    | 0 => ⟨"llvm.nvvm.read.ptx.sreg.tid.x", .function ⟨"llvm.nvvm.read.ptx.sreg.tid.x", false, 0⟩⟩
    | 1 => ⟨"tx", .call 0 []⟩
    | 2 => ⟨"", .constantInt 32 5⟩
    | 3 => ⟨"merge", .phi [1, 2]⟩
    | 4 => ⟨"self", .phi [4, 2]⟩
    | 5 => ⟨"outer", .phi [3, 2]⟩
    | 6 => ⟨"sum", .inst .Add .ICMP_EQ [8, 2]⟩
    | 7 => ⟨"llvm.nvvm.read.ptx.sreg.ctaid.y",
            .function ⟨"llvm.nvvm.read.ptx.sreg.ctaid.y", false, 0⟩⟩
    | 8 => ⟨"by", .call 7 []⟩
    | _ => ⟨"", .other⟩
  loops := fun _ => ⟨0, none⟩
  getSCEV := fun v => .unknown v
  hasLoopInvariantBackedgeTakenCount := fun _ => false
  getBackedgeTakenCount := fun _ => .couldNotCompute
  getMaxBackedgeTakenCount := fun _ => .couldNotCompute
  getAddRecExpr := fun ops l => .addRec ops l
  stripPointerCasts := fun v => v

/-- The fixed short names of the built-in index registers: thread id, block id, block size,
one per grid axis. -/
def registerShortNames : List (String × String) :=
  [("llvm.nvvm.read.ptx.sreg.tid.x", "t.x"), ("llvm.nvvm.read.ptx.sreg.tid.y", "t.y"),
   ("llvm.nvvm.read.ptx.sreg.tid.z", "t.z"), ("llvm.nvvm.read.ptx.sreg.ctaid.x", "b.x"),
   ("llvm.nvvm.read.ptx.sreg.ctaid.y", "b.y"), ("llvm.nvvm.read.ptx.sreg.ctaid.z", "b.z"),
   ("llvm.nvvm.read.ptx.sreg.ntid.x", "bsize.x"), ("llvm.nvvm.read.ptx.sreg.ntid.y", "bsize.y"),
   ("llvm.nvvm.read.ptx.sreg.ntid.z", "bsize.z")]

/-- The axis bit of a built-in register: X, Y, Z for the block-id registers, none for the
others. -/
def axisBit (raw : String) : Nat :=
  if raw = "llvm.nvvm.read.ptx.sreg.ctaid.x" then DimX
  else if raw = "llvm.nvvm.read.ptx.sreg.ctaid.y" then DimY
  else if raw = "llvm.nvvm.read.ptx.sreg.ctaid.z" then DimZ
  else DimNone

/-- The operator symbols of the two-operand instructions, as the specification lists them. -/
def claimedSymbol : Opcode → Predicate → Option String
  | .SDiv, _ => some " / "
  | .UDiv, _ => some " / "
  | .SRem, _ => some " % "
  | .URem, _ => some " % "
  | .Shl, _ => some " << "
  | .Mul, _ => some " * "
  | .Add, _ => some " + "
  | .Sub, _ => some " - "
  | .ICmp, .ICMP_EQ => some " == "
  | .ICmp, .ICMP_NE => some " != "
  | .ICmp, .ICMP_UGT => some " > "
  | .ICmp, .ICMP_SGT => some " > "
  | .ICmp, .ICMP_UGE => some " >= "
  | .ICmp, .ICMP_SGE => some " >= "
  | .ICmp, .ICMP_ULT => some " < "
  | .ICmp, .ICMP_SLT => some " < "
  | .ICmp, .ICMP_ULE => some " <= "
  | .ICmp, .ICMP_SLE => some " <= "
  | _, _ => none

/-- The union of the axis bits of the register calls of a log. -/
def logMask (log : List String) : Nat :=
  log.foldl (fun acc raw => acc ||| axisBit raw) DimNone

/-- The Evolution Formula Builder returns formula `s` and mask `m'` on the expression `e`,
entered with flag `inPHI` and mask `m`. -/
def RendersSCEV (E : Env) (tbl : Translations) (e : SCEV) (inPHI : Bool) (m : Nat)
    (s : String) (m' : Nat) : Prop :=
  ∃ fuel, getDimInfoSCEV E tbl orMask fuel e inPHI m = .ok (s, m')

/-- The Evolution Formula Builder returns the formulas `ss`, in order, on the expressions
`es`, the mask being passed from one to the next. -/
def RendersAllSCEV (E : Env) (tbl : Translations) (inPHI : Bool) :
    List SCEV → Nat → List String → Nat → Prop
  | [], m, ss, m' => ss = [] ∧ m' = m
  | e :: es, m, ss, m' =>
    ∃ s m1 rest, ss = s :: rest ∧ RendersSCEV E tbl e inPHI m s m1 ∧
      RendersAllSCEV E tbl inPHI es m1 rest m'

/-- The name `s` begins with `pat`. -/
def BeginsWith (s pat : String) : Prop := pat.data <+: s.data

/-- The name `s` contains `pat`. -/
def Contains (s pat : String) : Prop := pat.data <:+: s.data

/-- A function with values of the remaining classes: globals 0 ("offset") and 1 ("data"),
integer constants 2 (-3 on 32 bits), 3 (1) and 5 (0), constant expressions 4 (on the offset
global, selecting axis 1) and 7 (on the global "data"), a floating-point constant 6, a stack
slot 8, an element access 10, a call 12 of the C++ function `foo(int)`, a cast 13, a load 14
and a pointer adjustment 15, field extractions 17 and 19 of the struct parameters 16
("offset") and 18 ("b_off"), a vector element extraction 20 and a three-operand
instruction 22. -/
def kernelMisc : Env where
  ir := fun v =>
    match v with
    | 0 => ⟨"offset", .globalVariable⟩
    | 1 => ⟨"data", .globalVariable⟩
    | 2 => ⟨"", .constantInt 32 4294967293⟩
    | 3 => ⟨"", .constantInt 32 1⟩
    | 4 => ⟨"", .constantExpr .Other [0, 5, 3]⟩
    | 5 => ⟨"", .constantInt 32 0⟩
    | 6 => ⟨"", .constantOther⟩
    | 7 => ⟨"", .constantExpr .Add [1, 3]⟩
    | 8 => ⟨"arr.addr", .alloca⟩
    | 9 => ⟨"_ZN9cudarrays8dynarrayIfEclEjj",
            .function ⟨"cudarrays::dynarray<float>::operator()(unsigned int, unsigned int)",
              false, 3⟩⟩
    | 10 => ⟨"elem", .call 9 [8, 3, 3]⟩
    | 11 => ⟨"_Z3fooi", .function ⟨"foo(int)", false, 1⟩⟩
    | 12 => ⟨"r", .call 11 [3]⟩
    | 13 => ⟨"conv", .cast false 12⟩
    | 14 => ⟨"ld", .load 1⟩
    | 15 => ⟨"gep", .getElementPtr 1⟩
    | 16 => ⟨"offset", .argument (.struct (some "struct.dim3"))⟩
    | 17 => ⟨"ox", .extractValue 16 [0]⟩
    | 18 => ⟨"b_off", .argument (.struct (some "struct.dim3"))⟩
    | 19 => ⟨"oz", .extractValue 18 [2]⟩
    | 20 => ⟨"lane", .extractElement⟩
    | 22 => ⟨"sel", .inst .Select .ICMP_EQ [3, 3, 3]⟩
    | _ => ⟨"", .other⟩
  loops := fun l =>
    match l with
    | 0 => ⟨1, none⟩
    | _ => ⟨0, none⟩
  getSCEV := fun v => .unknown v
  hasLoopInvariantBackedgeTakenCount := fun l => l == 0
  getBackedgeTakenCount := fun l =>
    match l with
    | 0 => .constant 32 9
    | _ => .couldNotCompute
  getMaxBackedgeTakenCount := fun _ => .couldNotCompute
  getAddRecExpr := fun ops l => .addRec ops l
  stripPointerCasts := fun v => v

/-- The value of a constant evolution expression; `none` for the other expressions. -/
def constantValue : SCEV → Option Int
  | .constant w b => some (sextValue w b)
  | _ => none

/-- The order the specification gives to the operands of an addition: the non-constant
operands, then the non-negative constants (zero included), then the negative constants,
each group in the order of the operand list. -/
def claimedAddOrder (operands : List SCEV) : List SCEV :=
  operands.filter (fun e => (constantValue e).isNone) ++
  operands.filter (fun e =>
    match constantValue e with
    | some z => decide (0 ≤ z)
    | none => false) ++
  operands.filter (fun e =>
    match constantValue e with
    | some z => decide (z < 0)
    | none => false)

/-- A function with four loops, none with a loop-invariant backedge-taken count. The latch of
loop 0 ends in a switch (it holds no branch instruction), the latch of loop 1 ends in an
unconditional branch, the latch of loop 2 (depth 2) ends in a branch on the comparison 4
(`7 < n`), and loop 3 has no latch. Value 9 is a bitwise and, value 10 a bitwise or. -/
def kernelLatch : Env where
  ir := fun v =>
    match v with
    | 1 => ⟨"n", .argument .other⟩
    | 3 => ⟨"", .constantInt 32 7⟩
    | 4 => ⟨"cmp", .inst .ICmp .ICMP_SLT [3, 1]⟩
    | 5 => ⟨"", .inst .Br .ICMP_EQ [4, 20, 21]⟩
    | 6 => ⟨"", .inst .Br .ICMP_EQ [20]⟩
    | 7 => ⟨"", .inst .Switch .ICMP_EQ [3, 20]⟩
    | 8 => ⟨"inc", .inst .Add .ICMP_EQ [3, 3]⟩
    | 9 => ⟨"a", .inst .And .ICMP_EQ [1, 3]⟩
    | 10 => ⟨"o", .inst .Or .ICMP_EQ [1, 3]⟩
    | _ => ⟨"", .other⟩
  loops := fun l =>
    match l with
    | 0 => ⟨1, some [8, 7]⟩
    | 1 => ⟨1, some [8, 6]⟩
    | 2 => ⟨2, some [8, 5]⟩
    | _ => ⟨1, none⟩
  getSCEV := fun v => .unknown v
  hasLoopInvariantBackedgeTakenCount := fun _ => false
  getBackedgeTakenCount := fun _ => .couldNotCompute
  getMaxBackedgeTakenCount := fun _ => .constant 32 99
  getAddRecExpr := fun ops l => .addRec ops l
  stripPointerCasts := fun v => v

/-! ## Kernel selection: `Delinear::runOnModule` -/

/-- A function of the module: `fun.isDeclaration()` and
`demangle_symbol(fun.getName().data())`. -/
structure ModuleFunction where
  isDeclaration : Bool
  demangled : String
deriving DecidableEq

/-- The name test of `runOnModule` on the demangled name. -/
def isKernelName (name : String) : Bool :=
  find name "_kernel(" != npos ||
  find name "_kernel<" != npos ||
  (find name "_kernel_" != npos && find name "_<" == npos && find name "_(" == npos)

/-- The guard under which `runOnModule` processes a function. -/
def isKernel (f : ModuleFunction) : Bool :=
  !f.isDeclaration && isKernelName f.demangled

/-- The functions that the loop of `runOnModule` processes, in module order. -/
def kernelsOf (M : List ModuleFunction) : List ModuleFunction :=
  M.filter isKernel

/-- The name test as the specification words it: the name contains "_kernel(" or "_kernel<",
or has an occurrence of "_kernel_" that is not immediately followed by "_<" or "_(". -/
def ClaimedKernelName (name : String) : Prop :=
  Contains name "_kernel(" ∨ Contains name "_kernel<" ∨
  ∃ pre post : List Char, name.data = pre ++ "_kernel_".data ++ post ∧
    ¬ "_<".data <+: post ∧ ¬ "_(".data <+: post

/-! ## Strides: `GetNonUnitStride.cpp` -/

/-- The answers of the `DataLayout` and of the type queries that the stride functions read.
Values and unknowns are identified by natural numbers as in `Env`. -/
structure DataLayout where
  /-- For an unknown for which `isSizeOf(ty)` holds: `DL.getTypeAllocSize(ty)`. -/
  sizeOf : Nat → Option Nat
  /-- For an unknown for which `isAlignOf(ty)` holds: `DL.getABITypeAlignment(ty)`. -/
  alignOf : Nat → Option Nat
  /-- For a pointer: `DL.getTypeAllocSize(pointer->getType()->getPointerElementType())`. -/
  pointeeAllocSize : Nat → Nat

mutual
/-- The function `evaluate(const SCEV *, const DataLayout &)` on `uint64_t`; `fatal` where
the source asserts (`"Unimplemented"`). -/
def evaluate (DL : DataLayout) : SCEV → Res Nat
  | .mul operands => evaluateProduct DL operands 1
  | .unknown value =>
    match DL.sizeOf value with
    | some size => .ok (size % 2 ^ 64)
    | none =>
      match DL.alignOf value with
      | some align => .ok (align % 2 ^ 64)
      | none => .ok 0
  | .constant w b => .ok (getLimitedValue w b)
  | .cast .ZeroExtend operand => evaluate DL operand
  | _ => .fatal
/-- The loop `result *= evaluate(*it, DL)` over the operands of a product. -/
def evaluateProduct (DL : DataLayout) : List SCEV → Nat → Res Nat
  | [], result => .ok result
  | op :: rest, result =>
    (evaluate DL op).bind fun x => evaluateProduct DL rest (result * x % 2 ^ 64)
end

/-- The function `getStride(pointer, SE, DL)`; `isAffine()` is `getNumOperands() == 2`. -/
def getStride (E : Env) (DL : DataLayout) (pointer : Nat) : Res Nat :=
  match E.getSCEV pointer with
  | .addRec operands loop =>
    if operands.length == 2 then evaluate DL (getStepRecurrence E operands loop)
    else .ok 0
  | _ => .ok 0

/-- The function `getUnitStride(pointer, DL)`. -/
def getUnitStride (DL : DataLayout) (pointer : Nat) : Nat :=
  DL.pointeeAllocSize pointer % 2 ^ 64

/-- The function `isNonUnitStride(pointer, SE, DL)`:
`stride && stride != getUnitStride(pointer, DL)`. -/
def isNonUnitStride (E : Env) (DL : DataLayout) (pointer : Nat) : Res Bool :=
  (getStride E DL pointer).bind fun stride =>
  .ok (stride != 0 && stride != getUnitStride DL pointer)

/-- Three pointers to 4-byte elements inside loop 0: pointer 0 advances by `3 * sizeof(float)`
per iteration, pointer 1 by `sizeof(float)`, and pointer 2 by `4 * n` for the run-time value
`n` (value 6), which is neither a `sizeof` nor an `alignof` expression. -/
def kernelStride : Env where
  ir := fun _ => ⟨"", .other⟩
  loops := fun _ => ⟨1, none⟩
  getSCEV := fun v =>
    match v with
    | 0 => .addRec [.unknown 10, .mul [.constant 64 3, .unknown 5]] 0
    | 1 => .addRec [.unknown 10, .unknown 5] 0
    | 2 => .addRec [.unknown 10, .mul [.constant 64 4, .cast .ZeroExtend (.unknown 6)]] 0
    | _ => .unknown v
  hasLoopInvariantBackedgeTakenCount := fun _ => false
  getBackedgeTakenCount := fun _ => .couldNotCompute
  getMaxBackedgeTakenCount := fun _ => .couldNotCompute
  getAddRecExpr := fun ops l => .addRec ops l
  stripPointerCasts := fun v => v

/-- The data layout for `kernelStride`: unknown 5 is `sizeof(float)`, every pointee has
allocation size 4. -/
def layoutStride : DataLayout where
  sizeOf := fun v => if v = 5 then some 4 else none
  alignOf := fun _ => none
  pointeeAllocSize := fun _ => 4

/-! ## The per-function scan: `runOnFunction`, `runOnLoop`, `runOnBB`, `runOnAccess` -/

/-- What the scan reads of the function and of `LoopInfo`. Blocks and loops are identified
by natural numbers. -/
structure FunctionBody where
  /-- The basic blocks of the function, in layout order. -/
  blocks : List Nat
  /-- The instructions of a block, in order. -/
  instructions : Nat → List Nat
  /-- The top-level loops, `LI.begin()` to `LI.end()`. -/
  topLevelLoops : List Nat
  /-- The loops directly nested in a loop, `loop->begin()` to `loop->end()`. -/
  subLoops : Nat → List Nat
  /-- The blocks of a loop, `block_begin()` to `block_end()`: all the blocks the loop is
  made of, those of the loops nested in it included. -/
  loopBlocks : Nat → List Nat
  /-- The answer of `getType()->isPointerTy()` on a value. -/
  isPointerTy : Nat → Bool

/-- State of the scan: the records of `FunctionAccessInfo`, the static translation table
and the set `blocksVisited`. -/
structure ScanState where
  F : ArrayInfoMap
  tbl : Translations
  blocksVisited : List Nat

def isNull : Node → Bool
  | .null => true
  | _ => false

/-- The method `runOnAccess(F, loop, call, SE, write)`. -/
def runOnAccess (E : Env) (body : FunctionBody) (fuel : Nat) (loop : Option Nat)
    (calledValue : Nat) (args : List Nat) (write : Bool) (st : ScanState) : Res ScanState :=
  match getArgOperand calledValue args 0 with
  | none => .fatal
  | some dynarray =>
    if isNull (E.ir dynarray).node then .ok st
    else if !body.isPointerTy dynarray then .fatal
    else
      (AccessInfo.new E st.tbl fuel dynarray calledValue args loop write).bind fun r =>
      .ok { st with F := addAccessInfo st.F r.1, tbl := r.2 }

/-- The loop `for (auto &inst : bb)` of `runOnBB`. -/
def runOnInsts (E : Env) (body : FunctionBody) (fuel : Nat) (loop : Option Nat) :
    List Nat → ScanState → Res ScanState
  | [], st => .ok st
  | inst :: rest, st =>
    match (E.ir inst).node with
    | .call calledValue args =>
      match getCalledFunction E calledValue with
      | none => runOnInsts E body fuel loop rest st
      | some (_, info) =>
        if isDynarrayMember info.demangled "operator()" && !info.doesNotReturn then
          (runOnAccess E body fuel loop calledValue args true st).bind fun st1 =>
          runOnInsts E body fuel loop rest st1
        else runOnInsts E body fuel loop rest st
    | _ => runOnInsts E body fuel loop rest st

/-- The method `runOnBB(F, loop, bb, SE, blocksVisited)`. -/
def runOnBB (E : Env) (body : FunctionBody) (fuel : Nat) (loop : Option Nat) (bb : Nat)
    (st : ScanState) : Res ScanState :=
  runOnInsts E body fuel loop (body.instructions bb)
    { st with blocksVisited :=
        if st.blocksVisited.contains bb then st.blocksVisited else st.blocksVisited ++ [bb] }

/-- The loop of `runOnLoop` over the blocks `bbs`. -/
def runOnBlocks (E : Env) (body : FunctionBody) (fuel : Nat) (loop : Nat) :
    List Nat → ScanState → Res ScanState
  | [], st => .ok st
  | bb :: rest, st =>
    (runOnBB E body fuel (some loop) bb st).bind fun st1 =>
    runOnBlocks E body fuel loop rest st1

/-- The method `runOnLoop(F, loop, SE, blocksVisited)`. -/
def runOnLoop (E : Env) (body : FunctionBody) (fuel : Nat) (loop : Nat) (st : ScanState) :
    Res ScanState :=
  runOnBlocks E body fuel loop (body.loopBlocks loop) st

/-- The loop `while(!workList.empty())` of `runOnFunction`, with a bound on the number of
iterations: the last loop of the list is taken, processed, and the loops nested in it are
appended. The loops of `LoopInfo` are never null, so the test `loop != NULL` holds. -/
def runOnWorkList (E : Env) (body : FunctionBody) (fuel : Nat) :
    Nat → List Nat → ScanState → Res ScanState
  | 0, workList, st => if workList.isEmpty then .ok st else .timeout
  | steps + 1, workList, st =>
    match workList.getLast? with
    | none => .ok st
    | some loop =>
      (runOnLoop E body fuel loop st).bind fun st1 =>
      runOnWorkList E body fuel steps (workList.dropLast ++ body.subLoops loop) st1

/-- The loop `for (BasicBlock &bb : fun)` of `runOnFunction` over the blocks `bbs`. -/
def runOnUnvisited (E : Env) (body : FunctionBody) (fuel : Nat) :
    List Nat → ScanState → Res ScanState
  | [], st => .ok st
  | bb :: rest, st =>
    if !st.blocksVisited.contains bb then
      (runOnBB E body fuel none bb st).bind fun st1 =>
      runOnUnvisited E body fuel rest
        { st1 with blocksVisited :=
            if st1.blocksVisited.contains bb then st1.blocksVisited
            else st1.blocksVisited ++ [bb] }
    else runOnUnvisited E body fuel rest st

/-- The method `runOnFunction(F)` on a fresh `FunctionAccessInfo`, given the state `tbl` of
the static translation table; `fuel` bounds the recursion of the builders and the number
of iterations of the work list. -/
def runOnFunction (E : Env) (body : FunctionBody) (fuel : Nat) (tbl : Translations) :
    Res ScanState :=
  (runOnWorkList E body fuel fuel body.topLevelLoops
    { F := [], tbl := tbl, blocksVisited := [] }).bind fun st =>
  runOnUnvisited E body fuel body.blocks st

/-- The number of access records of each array of a scan. -/
def recordCounts (r : Res ScanState) : Res (List (Nat × Nat)) :=
  r.bind fun st => .ok (st.F.map fun e => (e.1, e.2.length))

/-- The instructions of a function, `inst_begin(F)` to `inst_end(F)`. -/
def FunctionBody.insts (body : FunctionBody) : List Nat :=
  body.blocks.flatMap body.instructions
/-! ## Read and write sets: `getCUDArraySet`, `findAllocaSource`, `createAllocaToArgMap` -/

/-- The test `getName().startswith(pat)` of a `StringRef`. -/
def startswith (name pat : String) : Bool := pat.data.isPrefixOf name.data

/-- The method `findAllocaSource(V)`, with a bound on the recursion depth; `none` is the
result `NULL`. -/
def findAllocaSource (E : Env) : Nat → Nat → Res (Option Nat)
  | 0, _ => .timeout
  | fuel + 1, V =>
    match (E.ir V).node with
    | .alloca => .ok (some V)
    | .cast true operand0 => findAllocaSource E fuel operand0
    | .call calledValue args =>
      match getCalledFunction E calledValue with
      | none => .ok none
      | some (name, info) =>
        if !startswith name "llvm.nvvm.ptr.gen.to." then .ok none
        else if info.argSize != 1 then .ok none
        else
          match getArgOperand calledValue args 0 with
          | none => .fatal
          | some arg => findAllocaSource E fuel arg
    | _ => .ok none

/-- The instruction class `T` of `getCUDArraySet<T>`. -/
inductive MemOper where
  | LoadInst | StoreInst
deriving DecidableEq, Repr

/-- The result of `dyn_cast<T>(inst)` followed by `getPointerOperand()`: `none` when the
instruction is not a `T`. A store has the operands value and pointer. -/
def getPointerOperand : MemOper → Node → Option Nat
  | .LoadInst, .load pointer => some pointer
  | .StoreInst, .inst .Store _ [_, pointer] => some pointer
  | _, _ => none

/-- The tests of `getCUDArraySet` on the IR name of the called function; `count` is used as
a truth value. -/
def isCUDArrayFunction (name : String) : Bool :=
  find name "cudarrays" != npos &&
  (find name "array_storage" != npos || find name "dynarray" != npos)

/-- The result of one iteration of the loop of `getCUDArraySet<T>`: `none` where the
iteration ends in `continue`, else the pointer passed to `allocaSet.insert` (which may be
`NULL`). The function `underlying` holds the answers of `llvm::GetUnderlyingObject`. -/
def arraySlotOf (E : Env) (underlying : Nat → Nat) (fuel : Nat) (T : MemOper) (inst : Nat) :
    Res (Option (Option Nat)) :=
  match getPointerOperand T (E.ir inst).node with
  | none => .ok none
  | some ptr =>
    match (E.ir (underlying ptr)).node with
    | .call calledValue args =>
      match getCalledFunction E calledValue with
      | none => .ok none
      | some (name, _) =>
        if !isCUDArrayFunction name then .ok none
        else
          match getArgOperand calledValue args 0 with
          | none => .fatal
          | some arg => (findAllocaSource E fuel arg).bind fun alloca => .ok (some alloca)
    | _ => .ok none

/-- The method `getCUDArraySet<T>(F)` over the instructions of the function in order, from
the set built so far. -/
def getCUDArraySet (E : Env) (underlying : Nat → Nat) (fuel : Nat) (T : MemOper) :
    List Nat → List (Option Nat) → Res (List (Option Nat))
  | [], allocaSet => .ok allocaSet
  | inst :: rest, allocaSet =>
    (arraySlotOf E underlying fuel T inst).bind fun r =>
    match r with
    | none => getCUDArraySet E underlying fuel T rest allocaSet
    | some alloca =>
      getCUDArraySet E underlying fuel T rest
        (if allocaSet.contains alloca then allocaSet else allocaSet ++ [alloca])

/-- The stack slots of a set: the pointers other than `NULL`. -/
def slotsOf (allocaSet : List (Option Nat)) : List Nat := allocaSet.filterMap id

def isArgument : Node → Bool
  | .argument _ => true
  | _ => false

/-- The method `createAllocaToArgMap(F)` over the instructions of the function in order;
the newest entry of a slot comes first. -/
def createAllocaToArgMap (E : Env) (fuel : Nat) :
    List Nat → List (Nat × Nat) → Res (List (Nat × Nat))
  | [], argMap => .ok argMap
  | inst :: rest, argMap =>
    match (E.ir inst).node with
    | .inst .Store _ [value, pointer] =>
      if isArgument (E.ir value).node then
        (findAllocaSource E fuel pointer).bind fun r =>
        match r with
        | none => createAllocaToArgMap E fuel rest argMap
        | some alloca =>
          createAllocaToArgMap E fuel rest ((alloca, value) :: argMap.filter (·.1 != alloca))
      else createAllocaToArgMap E fuel rest argMap
    | _ => createAllocaToArgMap E fuel rest argMap

/-- The statements of `runOnModule` that follow `runOnFunction` for one kernel: the slot to
argument map and the read and write sets are built, then `insertCUDArrayInfo` runs on the
first sink and, when that returns, on the second. The result holds the state of both
sinks. -/
def reportKernel (E : Env) (underlying : Nat → Nat) (fuel : Nat) (insts : List Nat)
    (driver driverRT : List Fact) (function : Nat) (funInfo : ArrayInfoMap) :
    Res (Run × Run) :=
  (createAllocaToArgMap E fuel insts []).bind fun argMap =>
  (getCUDArraySet E underlying fuel .LoadInst insts []).bind fun readSet =>
  (getCUDArraySet E underlying fuel .StoreInst insts []).bind fun writeSet =>
  let first := insertCUDArrayInfo E driver function funInfo argMap (slotsOf readSet)
    (slotsOf writeSet)
  if first.alive then
    .ok (first, insertCUDArrayInfo E driverRT function funInfo argMap (slotsOf readSet)
      (slotsOf writeSet))
  else .ok (first, { log := driverRT, alive := false })

/-- The body of the loop of `runOnModule` for one kernel: the scan, then the report to the
two sinks. -/
def processKernel (E : Env) (underlying : Nat → Nat) (body : FunctionBody) (fuel : Nat)
    (tbl : Translations) (driver driverRT : List Fact) (function : Nat) : Res (Run × Run) :=
  (runOnFunction E body fuel tbl).bind fun st =>
  reportKernel E underlying fuel body.insts driver driverRT function st.F

/-- A kernel `k(arr, out)` (function 20) that reads an element of `arr` and writes it to an
element of `out`: each argument is stored to its stack slot (2 and 7), the element
addresses are the results of calls to `cudarrays::dynarray::operator()` on the slots. -/
def kernelRW : Env where
  ir := fun v =>
    match v with
    | 0 => ⟨"_ZN9cudarrays8dynarrayIA0_fEclEj",
            .function ⟨"cudarrays::dynarray<float [0]>::operator()(unsigned int)", false, 2⟩⟩
    | 1 => ⟨"arr", .argument .other⟩
    | 2 => ⟨"arr.addr", .alloca⟩
    | 3 => ⟨"", .inst .Store .ICMP_EQ [1, 2]⟩
    | 4 => ⟨"src", .call 0 [2, 11]⟩
    | 5 => ⟨"val", .load 4⟩
    | 6 => ⟨"out", .argument .other⟩
    | 7 => ⟨"out.addr", .alloca⟩
    | 8 => ⟨"", .inst .Store .ICMP_EQ [6, 7]⟩
    | 9 => ⟨"dst", .call 0 [7, 11]⟩
    | 10 => ⟨"", .inst .Store .ICMP_EQ [5, 9]⟩
    | 11 => ⟨"tx", .call 12 []⟩
    | 12 => ⟨"llvm.nvvm.read.ptx.sreg.tid.x", .function ⟨"llvm.nvvm.read.ptx.sreg.tid.x", false, 0⟩⟩
    | _ => ⟨"", .other⟩
  loops := fun _ => ⟨0, none⟩
  getSCEV := fun v => .unknown v
  hasLoopInvariantBackedgeTakenCount := fun _ => false
  getBackedgeTakenCount := fun _ => .couldNotCompute
  getMaxBackedgeTakenCount := fun _ => .couldNotCompute
  getAddRecExpr := fun ops l => .addRec ops l
  stripPointerCasts := fun v => v

/-- The instructions of the kernel of `kernelRW`, in order. -/
def kernelRWInsts : List Nat := [2, 7, 3, 8, 11, 4, 5, 9, 10]

/-- The kernel of `kernelRW` as one block without loops. -/
def bodyRW : FunctionBody where
  blocks := [0]
  instructions := fun _ => kernelRWInsts
  topLevelLoops := []
  subLoops := fun _ => []
  loopBlocks := fun _ => []
  isPointerTy := fun v => v == 2 || v == 7

/-- The kernel of `kernelRW` without the store of `out` to its slot: the slot 7 is then a
stack slot that is not mapped to a kernel argument. -/
def bodyUnmapped : FunctionBody where
  blocks := [0]
  instructions := fun _ => [2, 7, 3, 11, 4, 5, 9, 10]
  topLevelLoops := []
  subLoops := fun _ => []
  loopBlocks := fun _ => []
  isPointerTy := fun v => v == 2 || v == 7

/-- The read of `arr` of `kernelRW` (instructions 11, 4, 5, in block 2) inside `depth`
nested loops, for `depth` 0, 1 or 2: block 0 is the entry block, block 1 the header of the
outer loop 0, block 2 the body of the inner loop 1, block 3 the exit. -/
def bodyNested (depth : Nat) : FunctionBody where
  blocks := [0, 1, 2, 3]
  instructions := fun bb =>
    match bb with
    | 0 => [2, 3]
    | 2 => [11, 4, 5]
    | _ => []
  topLevelLoops := if depth = 0 then [] else [0]
  subLoops := fun l => if l = 0 ∧ depth = 2 then [1] else []
  loopBlocks := fun l =>
    match l with
    | 0 => [1, 2]
    | 1 => [2]
    | _ => []
  isPointerTy := fun v => v == 2 || v == 7

/-- The specification's provenance: the walk through bitcasts and address-space-conversion
calls from `pointer` ends at the stack slot `slot`. -/
def TracesToSlot (E : Env) (pointer slot : Nat) : Prop :=
  ∃ fuel, findAllocaSource E fuel pointer = .ok (some slot)

/-- The test of `runOnBB` on an instruction: a call to a returning
`cudarrays::dynarray` `operator()`. -/
def isAccessCall (E : Env) (inst : Nat) : Bool :=
  match (E.ir inst).node with
  | .call calledValue _ =>
    match getCalledFunction E calledValue with
    | none => false
    | some (_, info) => isDynarrayMember info.demangled "operator()" && !info.doesNotReturn
  | _ => false

/-- The array-access call sites of a function, in instruction order. -/
def accessCallSites (E : Env) (body : FunctionBody) : List Nat :=
  body.insts.filter (isAccessCall E)

/-- The total number of access records of a scan. -/
def totalRecords (r : Res ScanState) : Res Nat :=
  r.bind fun st => .ok ((st.F.map fun e => e.2.length).sum)

/-- Calls of the accessor `cudarrays::dynarray<float>::get_dim(unsigned int) const`
(function 0) on the stack slot 1: call 4 with the constant 1, call 5 with the parameter `d`,
call 6 without argument and call 7 with the array only; value 8 is the constant 2^64 + 5 on
128 bits and call 9 passes it. -/
def kernelDim : Env where
  ir := fun v =>
    match v with
    | 0 => ⟨"_ZNK9cudarrays8dynarrayIfE7get_dimEj",
            .function ⟨"cudarrays::dynarray<float>::get_dim(unsigned int) const", false, 2⟩⟩
    | 1 => ⟨"arr.addr", .alloca⟩
    | 2 => ⟨"", .constantInt 32 1⟩
    | 3 => ⟨"d", .argument .other⟩
    | 4 => ⟨"n1", .call 0 [1, 2]⟩
    | 5 => ⟨"nd", .call 0 [1, 3]⟩
    | 6 => ⟨"n0", .call 0 []⟩
    | 7 => ⟨"na", .call 0 [1]⟩
    | 8 => ⟨"", .constantInt 128 18446744073709551621⟩
    | 9 => ⟨"nw", .call 0 [1, 8]⟩
    | _ => ⟨"", .other⟩
  loops := fun _ => ⟨0, none⟩
  getSCEV := fun v => .unknown v
  hasLoopInvariantBackedgeTakenCount := fun _ => false
  getBackedgeTakenCount := fun _ => .couldNotCompute
  getMaxBackedgeTakenCount := fun _ => .couldNotCompute
  getAddRecExpr := fun ops l => .addRec ops l
  stripPointerCasts := fun v => v

/-- A pointer to 4-byte elements (value 0) that advances by `8 * n` per iteration of loop 0,
with `n` (value 6) a run-time value that is neither a `sizeof` nor an `alignof`
expression. -/
def kernelRuntimeStride : Env where
  ir := fun _ => ⟨"", .other⟩
  loops := fun _ => ⟨1, none⟩
  getSCEV := fun v =>
    match v with
    | 0 => .addRec [.unknown 10, .mul [.constant 64 8, .unknown 6]] 0
    | _ => .unknown v
  hasLoopInvariantBackedgeTakenCount := fun _ => false
  getBackedgeTakenCount := fun _ => .couldNotCompute
  getMaxBackedgeTakenCount := fun _ => .couldNotCompute
  getAddRecExpr := fun ops l => .addRec ops l
  stripPointerCasts := fun v => v

/-- One step of the provenance walk from `V` to `W`: `V` is a bitcast of `W`, or `V` is a
call with first argument `W` to a function whose name starts with "llvm.nvvm.ptr.gen.to."
and that has exactly one formal parameter. -/
def ConversionStep (E : Env) (V W : Nat) : Prop :=
  (E.ir V).node = .cast true W ∨
  ∃ cv args name info, (E.ir V).node = .call cv args ∧
    getCalledFunction E cv = some (name, info) ∧
    BeginsWith name "llvm.nvvm.ptr.gen.to." ∧ info.argSize = 1 ∧
    getArgOperand cv args 0 = some W

/-- A stack slot (value 1) seen through a bitcast (2), an address-space conversion of the
bitcast (4, a call to function 3), and a second bitcast (5); value 6 is an
integer-to-pointer cast of a parameter and value 8 a call to another function. -/
def kernelWalk : Env where
  ir := fun v =>
    match v with
    | 1 => ⟨"arr.addr", .alloca⟩
    | 2 => ⟨"bc", .cast true 1⟩
    | 3 => ⟨"llvm.nvvm.ptr.gen.to.local.p5i8.p0i8",
            .function ⟨"llvm.nvvm.ptr.gen.to.local.p5i8.p0i8", false, 1⟩⟩
    | 4 => ⟨"conv", .call 3 [2]⟩
    | 5 => ⟨"bc2", .cast true 4⟩
    | 6 => ⟨"ip", .cast false 9⟩
    | 7 => ⟨"_Z3fooPv", .function ⟨"foo(void*)", false, 1⟩⟩
    | 8 => ⟨"r", .call 7 [1]⟩
    | 9 => ⟨"n", .argument .other⟩
    | _ => ⟨"", .other⟩
  loops := fun _ => ⟨0, none⟩
  getSCEV := fun v => .unknown v
  hasLoopInvariantBackedgeTakenCount := fun _ => false
  getBackedgeTakenCount := fun _ => .couldNotCompute
  getMaxBackedgeTakenCount := fun _ => .couldNotCompute
  getAddRecExpr := fun ops l => .addRec ops l
  stripPointerCasts := fun v => v

/-- The name `s` ends with `pat`. -/
def EndsWith (s pat : String) : Prop := pat.data <:+ s.data

/-- Field extractions from parameters of type `struct.dim3` with short names: value 1
extracts field 1 of the parameter "sz" (value 0), value 3 field 0 of the parameter "n"
(value 2), value 5 field 0 of a parameter without name (value 4) and value 7 field 2 of the
parameter "size" (value 6). -/
def kernelShortName : Env where
  ir := fun v =>
    match v with
    | 0 => ⟨"sz", .argument (.struct (some "struct.dim3"))⟩
    | 1 => ⟨"sy", .extractValue 0 [1]⟩
    | 2 => ⟨"n", .argument (.struct (some "struct.dim3"))⟩
    | 3 => ⟨"nx", .extractValue 2 [0]⟩
    | 4 => ⟨"", .argument (.struct (some "struct.dim3"))⟩
    | 5 => ⟨"ux", .extractValue 4 [0]⟩
    | 6 => ⟨"size", .argument (.struct (some "struct.dim3"))⟩
    | 7 => ⟨"sizez", .extractValue 6 [2]⟩
    | _ => ⟨"", .other⟩
  loops := fun _ => ⟨0, none⟩
  getSCEV := fun v => .unknown v
  hasLoopInvariantBackedgeTakenCount := fun _ => false
  getBackedgeTakenCount := fun _ => .couldNotCompute
  getMaxBackedgeTakenCount := fun _ => .couldNotCompute
  getAddRecExpr := fun ops l => .addRec ops l
  stripPointerCasts := fun v => v

/-- The mask stored at index `d` of the dimension list of a record; 0 when the list has no
such index. -/
def maskAt (r : AccessInfo) (d : Nat) : Nat :=
  match r.base_[d]? with
  | some di => di.mask
  | none => 0

/-- The bitwise union over the records of a list of the masks stored at index `d`. -/
def indexMask (records : List AccessInfo) (d : Nat) : Nat :=
  (records.map fun r => maskAt r d).foldr (· ||| ·) 0

/-- Every entry of the dimension list of a record has its dimension field equal to its
index. -/
def WellIndexed (r : AccessInfo) : Prop :=
  ∀ (j : Nat) (di : DimInfo), r.base_[j]? = some di → di.dim = j

/-- The short name of the block-id register of a grid axis (0, 1, 2). -/
def blockIdName (axis : Nat) : String :=
  if axis = 0 then "b.x" else if axis = 1 then "b.y" else "b.z"

/-- Every axis bit that the mask `m'` has and the mask `m` has not is named in the formula
`s`: the formula contains the short name of the block-id register of that axis. -/
def Named (m : Nat) (s : String) (m' : Nat) : Prop :=
  ∀ axis, axis < 3 → m'.testBit axis = true →
    m.testBit axis = true ∨ Contains s (blockIdName axis)

/-- A run entered with mask `m` names every axis bit it adds. -/
def BitsNamed (m : Nat) (r : Res (String × Nat)) : Prop :=
  ∀ s m', r = .ok (s, m') → Named m s m'

/-- The operands into which the Symbolic Formula Builder may descend from a value that is
not a control-flow merge: the edges of the value graph that do not leave a merge. -/
def valueOperands (E : Env) (v : Nat) : List Nat :=
  match (E.ir v).node with
  | .extractValue aggregate _ => [aggregate]
  | .getElementPtr pointer => [pointer]
  | .cast _ operand0 => [operand0]
  | .load pointer => [pointer]
  | .constantExpr _ operands => operands
  | .inst _ _ operands => operands
  | _ => []

/-- The expressions into which the Evolution Formula Builder may descend from an evolution
expression: its operands and, for a recurrence, the step and the loop-invariant count that
the evolution service returns for it. -/
def subexpressions (E : Env) : SCEV → List SCEV
  | .udiv lhs rhs => [lhs, rhs]
  | .addRec operands loop =>
    match operands.head? with
    | none => []
    | some start =>
      start :: getStepRecurrence E operands loop ::
        (if E.hasLoopInvariantBackedgeTakenCount loop &&
            !isCouldNotCompute (E.getBackedgeTakenCount loop) then
          [E.getBackedgeTakenCount loop]
        else [])
  | .mul operands => operands
  | .add operands => operands
  | .smax operands => operands
  | .umax operands => operands
  | .cast _ operand => [operand]
  | _ => []

mutual
/-- The number of nodes of an evolution expression. -/
def SCEV.size : SCEV → Nat
  | .udiv lhs rhs => lhs.size + rhs.size + 1
  | .addRec operands _ => SCEV.sizeList operands + 1
  | .mul operands => SCEV.sizeList operands + 1
  | .add operands => SCEV.sizeList operands + 1
  | .smax operands => SCEV.sizeList operands + 1
  | .umax operands => SCEV.sizeList operands + 1
  | .cast _ operand => operand.size + 1
  | _ => 1
/-- The number of nodes of a list of evolution expressions. -/
def SCEV.sizeList : List SCEV → Nat
  | [] => 0
  | e :: es => e.size + SCEV.sizeList es
end

/-- The depth below which the values of `kernelPhi` are acyclic when the edges leaving a
merge are left out: the addition 6 is above its operands. -/
def rankPhi (v : Nat) : Nat := if v = 6 then 1 else 0

/-- The kernel of `kernelBxTy` with a variadic accessor: the function 2,
`operator()(unsigned int, ...)`, has two formal parameters (the array and one index) and the
call 6 passes three operands, `arr(blockIdx.x, threadIdx.y)`. -/
def kernelVariadic : Env where
  ir := fun v =>
    match v with
    | 0 => ⟨"llvm.nvvm.read.ptx.sreg.ctaid.x", .function ⟨"llvm.nvvm.read.ptx.sreg.ctaid.x", false, 0⟩⟩
    | 1 => ⟨"llvm.nvvm.read.ptx.sreg.tid.y", .function ⟨"llvm.nvvm.read.ptx.sreg.tid.y", false, 0⟩⟩
    | 2 => ⟨"_ZN9cudarrays8dynarrayIA0_A0_fEclEjz",
            .function ⟨"cudarrays::dynarray<float [0][0]>::operator()(unsigned int, ...)",
              false, 2⟩⟩
    | 3 => ⟨"arr.addr", .alloca⟩
    | 4 => ⟨"bx", .call 0 []⟩
    | 5 => ⟨"ty", .call 1 []⟩
    | 6 => ⟨"elem", .call 2 [3, 4, 5]⟩
    | 7 => ⟨"arr", .argument .other⟩
    | _ => ⟨"", .other⟩
  loops := fun _ => ⟨0, none⟩
  getSCEV := fun v => .unknown v
  hasLoopInvariantBackedgeTakenCount := fun _ => false
  getBackedgeTakenCount := fun _ => .couldNotCompute
  getMaxBackedgeTakenCount := fun _ => .couldNotCompute
  getAddRecExpr := fun ops l => .addRec ops l
  stripPointerCasts := fun v => v

/-! ## General lemmas -/

theorem sim_bind {σ τ : Type} {R : σ → τ → Prop} {r1 : Res (String × σ)}
    {r2 : Res (String × τ)} {k1 : String × σ → Res (String × σ)}
    {k2 : String × τ → Res (String × τ)} (h : Sim R r1 r2)
    (hk : ∀ s a b, R a b → Sim R (k1 (s, a)) (k2 (s, b))) :
    Sim R (r1.bind k1) (r2.bind k2) := by
  cases r1 with
  | timeout => trivial
  | fatal =>
    have h2 : r2 = .fatal := h
    subst h2
    rfl
  | ok a =>
    obtain ⟨b, hb, hR⟩ := h
    subst hb
    exact hk a.1 a.2 b hR

theorem sim_ok {σ τ : Type} {R : σ → τ → Prop} (s : String) {a : σ} {b : τ} (h : R a b) :
    Sim R (.ok (s, a)) (.ok (s, b)) := ⟨b, rfl, h⟩

theorem sim_fatal {σ τ : Type} {R : σ → τ → Prop} :
    Sim R (.fatal : Res (String × σ)) (.fatal : Res (String × τ)) := rfl

theorem renderLoop_sim {σ τ α : Type} {R : σ → τ → Prop} {f1 : α → σ → Res (String × σ)}
    {f2 : α → τ → Res (String × τ)} (hf : ∀ x a b, R a b → Sim R (f1 x a) (f2 x b))
    (sep last : String) (n : Nat) (xs : List α) :
    ∀ (i : Nat) (a : σ) (b : τ), R a b →
      Sim R (renderLoop f1 sep last n xs i a) (renderLoop f2 sep last n xs i b) := by
  induction xs with
  | nil => intro i a b hab; exact sim_ok "" hab
  | cons x xs ih =>
    intro i a b hab
    unfold renderLoop
    refine sim_bind (hf x a b hab) ?_
    intro s a1 b1 h1
    refine sim_bind (ih (i + 1) a1 b1 h1) ?_
    intro t a2 b2 h2
    exact sim_ok _ h2

theorem getFunctionName_sim {σ τ : Type} {R : σ → τ → Prop} (E : Env) (tbl : Translations)
    {upd1 : String → String → σ → σ} {upd2 : String → String → τ → τ}
    (hupd : ∀ raw a b, tbl.count raw > 0 → R a b →
      R (upd1 raw (tbl.get raw) a) (upd2 raw (tbl.get raw) b))
    (cv : Nat) (args : List Nat) (a : σ) (b : τ) (hab : R a b) :
    Sim R (getFunctionName E tbl upd1 cv args a) (getFunctionName E tbl upd2 cv args b) := by
  unfold getFunctionName
  repeat' split
  all_goals first
    | exact sim_fatal
    | exact sim_ok _ hab
    | exact sim_ok _ (hupd _ _ _ (by assumption) hab)

theorem stepV_sim {σ τ : Type} {R : σ → τ → Prop} (E : Env) (tbl : Translations)
    {upd1 : String → String → σ → σ} {upd2 : String → String → τ → τ}
    (hupd : ∀ raw a b, tbl.count raw > 0 → R a b →
      R (upd1 raw (tbl.get raw) a) (upd2 raw (tbl.get raw) b))
    {rec1 : Nat → Bool → σ → Res (String × σ)} {rec2 : Nat → Bool → τ → Res (String × τ)}
    (hrec : ∀ v p a b, R a b → Sim R (rec1 v p a) (rec2 v p b))
    (v : Nat) (p : Bool) (a : σ) (b : τ) (hab : R a b) :
    Sim R (stepV E tbl upd1 rec1 v p a) (stepV E tbl upd2 rec2 v p b) := by
  unfold stepV
  split
  all_goals try exact sim_fatal
  all_goals try exact sim_ok _ hab
  all_goals try exact hrec _ _ _ _ hab
  · -- call
    repeat' split
    all_goals first
      | exact sim_fatal
      | exact sim_ok _ hab
      | exact getFunctionName_sim E tbl hupd _ _ _ _ hab
  · -- extractValue
    repeat' split
    all_goals first
      | exact sim_fatal
      | exact sim_ok _ hab
      | exact hrec _ _ _ _ hab
  · -- constantExpr
    split
    · exact sim_fatal
    · split
      · refine sim_bind (hrec _ _ _ _ hab) ?_
        intro s a1 b1 h1
        repeat' split
        all_goals first
          | exact sim_fatal
          | exact sim_ok _ h1
      · exact renderLoop_sim (fun x a b h => hrec x p a b h) _ _ _ _ _ _ _ hab
  · -- inst
    split
    · refine sim_bind (hrec _ _ _ _ hab) ?_
      intro s a1 b1 h1
      split
      · exact sim_fatal
      · refine sim_bind (hrec _ _ _ _ h1) ?_
        intro t a2 b2 h2
        exact sim_ok _ h2
    · exact sim_fatal
  · -- phi
    split
    · refine sim_bind (renderLoop_sim (fun x a b h => hrec x true a b h) _ _ _ _ _ _ _ hab) ?_
      intro s a1 b1 h1
      exact sim_ok _ h1
    · exact sim_ok _ hab

theorem stepS_sim {σ τ : Type} {R : σ → τ → Prop} (E : Env)
    {recV1 : Nat → Bool → σ → Res (String × σ)} {recV2 : Nat → Bool → τ → Res (String × τ)}
    (hrecV : ∀ v p a b, R a b → Sim R (recV1 v p a) (recV2 v p b))
    {recS1 : SCEV → Bool → σ → Res (String × σ)} {recS2 : SCEV → Bool → τ → Res (String × τ)}
    (hrecS : ∀ e p a b, R a b → Sim R (recS1 e p a) (recS2 e p b))
    (e : SCEV) (p : Bool) (a : σ) (b : τ) (hab : R a b) :
    Sim R (stepS E recV1 recS1 e p a) (stepS E recV2 recS2 e p b) := by
  have hloop : ∀ (sep last : String) (n : Nat) (xs : List SCEV) (a : σ) (b : τ), R a b →
      Sim R (renderLoop (fun x s => recS1 x p s) sep last n xs 0 a)
        (renderLoop (fun x s => recS2 x p s) sep last n xs 0 b) :=
    fun sep last n xs a b h =>
      renderLoop_sim (fun x a b h => hrecS x p a b h) sep last n xs 0 a b h
  unfold stepS
  split
  all_goals try exact sim_ok _ hab
  all_goals try exact hrecV _ _ _ _ hab
  all_goals try exact hrecS _ _ _ _ hab
  · -- udiv
    refine sim_bind (hrecS _ _ _ _ hab) ?_
    intro s a1 b1 h1
    refine sim_bind (hrecS _ _ _ _ h1) ?_
    intro t a2 b2 h2
    exact sim_ok _ h2
  · -- addRec
    split
    · exact sim_fatal
    · refine sim_bind (hrecS _ _ _ _ hab) ?_
      intro s a1 b1 h1
      simp only []
      repeat' split
      all_goals first
        | exact sim_fatal
        | exact sim_ok _ h1
        | (refine sim_bind (hrecV _ _ _ _ h1) ?_
           intro t a2 b2 h2
           refine sim_bind (hrecS _ _ _ _ h2) ?_
           intro u a3 b3 h3
           exact sim_ok _ h3)
        | (refine sim_bind (hrecS _ _ _ _ h1) ?_
           intro t a2 b2 h2
           refine sim_bind (hrecS _ _ _ _ h2) ?_
           intro u a3 b3 h3
           exact sim_ok _ h3)
  all_goals
    refine sim_bind (hloop _ _ _ _ _ _ hab) ?_
    intro s a1 b1 h1
    exact sim_ok _ h1

/-- The two builders over related states, with the same bound on the recursion. -/
theorem getDimInfo_sim {σ τ : Type} {R : σ → τ → Prop} (E : Env) (tbl : Translations)
    {upd1 : String → String → σ → σ} {upd2 : String → String → τ → τ}
    (hupd : ∀ raw a b, tbl.count raw > 0 → R a b →
      R (upd1 raw (tbl.get raw) a) (upd2 raw (tbl.get raw) b)) (fuel : Nat) :
    ∀ (v : Nat) (p : Bool) (a : σ) (b : τ), R a b →
      Sim R (getDimInfo E tbl upd1 fuel v p a) (getDimInfo E tbl upd2 fuel v p b) := by
  induction fuel with
  | zero => intro v p a b _; trivial
  | succ n ih => intro v p a b hab; exact stepV_sim E tbl hupd ih v p a b hab

theorem getDimInfoSCEV_sim {σ τ : Type} {R : σ → τ → Prop} (E : Env) (tbl : Translations)
    {upd1 : String → String → σ → σ} {upd2 : String → String → τ → τ}
    (hupd : ∀ raw a b, tbl.count raw > 0 → R a b →
      R (upd1 raw (tbl.get raw) a) (upd2 raw (tbl.get raw) b)) (fuel : Nat) :
    ∀ (e : SCEV) (p : Bool) (a : σ) (b : τ), R a b →
      Sim R (getDimInfoSCEV E tbl upd1 fuel e p a) (getDimInfoSCEV E tbl upd2 fuel e p b) := by
  induction fuel with
  | zero => intro e p a b _; trivial
  | succ n ih =>
    intro e p a b hab
    exact stepS_sim E (getDimInfo_sim E tbl hupd n) ih e p a b hab

/-- A run that ends keeps its outcome when the bound on the recursion grows by one. -/
theorem getDimInfo_succ {σ : Type} (E : Env) (tbl : Translations)
    (upd : String → String → σ → σ) (fuel : Nat) :
    ∀ (v : Nat) (p : Bool) (a b : σ), a = b →
      Sim Eq (getDimInfo E tbl upd fuel v p a) (getDimInfo E tbl upd (fuel + 1) v p b) := by
  induction fuel with
  | zero => intro v p a b _; trivial
  | succ n ih =>
    intro v p a b hab
    exact stepV_sim E tbl (fun _ _ _ _ h => congrArg _ h) ih v p a b hab

theorem getDimInfoSCEV_succ {σ : Type} (E : Env) (tbl : Translations)
    (upd : String → String → σ → σ) (fuel : Nat) :
    ∀ (e : SCEV) (p : Bool) (a b : σ), a = b →
      Sim Eq (getDimInfoSCEV E tbl upd fuel e p a)
        (getDimInfoSCEV E tbl upd (fuel + 1) e p b) := by
  induction fuel with
  | zero => intro e p a b _; trivial
  | succ n ih =>
    intro e p a b hab
    exact stepS_sim E (getDimInfo_succ E tbl upd n) ih e p a b hab

theorem sim_eq_of_ok {σ : Type} {r1 r2 : Res (String × σ)} {x : String × σ}
    (h : Sim Eq r1 r2) (h1 : r1 = .ok x) : r2 = .ok x := by
  subst h1
  obtain ⟨b, hb, hR⟩ := h
  rw [hb, ← hR]

theorem sim_eq_of_fatal {σ : Type} {r1 r2 : Res (String × σ)}
    (h : Sim Eq r1 r2) (h1 : r1 = .fatal) : r2 = .fatal := by
  subst h1
  exact h

/-- More fuel does not change a formula that was returned. -/
theorem getDimInfo_mono {σ : Type} (E : Env) (tbl : Translations)
    (upd : String → String → σ → σ) {f g : Nat} (hfg : f ≤ g) {v : Nat} {p : Bool} {a : σ}
    {x : String × σ} (h : getDimInfo E tbl upd f v p a = .ok x) :
    getDimInfo E tbl upd g v p a = .ok x := by
  induction hfg with
  | refl => exact h
  | step _ ih => exact sim_eq_of_ok (getDimInfo_succ E tbl upd _ v p a a rfl) ih

/-- More fuel does not change a fatal failure. -/
theorem getDimInfo_mono_fatal {σ : Type} (E : Env) (tbl : Translations)
    (upd : String → String → σ → σ) {f g : Nat} (hfg : f ≤ g) {v : Nat} {p : Bool} {a : σ}
    (h : getDimInfo E tbl upd f v p a = .fatal) :
    getDimInfo E tbl upd g v p a = .fatal := by
  induction hfg with
  | refl => exact h
  | step _ ih => exact sim_eq_of_fatal (getDimInfo_succ E tbl upd _ v p a a rfl) ih

theorem getDimInfoSCEV_mono {σ : Type} (E : Env) (tbl : Translations)
    (upd : String → String → σ → σ) {f g : Nat} (hfg : f ≤ g) {e : SCEV} {p : Bool} {a : σ}
    {x : String × σ} (h : getDimInfoSCEV E tbl upd f e p a = .ok x) :
    getDimInfoSCEV E tbl upd g e p a = .ok x := by
  induction hfg with
  | refl => exact h
  | step _ ih => exact sim_eq_of_ok (getDimInfoSCEV_succ E tbl upd _ e p a a rfl) ih

theorem getDimInfoSCEV_mono_fatal {σ : Type} (E : Env) (tbl : Translations)
    (upd : String → String → σ → σ) {f g : Nat} (hfg : f ≤ g) {e : SCEV} {p : Bool} {a : σ}
    (h : getDimInfoSCEV E tbl upd f e p a = .fatal) :
    getDimInfoSCEV E tbl upd g e p a = .fatal := by
  induction hfg with
  | refl => exact h
  | step _ ih => exact sim_eq_of_fatal (getDimInfoSCEV_succ E tbl upd _ e p a a rfl) ih

/-- The formula and mask the builder returns do not depend on the fuel it was given. -/
theorem renders_unique {E : Env} {tbl : Translations} {v : Nat} {p : Bool} {m : Nat}
    {s s' : String} {m1 m2 : Nat} (h1 : Renders E tbl v p m s m1)
    (h2 : Renders E tbl v p m s' m2) : s = s' ∧ m1 = m2 := by
  obtain ⟨f, hf⟩ := h1
  obtain ⟨g, hg⟩ := h2
  have h3 := getDimInfo_mono E tbl orMask (Nat.le_max_left f g) hf
  have h4 := getDimInfo_mono E tbl orMask (Nat.le_max_right f g) hg
  rw [h3] at h4
  injection h4 with h5
  exact ⟨congrArg Prod.fst h5, congrArg Prod.snd h5⟩

theorem cudaTable_eq : cudaTable =
    [("llvm.nvvm.read.ptx.sreg.ctaid.x", "b.x"), ("llvm.nvvm.read.ptx.sreg.ctaid.y", "b.y"),
     ("llvm.nvvm.read.ptx.sreg.ctaid.z", "b.z"), ("llvm.nvvm.read.ptx.sreg.tid.x", "t.x"),
     ("llvm.nvvm.read.ptx.sreg.tid.y", "t.y"), ("llvm.nvvm.read.ptx.sreg.tid.z", "t.z"),
     ("llvm.nvvm.read.ptx.sreg.ntid.x", "bsize.x"), ("llvm.nvvm.read.ptx.sreg.ntid.y", "bsize.y"),
     ("llvm.nvvm.read.ptx.sreg.ntid.z", "bsize.z")] := by decide

theorem initFunctionTranslations_cudaTable : initFunctionTranslations cudaTable = cudaTable := by
  decide

/-- A call to a function named in one of the three recognition tables is rendered by
`getFunctionName` through the translation table. -/
theorem getDimInfo_register {σ : Type} (E : Env) (upd : String → String → σ → σ)
    (v cv : Nat) (args : List Nat) (info : FunInfo) (fuel : Nat) (p : Bool) (st : σ)
    (hv : (E.ir v).node = .call cv args) (hcv : (E.ir cv).node = .function info)
    (hn : (E.ir cv).name ∈ ThreadIdFunNames ++ BlockIdFunNames ++ SizeFunNames) :
    getDimInfo E cudaTable upd (fuel + 1) v p st =
      .ok (cudaTable.get (E.ir cv).name,
        upd (E.ir cv).name (cudaTable.get (E.ir cv).name) st) := by
  have hcount : cudaTable.count (E.ir cv).name > 0 := by
    revert hn
    generalize (E.ir cv).name = n
    intro hn
    simp only [ThreadIdFunNames, BlockIdFunNames, SizeFunNames, List.cons_append,
      List.nil_append, List.mem_cons, List.mem_singleton, List.not_mem_nil, or_false] at hn
    rcases hn with h | h | h | h | h | h | h | h | h <;> subst h <;> decide
  have hfn : getFunctionName E cudaTable upd cv args st =
      .ok (cudaTable.get (E.ir cv).name,
        upd (E.ir cv).name (cudaTable.get (E.ir cv).name) st) := by
    simp only [getFunctionName, getCalledFunction, hcv, hcount, if_true]
  simp only [getDimInfo, stepV, hv, hfn]
  repeat' split
  all_goals first
    | rfl
    | (exfalso
       simp only [isThreadID, isBlockSize, isBlockIdx, hv, getCalledFunction, hcv,
         List.elem_eq_mem, decide_eq_true_eq, Bool.not_eq_true,
         decide_eq_false_iff_not] at *
       simp only [List.mem_append] at hn
       tauto)

/-- The DimInfo constructor on the evolution expression of a built-in register call. -/
theorem DimInfo_new_register (E : Env) (v cv : Nat) (args : List Nat) (info : FunInfo)
    (fuel dim : Nat) (hv : (E.ir v).node = .call cv args)
    (hcv : (E.ir cv).node = .function info)
    (hn : (E.ir cv).name ∈ ThreadIdFunNames ++ BlockIdFunNames ++ SizeFunNames) :
    DimInfo.new E cudaTable (fuel + 2) (.unknown v) dim =
      .ok { scev := .unknown v, dim := dim, strAccess := cudaTable.get (E.ir cv).name,
            mask := orMask (E.ir cv).name (cudaTable.get (E.ir cv).name) DimNone } := by
  simp only [DimInfo.new, getDimInfoSCEV, stepS,
    getDimInfo_register E orMask v cv args info fuel false DimNone hv hcv hn, Res.bind]

/-- C1 (amended): for a kernel with one 2-D array parameter accessed once as
`arr(block_id.x, thread_id.y)`, the access record has dimension count 2, dimension 0 has
formula "t.y" with the empty axis mask, dimension 1 has formula "b.x" with axis mask {X},
and the calls made on a sink for that array are exactly one `set_array_info` followed by
one `set_array_dim_info` (dimension 1, grid axis 0). -/
theorem access_bx_ty_record_and_facts (E : Env) (t0 : Translations) (fuel : Nat)
    (arr bx ty cv fbx fty : Nat) (abx aty : List Nat) (info ibx ity : FunInfo)
    (loop : Option Nat) (w : Bool) (sink : List Fact) (fn arg : Nat)
    (argMap : List (Nat × Nat)) (rs ws : List Nat)
    (ht0 : t0 = [] ∨ t0 = cudaTable)
    (hcv : (E.ir cv).node = .function info) (hsize : info.argSize = 3)
    (hbx : (E.ir bx).node = .call fbx abx)
    (hfbx : E.ir fbx = ⟨"llvm.nvvm.read.ptx.sreg.ctaid.x", .function ibx⟩)
    (hty : (E.ir ty).node = .call fty aty)
    (hfty : E.ir fty = ⟨"llvm.nvvm.read.ptx.sreg.tid.y", .function ity⟩)
    (hsbx : E.getSCEV bx = .unknown bx) (hsty : E.getSCEV ty = .unknown ty)
    (halloca : isAlloca E (E.stripPointerCasts arr) = true)
    (harg : argMap.lookup (E.stripPointerCasts arr) = some arg) :
    ∃ r, AccessInfo.new E t0 (fuel + 2) arr cv [arr, bx, ty] loop w = .ok (r, cudaTable) ∧
      r.dim_ = 2 ∧
      (r.base_.map fun d => (d.dim, d.strAccess, d.mask)) =
        [(0, "t.y", DimNone), (1, "b.x", DimX)] ∧
      insertCUDArrayInfo E sink fn (addAccessInfo [] r) argMap rs ws =
        { log := sink ++ [Fact.resetInfo fn,
            Fact.setArrayInfo arg 2 (rs.contains (E.stripPointerCasts arr))
              (ws.contains (E.stripPointerCasts arr)),
            Fact.setArrayDimInfo arg 1 0],
          alive := true } := by
  have htbl : initFunctionTranslations t0 = cudaTable := by
    rcases ht0 with h | h <;> subst h
    · rfl
    · exact initFunctionTranslations_cudaTable
  have e1 : cudaTable.get "llvm.nvvm.read.ptx.sreg.ctaid.x" = "b.x" := by decide
  have e2 : orMask "llvm.nvvm.read.ptx.sreg.ctaid.x" "b.x" DimNone = DimX := by decide
  have e3 : cudaTable.get "llvm.nvvm.read.ptx.sreg.tid.y" = "t.y" := by decide
  have e4 : orMask "llvm.nvvm.read.ptx.sreg.tid.y" "t.y" DimNone = DimNone := by decide
  have hnx : (E.ir fbx).name ∈ ThreadIdFunNames ++ BlockIdFunNames ++ SizeFunNames := by
    rw [hfbx]
    show "llvm.nvvm.read.ptx.sreg.ctaid.x" ∈ _
    decide
  have hny : (E.ir fty).name ∈ ThreadIdFunNames ++ BlockIdFunNames ++ SizeFunNames := by
    rw [hfty]
    show "llvm.nvvm.read.ptx.sreg.tid.y" ∈ _
    decide
  have hdx := DimInfo_new_register E bx fbx abx ibx fuel 1 hbx (by rw [hfbx]) hnx
  have hdy := DimInfo_new_register E ty fty aty ity fuel 0 hty (by rw [hfty]) hny
  rw [hfbx] at hdx
  rw [hfty] at hdy
  simp only [e1, e2] at hdx
  simp only [e3, e4] at hdy
  refine ⟨{ base_ := [⟨.unknown ty, 0, "t.y", DimNone⟩, ⟨.unknown bx, 1, "b.x", DimX⟩],
            dynarray_ := E.stripPointerCasts arr, dim_ := 2, write_ := w }, ?_, rfl, rfl, ?_⟩
  · have h3 : ¬ ((3 : Nat) = 0) := by decide
    simp only [AccessInfo.new, getCalledFunction, hcv, hsize, htbl, h3, if_false,
      show (3 - 1) % 2 ^ 32 = 2 from rfl, show List.range 2 = [0, 1] from rfl,
      fillDims, getArgOperand, addDimInfo, List.cons_append, List.get?_cons_succ,
      List.get?_cons_zero, hsbx, hsty, hdx, hdy, Res.bind]
    rfl
  · have hc : ∀ r : AccessInfo, hasConsistentDims [r] = true := by
      intro r
      simp [hasConsistentDims]
    have h0 : ∀ (e0 e1 : SCEV) (a : Nat) (w : Bool),
        getArrayMask [⟨[⟨e0, 0, "t.y", DimNone⟩, ⟨e1, 1, "b.x", DimX⟩], a, 2, w⟩] 0 = 0 := by
      intros
      simp [getArrayMask, maskOfRecord, AccessInfo.getDimInfo, DimNone, DimX]
    have h1 : ∀ (e0 e1 : SCEV) (a : Nat) (w : Bool),
        getArrayMask [⟨[⟨e0, 0, "t.y", DimNone⟩, ⟨e1, 1, "b.x", DimX⟩], a, 2, w⟩] 1 = 1 := by
      intros
      simp [getArrayMask, maskOfRecord, AccessInfo.getDimInfo, DimNone, DimX]
    simp only [insertCUDArrayInfo, addAccessInfo, ArrayInfoMap.pushBack, AccessInfo.getDynarray,
      insertArrays, arrayFacts, halloca, harg, if_true, hc, List.head?_cons,
      AccessInfo.getNumDims, show List.range 2 = [0, 1] from rfl, List.flatMap_cons,
      List.flatMap_nil, dimFacts, h0, h1]
    simp [DimX, DimY, DimZ]

/-- C1 (witness): the amended statement on the concrete kernel `kernelBxTy`. -/
theorem access_bx_ty_record_and_facts_witness :
    ∃ r, AccessInfo.new kernelBxTy [] 2 3 2 [3, 4, 5] none true = .ok (r, cudaTable) ∧
      r.dim_ = 2 ∧
      (r.base_.map fun d => (d.dim, d.strAccess, d.mask)) =
        [(0, "t.y", DimNone), (1, "b.x", DimX)] ∧
      insertCUDArrayInfo kernelBxTy [] 8 (addAccessInfo [] r) [(3, 7)] [3] [] =
        { log := [] ++ [Fact.resetInfo 8,
            Fact.setArrayInfo 7 2 ([3].contains (kernelBxTy.stripPointerCasts 3))
              ([].contains (kernelBxTy.stripPointerCasts 3)),
            Fact.setArrayDimInfo 7 1 0],
          alive := true } :=
  access_bx_ty_record_and_facts kernelBxTy [] 0 3 4 5 2 0 1 [] [] _ _ _ none true [] 8 7
    [(3, 7)] [3] [] (Or.inl rfl) rfl rfl rfl rfl rfl rfl rfl rfl rfl rfl

/-- C1 (counterexample): on the kernel `kernelBxTy` the record is built and the facts are
emitted, but dimension 0 ("t.y") does not carry the axis mask {Y} and the number of
`set_array_dim_info` calls is not two. -/
theorem access_bx_ty_counterexample :
    ∃ r, AccessInfo.new kernelBxTy [] 2 3 2 [3, 4, 5] none true = .ok (r, cudaTable) ∧
      ¬ (r.dim_ = 2 ∧
          (r.base_.map fun d => (d.strAccess, d.mask)) = [("t.y", DimY), ("b.x", DimX)] ∧
          ((insertCUDArrayInfo kernelBxTy [] 8 (addAccessInfo [] r) [(3, 7)] [3] []).log.filter
            isSetArrayInfo).length = 1 ∧
          ((insertCUDArrayInfo kernelBxTy [] 8 (addAccessInfo [] r) [(3, 7)] [3] []).log.filter
            isSetArrayDimInfo).length = 2) ∧
      (r.base_.map fun d => d.mask) ≠ [DimY, DimX] ∧
      ((insertCUDArrayInfo kernelBxTy [] 8 (addAccessInfo [] r) [(3, 7)] [3] []).log.filter
        isSetArrayDimInfo).length ≠ 2 := by
  refine ⟨{ base_ := [⟨.unknown 5, 0, "t.y", DimNone⟩, ⟨.unknown 4, 1, "b.x", DimX⟩],
            dynarray_ := 3, dim_ := 2, write_ := true }, rfl, ?_, ?_, ?_⟩
  · intro h
    exact absurd h.2.1 (by decide)
  · decide
  · decide

/-- The constructor loop over the indices `is`: every index `i` of `is` has its record stored
at `dim - (i + 1)`, and the other entries are left as they were. -/
theorem fillDims_spec (E : Env) (tbl : Translations) (fuel cv : Nat) (args : List Nat)
    (n : Nat) :
    ∀ (is : List Nat) (base base' : List DimInfo), (∀ i ∈ is, i < n) → is.Nodup →
      fillDims E tbl fuel cv args n is base = .ok base' →
      base'.length = base.length ∧
      (∀ i ∈ is, n - (i + 1) < base.length → ∃ val d, getArgOperand cv args (i + 1) = some val ∧
        DimInfo.new E tbl fuel (E.getSCEV val) (n - (i + 1)) = .ok d ∧
        base'[n - (i + 1)]? = some d) ∧
      (∀ j, (∀ i ∈ is, j ≠ n - (i + 1)) → base'[j]? = base[j]?) := by
  intro is
  induction is with
  | nil =>
    intro base base' _ _ h
    simp only [fillDims, Res.ok.injEq] at h
    subst h
    simp
  | cons i is ih =>
    intro base base' hlt hnd h
    simp only [fillDims] at h
    cases hop : getArgOperand cv args (i + 1) with
    | none => simp [hop] at h
    | some val =>
      simp only [hop, addDimInfo] at h
      cases hd : DimInfo.new E tbl fuel (E.getSCEV val) (n - (i + 1)) with
      | fatal => simp [hd, Res.bind] at h
      | timeout => simp [hd, Res.bind] at h
      | ok d =>
        simp only [hd, Res.bind] at h
        have hnd' := List.nodup_cons.mp hnd
        obtain ⟨hlen, hset, hkeep⟩ :=
          ih (base.set (n - (i + 1)) d) base' (fun k hk => hlt k (List.mem_cons_of_mem _ hk))
            hnd'.2 h
        have hi : i < n := hlt i (List.mem_cons_self _ _)
        refine ⟨by rw [hlen, List.length_set], ?_, ?_⟩
        · intro k hk hkl
          rcases List.mem_cons.mp hk with rfl | hk'
          · refine ⟨val, d, hop, hd, ?_⟩
            rw [hkeep (n - (k + 1))]
            · rw [List.getElem?_set_eq_of_lt _ hkl]
            · intro i' hi' heq
              have hi'n : i' < n := hlt i' (List.mem_cons_of_mem _ hi')
              have : i' = k := by omega
              exact hnd'.1 (this ▸ hi')
          · exact hset k hk' (by rw [List.length_set]; exact hkl)
        · intro j hj
          rw [hkeep j (fun i' hi' => hj i' (List.mem_cons_of_mem _ hi'))]
          rw [List.getElem?_set_ne]
          exact fun h => hj i (List.mem_cons_self _ _) h.symm

/-- The constructor loop returns when every dimension record can be built. -/
theorem fillDims_ok (E : Env) (tbl : Translations) (fuel cv : Nat) (args : List Nat)
    (n : Nat) :
    ∀ (is : List Nat) (base : List DimInfo),
      (∀ i ∈ is, ∃ val d, getArgOperand cv args (i + 1) = some val ∧
        DimInfo.new E tbl fuel (E.getSCEV val) (n - (i + 1)) = .ok d) →
      ∃ base', fillDims E tbl fuel cv args n is base = .ok base' := by
  intro is
  induction is with
  | nil => intro base _; exact ⟨base, rfl⟩
  | cons i is ih =>
    intro base h
    obtain ⟨val, d, hop, hd⟩ := h i (List.mem_cons_self _ _)
    obtain ⟨base', hb⟩ := ih (base.set (n - (i + 1)) d)
      (fun k hk => h k (List.mem_cons_of_mem _ hk))
    exact ⟨base', by simp only [fillDims, hop, addDimInfo, hd, Res.bind, hb]⟩

/-- C2 (amended): for every array-access call, the dimension count of the access record is
the callee's formal-parameter count minus one (taken on an `unsigned`), and for every `i`
below it the entry stored at index `dimension_count - (i+1)` is the record built from the
evolution expression of call operand `i+1`; the record is returned as soon as every
dimension record can be built. Where the call passes as many arguments as the callee has
formal parameters, the count is the number of call arguments minus one and operand `i+1`
is call argument `i+1`. -/
theorem accessInfo_dims_reverse_order (E : Env) (t0 : Translations) (fuel dynarray cv : Nat)
    (args : List Nat) (loop : Option Nat) (w : Bool) (info : FunInfo)
    (hcv : (E.ir cv).node = .function info) :
    (∀ r tbl, AccessInfo.new E t0 fuel dynarray cv args loop w = .ok (r, tbl) →
      info.argSize ≠ 0 ∧ r.dim_ = (info.argSize - 1) % 2 ^ 32 ∧ r.base_.length = r.dim_ ∧
      ∀ i, i < r.dim_ → ∃ val d, getArgOperand cv args (i + 1) = some val ∧
        DimInfo.new E tbl fuel (E.getSCEV val) (r.dim_ - (i + 1)) = .ok d ∧
        r.base_[r.dim_ - (i + 1)]? = some d) ∧
    (info.argSize ≠ 0 →
      (∀ i, i < (info.argSize - 1) % 2 ^ 32 → ∃ val d,
        getArgOperand cv args (i + 1) = some val ∧
        DimInfo.new E (initFunctionTranslations t0) fuel (E.getSCEV val)
          ((info.argSize - 1) % 2 ^ 32 - (i + 1)) = .ok d) →
      ∃ r, AccessInfo.new E t0 fuel dynarray cv args loop w =
        .ok (r, initFunctionTranslations t0)) ∧
    (info.argSize = args.length → 1 ≤ args.length → args.length ≤ 2 ^ 32 →
      (info.argSize - 1) % 2 ^ 32 = args.length - 1 ∧
      ∀ i, i < args.length - 1 → getArgOperand cv args (i + 1) = args[i + 1]?) := by
  refine ⟨?_, ?_, ?_⟩
  · intro r tbl h
    have hc : getCalledFunction E cv = some ((E.ir cv).name, info) := by
      simp only [getCalledFunction, hcv]
    unfold AccessInfo.new at h
    rw [hc] at h
    simp only at h
    split at h
    · cases h
    · rename_i hne
      cases hf : fillDims E (initFunctionTranslations t0) fuel cv args
          ((info.argSize - 1) % 2 ^ 32) (List.range ((info.argSize - 1) % 2 ^ 32))
          (List.replicate ((info.argSize - 1) % 2 ^ 32) DimInfo.default) with
      | fatal => rw [hf] at h; cases h
      | timeout => rw [hf] at h; cases h
      | ok base =>
        rw [hf] at h
        simp only [Res.bind, Res.ok.injEq, Prod.mk.injEq] at h
        obtain ⟨hr, ht⟩ := h
        subst hr
        subst ht
        obtain ⟨hlen, hset, _⟩ := fillDims_spec E _ fuel cv args
          ((info.argSize - 1) % 2 ^ 32) _ _ base
          (fun i hi => List.mem_range.mp hi) (List.nodup_range _) hf
        rw [List.length_replicate] at hlen
        refine ⟨hne, rfl, hlen, ?_⟩
        intro i hi
        have hi' : i < (info.argSize - 1) % 2 ^ 32 := hi
        exact hset i (List.mem_range.mpr hi') (by rw [List.length_replicate]; omega)
  · intro hne h
    obtain ⟨base, hb⟩ := fillDims_ok E (initFunctionTranslations t0) fuel cv args
      ((info.argSize - 1) % 2 ^ 32) (List.range ((info.argSize - 1) % 2 ^ 32))
      (List.replicate ((info.argSize - 1) % 2 ^ 32) DimInfo.default)
      (fun i hi => h i (List.mem_range.mp hi))
    refine ⟨{ base_ := base, dynarray_ := E.stripPointerCasts dynarray,
              dim_ := (info.argSize - 1) % 2 ^ 32, write_ := w }, ?_⟩
    simp only [AccessInfo.new, getCalledFunction, hcv, hne, if_false, hb, Res.bind]
  · intro hwf hpos hsz
    refine ⟨?_, ?_⟩
    · rw [hwf]
      exact Nat.mod_eq_of_lt (by omega)
    · intro i hi
      simp only [getArgOperand, List.get?_eq_getElem?]
      exact List.getElem?_append_left (by omega)

/-- C2 (witness): the statement on the access call of the kernel `kernelBxTy`, whose callee
has three formal parameters. -/
theorem accessInfo_dims_reverse_order_witness :
    (∀ r tbl, AccessInfo.new kernelBxTy [] 2 3 2 [3, 4, 5] none true = .ok (r, tbl) →
      (3 : Nat) ≠ 0 ∧ r.dim_ = (3 - 1) % 2 ^ 32 ∧ r.base_.length = r.dim_ ∧
      ∀ i, i < r.dim_ → ∃ val d, getArgOperand 2 [3, 4, 5] (i + 1) = some val ∧
        DimInfo.new kernelBxTy tbl 2 (kernelBxTy.getSCEV val) (r.dim_ - (i + 1)) = .ok d ∧
        r.base_[r.dim_ - (i + 1)]? = some d) ∧
    (∃ r, AccessInfo.new kernelBxTy [] 2 3 2 [3, 4, 5] none true = .ok (r, cudaTable) ∧
      r.dim_ = 2 ∧
      r.base_.map (fun d => (d.dim, d.strAccess, d.mask)) = [(0, "t.y", 0), (1, "b.x", 1)]) :=
  ⟨(accessInfo_dims_reverse_order kernelBxTy [] 2 3 2 [3, 4, 5] none true
      ⟨"cudarrays::dynarray<float [0][0]>::operator()(unsigned int, unsigned int)", false, 3⟩
      rfl).1,
   ⟨{ base_ := [⟨.unknown 5, 0, "t.y", 0⟩, ⟨.unknown 4, 1, "b.x", 1⟩], dynarray_ := 3,
      dim_ := 2, write_ := true }, rfl, rfl, rfl⟩⟩

/-- C2 (counterexample): in `kernelVariadic` the array-access call 6 has three call arguments
and its callee two formal parameters; the access record has dimension count 1, not
3 - 1 = 2, and holds the record of call argument 1 only. -/
theorem variadic_access_counterexample :
    (kernelVariadic.ir 6).node = .call 2 [3, 4, 5] ∧
    isAccessCall kernelVariadic 6 = true ∧
    (∃ r, AccessInfo.new kernelVariadic [] 2 3 2 [3, 4, 5] none true = .ok (r, cudaTable) ∧
      r.getNumDims = 1 ∧ r.getNumDims ≠ [3, 4, 5].length - 1 ∧
      r.getDimInfo.map (fun d => (d.dim, d.strAccess, d.mask)) = [(0, "b.x", 1)]) :=
  ⟨rfl, by decide,
   ⟨{ base_ := [⟨.unknown 4, 0, "b.x", 1⟩], dynarray_ := 3, dim_ := 1, write_ := true },
     rfl, rfl, by decide, rfl⟩⟩

theorem maskOfRecord_acc (d : Nat) (l : List DimInfo) :
    ∀ acc, maskOfRecord d l acc =
      acc ||| ((l.filter fun di => di.dim == d).map DimInfo.mask).foldr (· ||| ·) 0 := by
  induction l with
  | nil => intro acc; simp [maskOfRecord]
  | cons x xs ih =>
    intro acc
    have hstep : maskOfRecord d (x :: xs) acc =
        maskOfRecord d xs (if x.dim == d then acc ||| x.mask else acc) := rfl
    rw [hstep, ih]
    by_cases hx : (x.dim == d) = true
    · simp only [hx, if_true, List.filter_cons_of_pos, List.map_cons, List.foldr_cons,
        Nat.lor_assoc]
    · simp only [hx, if_false, List.filter_cons_of_neg, Bool.false_eq_true, not_false_eq_true]

theorem getArrayMask_acc (d : Nat) (records : List AccessInfo) :
    ∀ acc, records.foldl (fun mask it => maskOfRecord d it.getDimInfo mask) acc =
      acc ||| unionMask records d := by
  induction records with
  | nil => intro acc; simp [unionMask]
  | cons r rs ih =>
    intro acc
    rw [List.foldl_cons, ih, maskOfRecord_acc]
    simp only [unionMask, siteMask, AccessInfo.getDimInfo, List.map_cons, List.foldr_cons,
      Nat.lor_assoc]

theorem and_lor_absorb (x a b : Nat) : x &&& (a ||| (x ||| b)) = x := by
  apply Nat.eq_of_testBit_eq
  intro i
  simp only [Nat.testBit_and, Nat.testBit_or]
  cases x.testBit i <;> simp

theorem siteMask_sub_unionMask (d : Nat) (records : List AccessInfo) :
    ∀ r ∈ records, siteMask r d &&& unionMask records d = siteMask r d := by
  induction records with
  | nil => intro r hr; cases hr
  | cons x xs ih =>
    intro r hr
    have hu : unionMask (x :: xs) d = siteMask x d ||| unionMask xs d := rfl
    rw [hu]
    rcases List.mem_cons.mp hr with rfl | hr'
    · have := and_lor_absorb (siteMask r d) 0 (unionMask xs d)
      rwa [Nat.zero_or] at this
    · have h := ih r hr'
      apply Nat.eq_of_testBit_eq
      intro i
      have hi := congrArg (fun n => n.testBit i) h
      simp only [Nat.testBit_and, Nat.testBit_or] at hi ⊢
      cases hs : (siteMask r d).testBit i <;> simp [hs] at hi ⊢
      simp [hi]

theorem mask_sub_siteMask (d : Nat) (r : AccessInfo) :
    ∀ di ∈ r.base_, di.dim = d → di.mask &&& siteMask r d = di.mask := by
  unfold siteMask
  induction r.base_ with
  | nil => intro di h; cases h
  | cons x xs ih =>
    intro di hdi hd
    by_cases hx : (x.dim == d) = true
    · simp only [hx, List.filter_cons_of_pos, List.map_cons, List.foldr_cons]
      rcases List.mem_cons.mp hdi with rfl | h'
      · have := and_lor_absorb di.mask 0
          (List.foldr (· ||| ·) 0 (List.map DimInfo.mask (List.filter (fun di => di.dim == d) xs)))
        rwa [Nat.zero_or] at this
      · have h := ih di h' hd
        apply Nat.eq_of_testBit_eq
        intro i
        have hi := congrArg (fun n => n.testBit i) h
        simp only [Nat.testBit_and, Nat.testBit_or] at hi ⊢
        cases hs : di.mask.testBit i <;> simp [hs] at hi ⊢
        simp [hi]
    · rcases List.mem_cons.mp hdi with rfl | h'
      · exact absurd (by simpa using hd) hx
      · simp only [hx, List.filter_cons_of_neg, Bool.false_eq_true, not_false_eq_true]
        exact ih di h' hd

/-- C3: for every list of access records and every dimension `d`, `getArrayMask` is the
bitwise OR of the dimension-`d` masks of all the records; it contains the dimension-`d`
mask of every record of the list, and so every axis bit of every dimension record with
`getDim() = d`. -/
theorem getArrayMask_is_union (records : List AccessInfo) (d : Nat) :
    getArrayMask records d = unionMask records d ∧
    (∀ r ∈ records, siteMask r d &&& getArrayMask records d = siteMask r d) ∧
    (∀ r ∈ records, ∀ di ∈ r.base_, di.dim = d → ∀ k, di.mask.testBit k = true →
      (getArrayMask records d).testBit k = true) := by
  have h1 : getArrayMask records d = unionMask records d := by
    unfold getArrayMask
    rw [getArrayMask_acc]
    exact Nat.zero_or _
  refine ⟨h1, ?_, ?_⟩
  · rw [h1]
    exact siteMask_sub_unionMask d records
  · intro r hr di hdi hd k hk
    rw [h1]
    have e1 := congrArg (fun n => n.testBit k) (mask_sub_siteMask d r di hdi hd)
    have e2 := congrArg (fun n => n.testBit k) (siteMask_sub_unionMask d records r hr)
    simp only [Nat.testBit_and, hk, Bool.true_and] at e1
    simp only [Nat.testBit_and, e1, Bool.true_and] at e2
    exact e2

theorem and_bit_ne_zero (m k : Nat) : m &&& 2 ^ k ≠ 0 ↔ m.testBit k = true := by
  rw [Nat.and_two_pow]
  cases m.testBit k <;> simp

theorem dimFacts_eq (array : Nat) (infos : List AccessInfo) (i : Nat) :
    dimFacts array infos i = expectedDimFacts array (getArrayMask infos i) i := by
  have hx := and_bit_ne_zero (getArrayMask infos i) 0
  have hy := and_bit_ne_zero (getArrayMask infos i) 1
  have hz := and_bit_ne_zero (getArrayMask infos i) 2
  simp only [pow_zero, pow_one, show (2 : Nat) ^ 2 = 4 from rfl] at hx hy hz
  simp only [dimFacts, expectedDimFacts, DimX, DimY, DimZ, hx, hy, hz, List.filter_cons,
    List.filter_nil]
  cases (getArrayMask infos i).testBit 0 <;> cases (getArrayMask infos i).testBit 1 <;>
    cases (getArrayMask infos i).testBit 2 <;> simp

theorem hasConsistentDims_iff (infos : List AccessInfo) :
    hasConsistentDims infos = true ↔
      ∃ first rest, infos = first :: rest ∧ ∀ r ∈ infos, r.getNumDims = first.getNumDims := by
  cases infos with
  | nil => simp [hasConsistentDims]
  | cons first rest =>
    simp only [hasConsistentDims, List.all_eq_true, beq_iff_eq, List.cons.injEq]
    constructor
    · intro h
      exact ⟨first, rest, ⟨rfl, rfl⟩, h⟩
    · rintro ⟨f, r, ⟨rfl, rfl⟩, h⟩
      exact h

theorem hasConsistentDims_false_of_ne (infos : List AccessInfo)
    (h : ∃ r1 ∈ infos, ∃ r2 ∈ infos, r1.getNumDims ≠ r2.getNumDims) :
    hasConsistentDims infos = false := by
  obtain ⟨r1, h1, r2, h2, hne⟩ := h
  cases hc : hasConsistentDims infos with
  | false => rfl
  | true =>
    obtain ⟨first, rest, _, hall⟩ := (hasConsistentDims_iff infos).mp hc
    exact absurd ((hall r1 h1).trans (hall r2 h2).symm) hne

theorem arrayFacts_none_of_inconsistent (E : Env) (argMap : List (Nat × Nat))
    (rs ws : List Nat) (info : Nat × List AccessInfo) (h : hasConsistentDims info.2 = false) :
    arrayFacts E argMap rs ws info = none := by
  unfold arrayFacts
  repeat' split
  all_goals first
    | rfl
    | simp_all

/-- The loop over the arrays of a kernel, on a list split in two. -/
theorem insertArrays_append (E : Env) (argMap : List (Nat × Nat)) (rs ws : List Nat)
    (rest : ArrayInfoMap) :
    ∀ (pre : ArrayInfoMap) (run : Run), run.alive = true →
      insertArrays E argMap rs ws (pre ++ rest) run =
        if (insertArrays E argMap rs ws pre run).alive then
          insertArrays E argMap rs ws rest (insertArrays E argMap rs ws pre run)
        else insertArrays E argMap rs ws pre run := by
  intro pre
  induction pre with
  | nil =>
    intro run h
    simp [insertArrays, h]
  | cons x xs ih =>
    intro run h
    simp only [List.cons_append, insertArrays]
    cases arrayFacts E argMap rs ws x with
    | none => simp
    | some facts => exact ih _ rfl

/-- C4: `hasConsistentDims` holds exactly when the list is non-empty and every record's
dimension count equals the first record's; when the records of an array do not pass it
(in particular when two of them differ), `insertCUDArrayInfo` fails at that array and the
sink holds what the earlier arrays produced, with no fact of that array: `set_array_info`
is emitted for an array only if all its records report the same dimension count. -/
theorem inconsistent_dims_fail_before_facts (E : Env) (sink : List Fact) (fn : Nat)
    (pre post : ArrayInfoMap) (key : Nat) (infos : List AccessInfo)
    (argMap : List (Nat × Nat)) (rs ws : List Nat) :
    (hasConsistentDims infos = true ↔
      ∃ first rest, infos = first :: rest ∧ ∀ r ∈ infos, r.getNumDims = first.getNumDims) ∧
    ((∃ r1 ∈ infos, ∃ r2 ∈ infos, r1.getNumDims ≠ r2.getNumDims) →
      hasConsistentDims infos = false) ∧
    (hasConsistentDims infos = false →
      insertCUDArrayInfo E sink fn (pre ++ (key, infos) :: post) argMap rs ws =
        { log := (insertCUDArrayInfo E sink fn pre argMap rs ws).log, alive := false }) := by
  refine ⟨hasConsistentDims_iff infos, hasConsistentDims_false_of_ne infos, ?_⟩
  intro h
  unfold insertCUDArrayInfo
  rw [insertArrays_append E argMap rs ws _ pre _ rfl]
  have hnone := arrayFacts_none_of_inconsistent E argMap rs ws (key, infos) h
  cases ha : (insertArrays E argMap rs ws pre
      { log := sink ++ [Fact.resetInfo fn], alive := true }).alive with
  | true => simp only [if_true, insertArrays, hnone]
  | false =>
    simp only [Bool.false_eq_true, if_false]
    cases hr : insertArrays E argMap rs ws pre
        { log := sink ++ [Fact.resetInfo fn], alive := true } with
    | mk log alive =>
      rw [hr] at ha
      simp only at ha
      subst ha
      rfl

/-- C4 (example): on the kernel `kernelBxTy`, two records of the array in slot 3 that
report 1 and 2 dimensions make the run fail with the sink holding the reset only. -/
theorem inconsistent_dims_fail_before_facts_witness :
    hasConsistentDims inconsistentRecords = false ∧
    insertCUDArrayInfo kernelBxTy [] 8 ([] ++ (3, inconsistentRecords) :: []) [(3, 7)] [3] [] =
      { log := [Fact.resetInfo 8], alive := false } :=
  ⟨(inconsistent_dims_fail_before_facts kernelBxTy [] 8 [] [] 3 inconsistentRecords
      [(3, 7)] [3] []).2.1 ⟨_, List.mem_cons_self _ _, _,
        List.mem_cons_of_mem _ (List.mem_cons_self _ _), by decide⟩,
   (inconsistent_dims_fail_before_facts kernelBxTy [] 8 [] [] 3 inconsistentRecords
      [(3, 7)] [3] []).2.2 rfl⟩

theorem arrayFacts_valid (E : Env) (argMap : List (Nat × Nat)) (rs ws : List Nat)
    (info : Nat × List AccessInfo) (h1 : isAlloca E info.1 = true)
    (h2 : (argMap.lookup info.1).isSome = true) (h3 : hasConsistentDims info.2 = true) :
    arrayFacts E argMap rs ws info = some (expectedArrayFacts argMap rs ws info) := by
  obtain ⟨arg, harg⟩ := Option.isSome_iff_exists.mp h2
  obtain ⟨first, rest, hinfos, _⟩ := (hasConsistentDims_iff info.2).mp h3
  have hhead : info.2.head? = some first := by rw [hinfos]; rfl
  have hd : dimFacts arg info.2 = fun i => expectedDimFacts arg (getArrayMask info.2 i) i :=
    funext fun i => dimFacts_eq arg info.2 i
  simp only [arrayFacts, expectedArrayFacts, h1, harg, h3, hhead, if_true, hd]

theorem insertArrays_valid (E : Env) (argMap : List (Nat × Nat)) (rs ws : List Nat) :
    ∀ (F : ArrayInfoMap) (run : Run), run.alive = true →
      (∀ info ∈ F, isAlloca E info.1 = true ∧ (argMap.lookup info.1).isSome = true ∧
        hasConsistentDims info.2 = true) →
      insertArrays E argMap rs ws F run =
        { log := run.log ++ F.flatMap (expectedArrayFacts argMap rs ws), alive := true } := by
  intro F
  induction F with
  | nil =>
    intro run h _
    cases run with
    | mk log alive =>
      simp only at h
      subst h
      simp [insertArrays]
  | cons x xs ih =>
    intro run _ hv
    obtain ⟨h1, h2, h3⟩ := hv x (List.mem_cons_self _ _)
    simp only [insertArrays, arrayFacts_valid E argMap rs ws x h1 h2 h3]
    rw [ih _ rfl (fun i hi => hv i (List.mem_cons_of_mem _ hi))]
    simp only [List.flatMap_cons, List.append_assoc]

theorem expectedArrayFacts_no_reset (argMap : List (Nat × Nat)) (rs ws : List Nat)
    (info : Nat × List AccessInfo) :
    ∀ f ∈ expectedArrayFacts argMap rs ws info, ∀ g, f ≠ Fact.resetInfo g := by
  intro f hf g
  unfold expectedArrayFacts at hf
  split at hf
  · rcases List.mem_cons.mp hf with rfl | hf'
    · simp
    · simp only [List.mem_flatMap, expectedDimFacts, List.mem_map] at hf'
      obtain ⟨_, _, _, _, rfl⟩ := hf'
      simp
  · cases hf

theorem bits_count_lt_eight :
    ∀ m < 8, ((List.filter (fun axis => m.testBit axis) [0, 1, 2]).length =
      (Nat.digits 2 m).sum) := by
  intro m hm
  interval_cases m <;> simp <;> decide

/-- C5: for a kernel whose arrays all validate, the calls `insertCUDArrayInfo` makes on a
sink are one reset (also when the kernel has no array), then for each array one
`set_array_info` followed, for each dimension index in increasing order, by one
`set_array_dim_info` per axis present in the aggregated mask of the dimension, in the order
X (0), Y (1), Z (2); no reset follows an array fact, and for a mask over the three axes the
number of `set_array_dim_info` calls of a dimension is the number of bits set in it. -/
theorem insertCUDArrayInfo_call_sequence (E : Env) (sink : List Fact) (fn : Nat)
    (F : ArrayInfoMap) (argMap : List (Nat × Nat)) (rs ws : List Nat)
    (hvalid : ∀ info ∈ F, isAlloca E info.1 = true ∧ (argMap.lookup info.1).isSome = true ∧
      hasConsistentDims info.2 = true) :
    insertCUDArrayInfo E sink fn F argMap rs ws =
      { log := sink ++ Fact.resetInfo fn :: F.flatMap (expectedArrayFacts argMap rs ws),
        alive := true } ∧
    insertCUDArrayInfo E sink fn [] argMap rs ws =
      { log := sink ++ [Fact.resetInfo fn], alive := true } ∧
    (∀ f ∈ F.flatMap (expectedArrayFacts argMap rs ws), ∀ g, f ≠ Fact.resetInfo g) ∧
    (∀ (arg : Nat) (infos : List AccessInfo) (i : Nat),
      dimFacts arg infos i = expectedDimFacts arg (getArrayMask infos i) i ∧
      (getArrayMask infos i < 8 →
        (dimFacts arg infos i).length = (Nat.digits 2 (getArrayMask infos i)).sum)) := by
  refine ⟨?_, rfl, ?_, ?_⟩
  · unfold insertCUDArrayInfo
    rw [insertArrays_valid E argMap rs ws F _ rfl hvalid]
    simp only [List.append_assoc, List.singleton_append]
  · intro f hf g
    obtain ⟨info, _, hin⟩ := List.mem_flatMap.mp hf
    exact expectedArrayFacts_no_reset argMap rs ws info f hin g
  · intro arg infos i
    refine ⟨dimFacts_eq arg infos i, ?_⟩
    intro h8
    rw [dimFacts_eq, expectedDimFacts, List.length_map]
    exact bits_count_lt_eight _ h8

/-- C5 (witness): on the kernel `kernelBxTy`, an array whose dimension 0 is driven by the
axes X and Z gets the reset, one `set_array_info` and two `set_array_dim_info` calls. -/
theorem insertCUDArrayInfo_call_sequence_witness :
    insertCUDArrayInfo kernelBxTy [] 8 [(3, [recordXZ])] [(3, 7)] [3] [] =
      { log := [Fact.resetInfo 8, Fact.setArrayInfo 7 2 true false,
                Fact.setArrayDimInfo 7 0 0, Fact.setArrayDimInfo 7 0 2],
        alive := true } :=
  (insertCUDArrayInfo_call_sequence kernelBxTy [] 8 [(3, [recordXZ])] [(3, 7)] [3] []
    (by decide)).1.trans (by decide)

theorem intercalate_go_append (sep : String) (l : List String) :
    ∀ acc x, String.intercalate.go (acc ++ x) sep l = acc ++ String.intercalate.go x sep l := by
  induction l with
  | nil => intro acc x; rfl
  | cons a as ih =>
    intro acc x
    simp only [String.intercalate.go]
    rw [String.append_assoc, String.append_assoc, ih, ← String.append_assoc]

theorem intercalate_cons_cons (sep a b : String) (rest : List String) :
    String.intercalate sep (a :: b :: rest) = a ++ sep ++ String.intercalate sep (b :: rest) := by
  simp only [String.intercalate, String.intercalate.go]
  exact intercalate_go_append sep rest (a ++ sep) b

/-- All the values of a list render with one common amount of fuel. -/
theorem rendersAll_fuel (E : Env) (tbl : Translations) (p : Bool) :
    ∀ (vs : List Nat) (m : Nat) (ss : List String) (m' : Nat),
      RendersAll E tbl p vs m ss m' →
      ∃ fuel, ∀ g, fuel ≤ g → ∀ (sep : String) (i n : Nat), n = i + vs.length →
        renderLoop (fun x s => getDimInfo E tbl orMask g x p s) sep "" n vs i m =
          .ok (String.intercalate sep ss, m') := by
  intro vs
  induction vs with
  | nil =>
    intro m ss m' h
    obtain ⟨h1, h2⟩ := h
    subst h1
    subst h2
    exact ⟨0, fun g _ sep i n _ => rfl⟩
  | cons v vs ih =>
    intro m ss m' h
    obtain ⟨s, m1, rest, hss, ⟨f1, hf1⟩, hrest⟩ := h
    subst hss
    obtain ⟨f2, hf2⟩ := ih m1 rest m' hrest
    refine ⟨max f1 f2, ?_⟩
    intro g hg sep i n hn
    have hv := getDimInfo_mono E tbl orMask (le_trans (Nat.le_max_left f1 f2) hg) hf1
    have hr := hf2 g (le_trans (Nat.le_max_right f1 f2) hg) sep (i + 1) n
      (by simp only [List.length_cons] at hn; omega)
    simp only [renderLoop, hv, hr, Res.bind]
    cases vs with
    | nil =>
      obtain ⟨h1, _⟩ := hrest
      subst h1
      have hi : ¬ (i != n - 1) = true := by
        simp only [List.length_cons, List.length_nil] at hn
        simp only [bne_iff_ne, ne_eq, not_not]
        omega
      simp only [hi, Bool.false_eq_true, if_false, String.intercalate, String.intercalate.go,
        String.append_empty]
    | cons w ws =>
      obtain ⟨t, m2, rest', hrest', _, _⟩ := hrest
      subst hrest'
      have hi : (i != n - 1) = true := by
        simp only [List.length_cons] at hn
        simp only [bne_iff_ne, ne_eq]
        omega
      simp only [hi, if_true, intercalate_cons_cons]

/-- C6: a control-flow merge reached with the inside-merge flag clear renders "(" followed by
the formulas of its incoming values in edge order, each evaluated with the flag set and
separated by " | ", followed by ")"; two branches yielding `a` and `b` give "(a | b)". -/
theorem phi_renders_alternatives (E : Env) (tbl : Translations) (v : Nat)
    (incoming : List Nat) (m : Nat) (ss : List String) (m' : Nat)
    (hv : (E.ir v).node = .phi incoming)
    (hall : RendersAll E tbl true incoming m ss m') :
    Renders E tbl v false m ("(" ++ String.intercalate " | " ss ++ ")") m' ∧
    (∀ s1 m1, Renders E tbl v false m s1 m1 →
      s1 = "(" ++ String.intercalate " | " ss ++ ")" ∧ m1 = m') ∧
    (∀ a b, ss = [a, b] →
      Renders E tbl v false m ("(" ++ a ++ " | " ++ b ++ ")") m') := by
  obtain ⟨fuel, hf⟩ := rendersAll_fuel E tbl true incoming m ss m' hall
  have h1 : Renders E tbl v false m ("(" ++ String.intercalate " | " ss ++ ")") m' := by
    refine ⟨fuel + 1, ?_⟩
    have := hf fuel (le_refl _) " | " 0 incoming.length (by omega)
    simp only [getDimInfo, stepV, hv, beq_self_eq_true, if_true, this, Res.bind]
  refine ⟨h1, fun s1 m1 h => renders_unique h h1, ?_⟩
  intro a b hab
  subst hab
  have e : "(" ++ String.intercalate " | " [a, b] ++ ")" = "(" ++ a ++ " | " ++ b ++ ")" := by
    simp only [String.intercalate, String.intercalate.go, String.append_assoc]
  rw [← e]
  exact h1

/-- C6 (witness): the merge 3 of `kernelPhi`, whose branches yield "t.x" and "5". -/
theorem phi_renders_alternatives_witness :
    Renders kernelPhi cudaTable 3 false 0 ("(" ++ String.intercalate " | " ["t.x", "5"] ++ ")") 0 ∧
    (∀ s1 m1, Renders kernelPhi cudaTable 3 false 0 s1 m1 →
      s1 = "(" ++ String.intercalate " | " ["t.x", "5"] ++ ")" ∧ m1 = 0) ∧
    (∀ a b, ["t.x", "5"] = [a, b] →
      Renders kernelPhi cudaTable 3 false 0 ("(" ++ a ++ " | " ++ b ++ ")") 0) :=
  phi_renders_alternatives kernelPhi cudaTable 3 [1, 2] 0 ["t.x", "5"] 0 rfl
    ⟨"t.x", 0, ["5"], rfl, ⟨1, by decide⟩, "5", 0, [], rfl, ⟨1, by decide⟩, rfl, rfl⟩

/-- C7: a control-flow merge reached while the inside-merge flag is set renders exactly
"#PHIRECURSION" and leaves the state as it was, whatever its incoming values are (no
recursive call is made, so the result holds with one unit of fuel and for every behaviour of
the recursive call); a merge that lists itself among its incoming values therefore renders
"#PHIRECURSION" for that reference. -/
theorem phi_inside_phi_is_marker (E : Env) (tbl : Translations) (v : Nat)
    (incoming : List Nat) (hv : (E.ir v).node = .phi incoming) :
    (∀ (σ : Type) (upd : String → String → σ → σ)
        (recV : Nat → Bool → σ → Res (String × σ)) (st : σ),
      stepV E tbl upd recV v true st = .ok ("#PHIRECURSION", st)) ∧
    (∀ (σ : Type) (upd : String → String → σ → σ) (fuel : Nat) (st : σ),
      getDimInfo E tbl upd (fuel + 1) v true st = .ok ("#PHIRECURSION", st)) ∧
    (v ∈ incoming → ∀ m, Renders E tbl v true m "#PHIRECURSION" m) := by
  have h1 : ∀ (σ : Type) (upd : String → String → σ → σ)
      (recV : Nat → Bool → σ → Res (String × σ)) (st : σ),
      stepV E tbl upd recV v true st = .ok ("#PHIRECURSION", st) := by
    intro σ upd recV st
    simp only [stepV, hv]
    rfl
  exact ⟨h1, fun σ upd fuel st => h1 σ upd _ st, fun _ m => ⟨1, h1 Nat orMask _ m⟩⟩

/-- C7 (witness): the merge 4 of `kernelPhi` lists itself and the constant 5; entered with
the flag set it is the marker, and entered with the flag clear it renders the marker for
its own reference. -/
theorem phi_inside_phi_is_marker_witness :
    getDimInfo kernelPhi cudaTable orMask 1 4 true 0 = .ok ("#PHIRECURSION", 0) ∧
    getDimInfo kernelPhi cudaTable orMask 2 4 false 0 = .ok ("(#PHIRECURSION | 5)", 0) :=
  ⟨(phi_inside_phi_is_marker kernelPhi cudaTable 4 [4, 2] rfl).2.1 Nat orMask 0 0, by decide⟩

/-- C8: a call to a built-in index register renders as its fixed short name (thread id
"t.x/y/z", block id "b.x/y/z", block size "bsize.x/y/z"), whatever the inside-merge flag;
the names with a short name are exactly those of the three recognition tables, and each
has an entry in the translation table. -/
theorem register_call_renders_short_name (E : Env) (v cv : Nat) (args : List Nat)
    (info : FunInfo) (fuel : Nat) (p : Bool) (m : Nat) (raw short : String)
    (hv : (E.ir v).node = .call cv args) (hcv : (E.ir cv).node = .function info)
    (hname : (E.ir cv).name = raw) (hpair : (raw, short) ∈ registerShortNames) :
    getDimInfo E cudaTable orMask (fuel + 1) v p m = .ok (short, orMask raw short m) ∧
    registerShortNames.map Prod.fst = ThreadIdFunNames ++ BlockIdFunNames ++ SizeFunNames ∧
    (∀ n ∈ ThreadIdFunNames ++ BlockIdFunNames ++ SizeFunNames, cudaTable.count n = 1) := by
  refine ⟨?_, by decide, by decide⟩
  have hmem : (E.ir cv).name ∈ ThreadIdFunNames ++ BlockIdFunNames ++ SizeFunNames := by
    rw [hname, ← show registerShortNames.map Prod.fst =
      ThreadIdFunNames ++ BlockIdFunNames ++ SizeFunNames by decide]
    exact List.mem_map.mpr ⟨(raw, short), hpair, rfl⟩
  rw [getDimInfo_register E orMask v cv args info fuel p m hv hcv hmem, hname]
  have hget : cudaTable.get raw = short := by
    simp only [registerShortNames, List.mem_cons, Prod.mk.injEq, List.mem_singleton,
      List.not_mem_nil, or_false] at hpair
    rcases hpair with h | h | h | h | h | h | h | h | h <;> obtain ⟨rfl, rfl⟩ := h <;> decide
  rw [hget]

/-- C8 (witness): the thread-id read `tx` of `kernelPhi` renders "t.x". -/
theorem register_call_renders_short_name_witness :
    getDimInfo kernelPhi cudaTable orMask (0 + 1) 1 false 0 =
      .ok ("t.x", orMask "llvm.nvvm.read.ptx.sreg.tid.x" "t.x" 0) ∧
    registerShortNames.map Prod.fst = ThreadIdFunNames ++ BlockIdFunNames ++ SizeFunNames ∧
    (∀ n ∈ ThreadIdFunNames ++ BlockIdFunNames ++ SizeFunNames, cudaTable.count n = 1) :=
  register_call_renders_short_name kernelPhi 1 0 [] _ 0 false 0 _ "t.x" rfl rfl rfl
    (by decide)

/-- C10: a two-operand instruction that is not a control-flow merge, with one of the listed
opcodes, renders "(" + L + sym + R + ")" where L and R are the formulas of its operands 0
and 1 under the same inside-merge flag (operand 0 first, the mask being passed on) and sym
is the symbol the specification lists for the opcode and predicate. -/
theorem binary_operator_formula (E : Env) (tbl : Translations) (v left right : Nat)
    (opcode : Opcode) (pred : Predicate) (sym : String) (p : Bool) (m m1 m2 : Nat)
    (L R : String)
    (hv : (E.ir v).node = .inst opcode pred [left, right])
    (hsym : claimedSymbol opcode pred = some sym)
    (hL : Renders E tbl left p m L m1) (hR : Renders E tbl right p m1 R m2) :
    Renders E tbl v p m ("(" ++ L ++ sym ++ R ++ ")") m2 ∧
    (∀ s1 m3, Renders E tbl v p m s1 m3 → s1 = "(" ++ L ++ sym ++ R ++ ")" ∧ m3 = m2) := by
  have hop : opSymbol opcode pred = some sym := by
    rw [← hsym]
    cases opcode <;> cases pred <;> first | rfl | (simp [claimedSymbol] at hsym)
  obtain ⟨f1, hf1⟩ := hL
  obtain ⟨f2, hf2⟩ := hR
  have h1 : Renders E tbl v p m ("(" ++ L ++ sym ++ R ++ ")") m2 := by
    refine ⟨max f1 f2 + 1, ?_⟩
    have e1 := getDimInfo_mono E tbl orMask (Nat.le_max_left f1 f2) hf1
    have e2 := getDimInfo_mono E tbl orMask (Nat.le_max_right f1 f2) hf2
    simp only [getDimInfo, stepV, hv, e1, Res.bind, hop, e2]
  exact ⟨h1, fun s1 m3 h => renders_unique h h1⟩

/-- C10 (witness): the addition `by + 5` of `kernelPhi` renders "(b.y + 5)". -/
theorem binary_operator_formula_witness :
    Renders kernelPhi cudaTable 6 false 0 ("(" ++ "b.y" ++ " + " ++ "5" ++ ")") 2 ∧
    (∀ s1 m3, Renders kernelPhi cudaTable 6 false 0 s1 m3 →
      s1 = "(" ++ "b.y" ++ " + " ++ "5" ++ ")" ∧ m3 = 2) :=
  binary_operator_formula kernelPhi cudaTable 6 8 2 .Add .ICMP_EQ " + " false 0 2 2 "b.y" "5"
    rfl rfl ⟨1, by decide⟩ ⟨1, by decide⟩

theorem cudaTable_get (raw : String) :
    cudaTable.get raw =
      if raw = "llvm.nvvm.read.ptx.sreg.ctaid.x" then "b.x"
      else if raw = "llvm.nvvm.read.ptx.sreg.ctaid.y" then "b.y"
      else if raw = "llvm.nvvm.read.ptx.sreg.ctaid.z" then "b.z"
      else if raw = "llvm.nvvm.read.ptx.sreg.tid.x" then "t.x"
      else if raw = "llvm.nvvm.read.ptx.sreg.tid.y" then "t.y"
      else if raw = "llvm.nvvm.read.ptx.sreg.tid.z" then "t.z"
      else if raw = "llvm.nvvm.read.ptx.sreg.ntid.x" then "bsize.x"
      else if raw = "llvm.nvvm.read.ptx.sreg.ntid.y" then "bsize.y"
      else if raw = "llvm.nvvm.read.ptx.sreg.ntid.z" then "bsize.z"
      else "" := by
  have hne : ∀ (k v : String) (t : Translations), raw ≠ k →
      Translations.get ((k, v) :: t) raw = Translations.get t raw := by
    intro k v t h
    have hk : (k == raw) = false := beq_eq_false_iff_ne.mpr (Ne.symm h)
    simp only [Translations.get, List.find?_cons, hk]
  rw [cudaTable_eq]
  split_ifs with h1 h2 h3 h4 h5 h6 h7 h8 h9
  · subst h1; decide
  · subst h2; decide
  · subst h3; decide
  · subst h4; decide
  · subst h5; decide
  · subst h6; decide
  · subst h7; decide
  · subst h8; decide
  · subst h9; decide
  · rw [hne _ _ _ h1, hne _ _ _ h2, hne _ _ _ h3, hne _ _ _ h4, hne _ _ _ h5, hne _ _ _ h6,
      hne _ _ _ h7, hne _ _ _ h8, hne _ _ _ h9]
    rfl

theorem orMask_cudaTable (raw : String) (acc : Nat) :
    orMask raw (cudaTable.get raw) acc = acc ||| axisBit raw := by
  rw [cudaTable_get]
  unfold axisBit
  split_ifs <;> simp [orMask, DimNone]

theorem logMask_append (log : List String) (raw : String) :
    logMask (log ++ [raw]) = logMask log ||| axisBit raw := by
  simp [logMask, List.foldl_append]

theorem foldl_axis_testBit (k : Nat) (log : List String) :
    ∀ acc, (log.foldl (fun acc raw => acc ||| axisBit raw) acc).testBit k = true ↔
      acc.testBit k = true ∨ ∃ raw ∈ log, (axisBit raw).testBit k = true := by
  induction log with
  | nil => intro acc; simp
  | cons x xs ih =>
    intro acc
    rw [List.foldl_cons, ih, Nat.testBit_or, Bool.or_eq_true]
    simp only [List.mem_cons, exists_eq_or_imp]
    tauto

theorem foldl_axis_lt (log : List String) :
    ∀ acc, acc < 2 ^ 3 → log.foldl (fun acc raw => acc ||| axisBit raw) acc < 2 ^ 3 := by
  induction log with
  | nil => intro acc h; exact h
  | cons x xs ih =>
    intro acc h
    rw [List.foldl_cons]
    apply ih
    apply Nat.or_lt_two_pow h
    unfold axisBit
    split_ifs <;> decide

theorem axisBit_testBit (raw : String) :
    ((axisBit raw).testBit 0 = true ↔ raw = "llvm.nvvm.read.ptx.sreg.ctaid.x") ∧
    ((axisBit raw).testBit 1 = true ↔ raw = "llvm.nvvm.read.ptx.sreg.ctaid.y") ∧
    ((axisBit raw).testBit 2 = true ↔ raw = "llvm.nvvm.read.ptx.sreg.ctaid.z") := by
  unfold axisBit
  split_ifs with h1 h2 h3
  · subst h1; decide
  · subst h2; decide
  · subst h3; decide
  · simp [DimNone, h1, h2, h3]

theorem logMask_bit_of (k : Nat) (name : String)
    (hax : ∀ raw, (axisBit raw).testBit k = true ↔ raw = name) (log : List String) :
    (logMask log).testBit k = true ↔ name ∈ log := by
  unfold logMask
  rw [foldl_axis_testBit]
  constructor
  · rintro (h | ⟨raw, hraw, hb⟩)
    · rw [show DimNone = 0 from rfl, Nat.zero_testBit] at h
      cases h
    · exact ((hax raw).mp hb) ▸ hraw
  · intro h
    exact Or.inr ⟨name, h, (hax name).mpr rfl⟩

theorem logMask_bits (log : List String) :
    ((logMask log).testBit 0 = true ↔ "llvm.nvvm.read.ptx.sreg.ctaid.x" ∈ log) ∧
    ((logMask log).testBit 1 = true ↔ "llvm.nvvm.read.ptx.sreg.ctaid.y" ∈ log) ∧
    ((logMask log).testBit 2 = true ↔ "llvm.nvvm.read.ptx.sreg.ctaid.z" ∈ log) :=
  ⟨logMask_bit_of 0 _ (fun raw => (axisBit_testBit raw).1) log,
   logMask_bit_of 1 _ (fun raw => (axisBit_testBit raw).2.1) log,
   logMask_bit_of 2 _ (fun raw => (axisBit_testBit raw).2.2) log⟩

/-- C9: the grid-axis mask of a dimension record has bit X (respectively Y, Z) set if and
only if the traversal that built it rendered a block-id register call for axis x
(respectively y, z): run with the recording state, the same traversal returns the same
formula and the list of the register calls it rendered, and the mask is the union of their
axis bits. Thread-id and block-size calls set no bit: a traversal that renders no block-id
call leaves the mask empty. No other bit is ever set. -/
theorem mask_bit_iff_block_id_rendered (E : Env) (fuel : Nat) (scev : SCEV) (dim : Nat)
    (d : DimInfo) (h : DimInfo.new E cudaTable fuel scev dim = .ok d) :
    ∃ log, getDimInfoSCEV E cudaTable logCall fuel scev false [] = .ok (d.strAccess, log) ∧
      (d.mask &&& DimX ≠ 0 ↔ "llvm.nvvm.read.ptx.sreg.ctaid.x" ∈ log) ∧
      (d.mask &&& DimY ≠ 0 ↔ "llvm.nvvm.read.ptx.sreg.ctaid.y" ∈ log) ∧
      (d.mask &&& DimZ ≠ 0 ↔ "llvm.nvvm.read.ptx.sreg.ctaid.z" ∈ log) ∧
      ((∀ n ∈ log, n ∉ BlockIdFunNames) → d.mask = DimNone) ∧
      d.mask < 8 := by
  unfold DimInfo.new at h
  cases hr : getDimInfoSCEV E cudaTable orMask fuel scev false DimNone with
  | fatal => simp [hr, Res.bind] at h
  | timeout => simp [hr, Res.bind] at h
  | ok r =>
    simp only [hr, Res.bind, Res.ok.injEq] at h
    subst h
    have hsim := @getDimInfoSCEV_sim Nat (List String)
      (fun (mk : Nat) (l : List String) => mk = logMask l) E cudaTable orMask logCall
      (fun raw a b _ hab => by
        show orMask raw (cudaTable.get raw) a = logMask (b ++ [raw])
        rw [orMask_cudaTable, logMask_append, hab])
      fuel scev false DimNone [] rfl
    rw [hr] at hsim
    obtain ⟨log, hlog, hmask⟩ := hsim
    have hmask' : r.2 = logMask log := hmask
    obtain ⟨b0, b1, b2⟩ := logMask_bits log
    have hx := and_bit_ne_zero r.2 0
    have hy := and_bit_ne_zero r.2 1
    have hz := and_bit_ne_zero r.2 2
    simp only [pow_zero, pow_one, show (2 : Nat) ^ 2 = 4 from rfl] at hx hy hz
    refine ⟨log, hlog, ?_, ?_, ?_, ?_, ?_⟩
    · show r.2 &&& 1 ≠ 0 ↔ _
      rw [hx, hmask', b0]
    · show r.2 &&& 2 ≠ 0 ↔ _
      rw [hy, hmask', b1]
    · show r.2 &&& 4 ≠ 0 ↔ _
      rw [hz, hmask', b2]
    · intro hno
      show r.2 = 0
      rw [hmask']
      apply Nat.eq_of_testBit_eq
      intro k
      rw [Nat.zero_testBit]
      cases hk : (logMask log).testBit k with
      | false => rfl
      | true =>
        exfalso
        obtain hk' | ⟨raw, hraw, hbit⟩ := (foldl_axis_testBit k log DimNone).mp hk
        · simp [DimNone] at hk'
        · apply hno raw hraw
          unfold axisBit at hbit
          simp only [BlockIdFunNames, List.mem_cons, List.mem_singleton, List.not_mem_nil,
            or_false]
          split_ifs at hbit with h1 h2 h3
          · exact Or.inl h1
          · exact Or.inr (Or.inl h2)
          · exact Or.inr (Or.inr h3)
          · simp [DimNone] at hbit
    · show r.2 < 8
      rw [hmask']
      exact foldl_axis_lt log DimNone (by decide)

/-- C9 (witness): the record of `by + 5` in `kernelPhi` has mask {Y}, and the traversal
rendered the block-id call for axis y. -/
theorem mask_bit_iff_block_id_rendered_witness :
    ∃ log, getDimInfoSCEV kernelPhi cudaTable logCall 3 (.unknown 6) false [] =
        .ok ("(b.y + 5)", log) ∧
      (DimY &&& DimX ≠ 0 ↔ "llvm.nvvm.read.ptx.sreg.ctaid.x" ∈ log) ∧
      (DimY &&& DimY ≠ 0 ↔ "llvm.nvvm.read.ptx.sreg.ctaid.y" ∈ log) ∧
      (DimY &&& DimZ ≠ 0 ↔ "llvm.nvvm.read.ptx.sreg.ctaid.z" ∈ log) ∧
      ((∀ n ∈ log, n ∉ BlockIdFunNames) → DimY = DimNone) ∧
      DimY < 8 :=
  mask_bit_iff_block_id_rendered kernelPhi 3 (.unknown 6) 0
    ⟨.unknown 6, 0, "(b.y + 5)", DimY⟩ rfl

theorem rendersSCEV_unique {E : Env} {tbl : Translations} {e : SCEV} {p : Bool} {m : Nat}
    {s s' : String} {m1 m2 : Nat} (h1 : RendersSCEV E tbl e p m s m1)
    (h2 : RendersSCEV E tbl e p m s' m2) : s = s' ∧ m1 = m2 := by
  obtain ⟨f, hf⟩ := h1
  obtain ⟨g, hg⟩ := h2
  have h3 := getDimInfoSCEV_mono E tbl orMask (Nat.le_max_left f g) hf
  have h4 := getDimInfoSCEV_mono E tbl orMask (Nat.le_max_right f g) hg
  rw [h3] at h4
  injection h4 with h5
  exact ⟨congrArg Prod.fst h5, congrArg Prod.snd h5⟩

theorem findFrom_ge (pat : List Char) :
    ∀ (s : List Char) (i : Nat), findFrom pat s i = npos ∨ i ≤ findFrom pat s i := by
  intro s
  induction s with
  | nil =>
    intro i
    unfold findFrom
    split
    · exact Or.inr (le_refl _)
    · exact Or.inl rfl
  | cons c cs ih =>
    intro i
    unfold findFrom
    split
    · exact Or.inr (le_refl _)
    · rcases ih (i + 1) with h | h
      · exact Or.inl h
      · exact Or.inr (by omega)

/-- The test `s.find(pat) == 0` holds exactly when `s` begins with `pat`. -/
theorem find_eq_zero_iff (s pat : String) : find s pat = 0 ↔ BeginsWith s pat := by
  unfold find BeginsWith
  cases hs : s.data with
  | nil =>
    simp only [findFrom, List.prefix_nil]
    constructor
    · intro h
      by_contra hne
      have : pat.data.isEmpty = false := by
        cases hp : pat.data with
        | nil => exact absurd hp hne
        | cons _ _ => rfl
      simp [this, npos] at h
    · intro h
      simp [h]
  | cons c cs =>
    simp only [findFrom]
    constructor
    · intro h
      by_cases hp : pat.data.isPrefixOf (c :: cs) = true
      · exact List.isPrefixOf_iff_prefix.mp hp
      · simp only [hp, Bool.false_eq_true, if_false] at h
        rcases findFrom_ge pat.data cs (0 + 1) with h1 | h1
        · rw [h] at h1
          exact absurd h1 (by decide)
        · omega
    · intro h
      simp [List.isPrefixOf_iff_prefix.mpr h]

/-- A pattern that occurs is found no later than the end of the text. -/
theorem findFrom_le_of_infix (pat : List Char) :
    ∀ (s : List Char) (i : Nat), pat <:+: s → findFrom pat s i ≤ i + s.length := by
  intro s
  induction s with
  | nil =>
    intro i h
    have hp : pat = [] := List.infix_nil.mp h
    subst hp
    simp [findFrom]
  | cons c cs ih =>
    intro i h
    unfold findFrom
    split
    · simp
    · rename_i hp
      rcases List.infix_cons_iff.mp h with h1 | h1
      · exact absurd (List.isPrefixOf_iff_prefix.mpr h1) hp
      · have := ih (i + 1) h1
        simp only [List.length_cons]
        omega

/-- A position that `find` returns is an occurrence. -/
theorem infix_of_findFrom_ne_npos (pat : List Char) :
    ∀ (s : List Char) (i : Nat), findFrom pat s i ≠ npos → pat <:+: s := by
  intro s
  induction s with
  | nil =>
    intro i h
    unfold findFrom at h
    split at h
    · rename_i hp
      exact (List.isEmpty_iff.mp hp) ▸ List.nil_infix
    · exact absurd rfl h
  | cons c cs ih =>
    intro i h
    unfold findFrom at h
    split at h
    · rename_i hp
      exact (List.isPrefixOf_iff_prefix.mp hp).isInfix
    · exact List.infix_cons (ih (i + 1) h)

/-- The test `s.find(pat) != npos` holds exactly when `s` contains `pat`, for a string
shorter than `npos`. -/
theorem find_ne_npos_iff (s pat : String) (hlen : s.length < npos) :
    find s pat ≠ npos ↔ Contains s pat := by
  unfold find Contains
  constructor
  · exact infix_of_findFrom_ne_npos pat.data s.data 0
  · intro h
    have := findFrom_le_of_infix pat.data s.data 0 h
    have hl : s.data.length = s.length := rfl
    omega

theorem isDynarrayMember_iff (d what : String) (hlen : d.length < npos) :
    isDynarrayMember d what = true ↔ BeginsWith d "cudarrays::dynarray" ∧ Contains d what := by
  unfold isDynarrayMember
  rw [Bool.and_eq_true, beq_iff_eq, bne_iff_ne, find_eq_zero_iff, find_ne_npos_iff d what hlen]

theorem toStringSigned_decimal (w b : Nat) :
    toStringSigned w b =
      if sextValue w b < 0 then "-" ++ toString (sextValue w b).natAbs
      else toString (sextValue w b).natAbs := by
  unfold toStringSigned
  cases sextValue w b with
  | ofNat n => rfl
  | negSucc n =>
    rw [if_pos (Int.negSucc_lt_zero n)]
    rfl

/-- The value `getSExtValue()` is the two's complement reading of the bit pattern. -/
theorem sextValue_twos_complement (w b : Nat) (hw : 0 < w) :
    (sextValue w b = ((b % 2 ^ w : Nat) : Int) ∨
      sextValue w b = ((b % 2 ^ w : Nat) : Int) - ((2 ^ w : Nat) : Int)) ∧
    -((2 ^ (w - 1) : Nat) : Int) ≤ sextValue w b ∧
    sextValue w b < ((2 ^ (w - 1) : Nat) : Int) := by
  have hpow : 2 ^ w = 2 * 2 ^ (w - 1) := by
    obtain ⟨k, rfl⟩ : ∃ k, w = k + 1 := ⟨w - 1, by omega⟩
    simp [pow_succ, Nat.mul_comm]
  have hlt : b % 2 ^ w < 2 ^ w := Nat.mod_lt _ (Nat.two_pow_pos w)
  unfold sextValue
  split
  · refine ⟨Or.inr rfl, ?_, ?_⟩ <;> omega
  · refine ⟨Or.inl rfl, ?_, ?_⟩ <;> omega

theorem renderGlobal_offset (name : String) (h : BeginsWith name "offset") :
    renderGlobal name = "off" := by
  unfold renderGlobal
  rw [if_pos (beq_iff_eq.mpr ((find_eq_zero_iff name "offset").mpr h))]

theorem renderGlobal_other (name : String) (h : ¬ BeginsWith name "offset") :
    renderGlobal name = "#GLOBAL:" ++ name := by
  unfold renderGlobal
  have hne : ¬ (find name "offset" == 0) = true := fun hc =>
    h ((find_eq_zero_iff name "offset").mp (beq_iff_eq.mp hc))
  rw [if_neg hne]

theorem getDimInfo_global {σ : Type} (E : Env) (tbl : Translations)
    (upd : String → String → σ → σ) (fuel v : Nat) (p : Bool) (st : σ)
    (hg : isGlobalValue (E.ir v).node = true) :
    getDimInfo E tbl upd (fuel + 1) v p st = .ok (renderGlobal (E.ir v).name, st) := by
  simp only [getDimInfo, stepV]
  cases hn : (E.ir v).node <;> simp_all [isGlobalValue]

/-- C11: in the Symbolic Formula Builder an integer constant renders as the decimal
literal of its signed two's complement value; a global symbol whose name begins with
"offset" renders "off" and any other global symbol renders "#GLOBAL:" followed by its
name; a constant expression with exactly three operands whose first operand is an
offset-prefixed global and whose third operand is the constant 0, 1 or 2 renders "off.x",
"off.y" or "off.z". -/
theorem constants_render (E : Env) (tbl : Translations) (fuel v : Nat) (p : Bool) (m : Nat) :
    (∀ w b, (E.ir v).node = .constantInt w b →
      getDimInfo E tbl orMask (fuel + 1) v p m = .ok (toStringSigned w b, m) ∧
      (toStringSigned w b =
        if sextValue w b < 0 then "-" ++ toString (sextValue w b).natAbs
        else toString (sextValue w b).natAbs) ∧
      (0 < w →
        (sextValue w b = ((b % 2 ^ w : Nat) : Int) ∨
          sextValue w b = ((b % 2 ^ w : Nat) : Int) - ((2 ^ w : Nat) : Int)) ∧
        -((2 ^ (w - 1) : Nat) : Int) ≤ sextValue w b ∧
        sextValue w b < ((2 ^ (w - 1) : Nat) : Int))) ∧
    (isGlobalValue (E.ir v).node = true → BeginsWith (E.ir v).name "offset" →
      getDimInfo E tbl orMask (fuel + 1) v p m = .ok ("off", m)) ∧
    (isGlobalValue (E.ir v).node = true → ¬ BeginsWith (E.ir v).name "offset" →
      getDimInfo E tbl orMask (fuel + 1) v p m = .ok ("#GLOBAL:" ++ (E.ir v).name, m)) ∧
    (∀ opcode op0 op1 op2 w b axis, (E.ir v).node = .constantExpr opcode [op0, op1, op2] →
      isGlobalValue (E.ir op0).node = true → BeginsWith (E.ir op0).name "offset" →
      (E.ir op2).node = .constantInt w b →
      (sextValue w b, axis) ∈ [((0 : Int), "x"), (1, "y"), (2, "z")] →
      getDimInfo E tbl orMask (fuel + 2) v p m = .ok ("off." ++ axis, m)) := by
  refine ⟨?_, ?_, ?_, ?_⟩
  · intro w b hv
    refine ⟨?_, toStringSigned_decimal w b, sextValue_twos_complement w b⟩
    simp only [getDimInfo, stepV, hv]
  · intro hg hb
    rw [getDimInfo_global E tbl orMask fuel v p m hg, renderGlobal_offset _ hb]
  · intro hg hb
    rw [getDimInfo_global E tbl orMask fuel v p m hg, renderGlobal_other _ hb]
  · intro opcode op0 op1 op2 w b axis hv hg hb h2 hax
    have hfind : (find (E.ir op0).name "offset" == 0) = true :=
      beq_iff_eq.mpr ((find_eq_zero_iff _ "offset").mpr hb)
    have h0 := getDimInfo_global E tbl orMask fuel op0 p m hg
    rw [renderGlobal_offset _ hb] at h0
    have hdims : offset_dims (sextValue w b) = some axis := by
      simp only [List.mem_cons, Prod.mk.injEq, List.mem_singleton, List.not_mem_nil,
        or_false] at hax
      rcases hax with ⟨h1, rfl⟩ | ⟨h1, rfl⟩ | ⟨h1, rfl⟩ <;> rw [h1] <;> rfl
    have hstep : getDimInfo E tbl orMask (fuel + 2) v p m =
        stepV E tbl orMask (getDimInfo E tbl orMask (fuel + 1)) v p m := rfl
    rw [hstep]
    simp only [stepV, hv, List.head?_cons, hg, hfind, Bool.and_self, if_true, h0, Res.bind,
      List.length_cons, List.length_nil, List.get?_cons_succ, List.get?_cons_zero, h2, hdims]
    rfl

/-- C11 (witness): the constants of `kernelMisc`. -/
theorem constants_render_witness :
    getDimInfo kernelMisc cudaTable orMask (0 + 1) 2 false 0 = .ok ("-3", 0) ∧
    getDimInfo kernelMisc cudaTable orMask (0 + 1) 0 false 0 = .ok ("off", 0) ∧
    getDimInfo kernelMisc cudaTable orMask (0 + 1) 1 false 0 = .ok ("#GLOBAL:" ++ "data", 0) ∧
    getDimInfo kernelMisc cudaTable orMask (0 + 2) 4 false 0 = .ok ("off." ++ "y", 0) :=
  ⟨((constants_render kernelMisc cudaTable 0 2 false 0).1 32 4294967293 rfl).1,
   (constants_render kernelMisc cudaTable 0 0 false 0).2.1 rfl
     ((find_eq_zero_iff "offset" "offset").mp (by decide)),
   (constants_render kernelMisc cudaTable 0 1 false 0).2.2.1 rfl
     (fun h => absurd ((find_eq_zero_iff "data" "offset").mpr h) (by decide)),
   (constants_render kernelMisc cudaTable 0 4 false 0).2.2.2 _ 0 5 3 32 1 "y" rfl rfl
     ((find_eq_zero_iff "offset" "offset").mp (by decide)) rfl (by decide)⟩

theorem join_foldl_acc (l : List String) :
    ∀ acc : String, l.foldl (fun r s => r ++ s) acc = acc ++ l.foldl (fun r s => r ++ s) "" := by
  induction l with
  | nil => intro acc; simp
  | cons x xs ih =>
    intro acc
    rw [List.foldl_cons, List.foldl_cons, ih (acc ++ x), ih ("" ++ x), String.empty_append,
      String.append_assoc]

theorem intercalate_empty_eq_join (ss : List String) : String.intercalate "" ss = String.join ss := by
  induction ss with
  | nil => rfl
  | cons a rest ih =>
    cases rest with
    | nil => simp [String.intercalate, String.intercalate.go, String.join]
    | cons b rest' =>
      rw [intercalate_cons_cons, ih, String.append_empty]
      have e1 : String.join (a :: b :: rest') =
          (b :: rest').foldl (fun r s => r ++ s) ("" ++ a) := rfl
      rw [e1, String.empty_append, join_foldl_acc (b :: rest') a]
      rfl

/-- A run that fails fatally with one unit of fuel never returns a formula. -/
theorem never_ok_of_fatal {σ : Type} (E : Env) (tbl : Translations)
    (upd : String → String → σ → σ) (v : Nat) (p : Bool) (st : σ)
    (h : getDimInfo E tbl upd 1 v p st = .fatal) :
    ∀ g s st', getDimInfo E tbl upd g v p st ≠ .ok (s, st') := by
  intro g s st' hg
  cases g with
  | zero => cases hg
  | succ k =>
    have := getDimInfo_mono_fatal E tbl upd (Nat.succ_le_succ (Nat.zero_le k)) h
    rw [this] at hg
    cases hg

/-- C12 (amended): constant arrays, structs and vectors, undefined values and constant data
sequences make the Symbolic Formula Builder fail fatally, and no formula is ever returned
for them; any other constant that is neither an integer, a global symbol nor a constant
expression renders "K"; a constant expression whose first operand is not an
offset-prefixed global renders the concatenation of the formulas of its operands. -/
theorem other_constants_render (E : Env) (tbl : Translations) (fuel v : Nat) (p : Bool)
    (m : Nat) :
    ((E.ir v).node = .constantArray ∨ (E.ir v).node = .constantStruct ∨
        (E.ir v).node = .constantVector ∨ (E.ir v).node = .undefValue ∨
        (E.ir v).node = .constantDataSequential →
      getDimInfo E tbl orMask (fuel + 1) v p m = .fatal ∧
      ∀ g s m', getDimInfo E tbl orMask g v p m ≠ .ok (s, m')) ∧
    ((E.ir v).node = .constantOther →
      getDimInfo E tbl orMask (fuel + 1) v p m = .ok ("K", m)) ∧
    (∀ opcode operands op0 ss m', (E.ir v).node = .constantExpr opcode operands →
      operands.head? = some op0 →
      ¬ (isGlobalValue (E.ir op0).node = true ∧ BeginsWith (E.ir op0).name "offset") →
      RendersAll E tbl p operands m ss m' →
      Renders E tbl v p m (String.join ss) m') := by
  refine ⟨?_, ?_, ?_⟩
  · intro h
    have h1 : ∀ k, getDimInfo E tbl orMask (k + 1) v p m = .fatal := by
      intro k
      simp only [getDimInfo, stepV]
      rcases h with h | h | h | h | h <;> rw [h]
    exact ⟨h1 fuel, never_ok_of_fatal E tbl orMask v p m (h1 0)⟩
  · intro h
    simp only [getDimInfo, stepV, h]
  · intro opcode operands op0 ss m' hv hhead hnot hall
    obtain ⟨f, hf⟩ := rendersAll_fuel E tbl p operands m ss m' hall
    refine ⟨f + 1, ?_⟩
    have hcond : ¬ ((isGlobalValue (E.ir op0).node &&
        find (E.ir op0).name "offset" == 0) = true) := by
      intro hc
      rw [Bool.and_eq_true, beq_iff_eq, find_eq_zero_iff] at hc
      exact hnot hc
    have := hf f (le_refl _) "" 0 operands.length (by omega)
    simp only [getDimInfo, stepV, hv, hhead, hcond, Bool.false_eq_true, if_false, this,
      intercalate_empty_eq_join]

/-- C12 (witness): the constant expression 7 of `kernelMisc`, on the global "data" and the
constant 1, renders the two formulas one after the other. -/
theorem other_constants_render_witness :
    Renders kernelMisc cudaTable 7 false 0 (String.join ["#GLOBAL:data", "1"]) 0 :=
  (other_constants_render kernelMisc cudaTable 0 7 false 0).2.2 .Add [1, 3] 1
    ["#GLOBAL:data", "1"] 0 rfl rfl
    (fun h => absurd ((find_eq_zero_iff "data" "offset").mpr h.2) (by decide))
    ⟨"#GLOBAL:data", 0, ["1"], rfl, ⟨1, by decide⟩, "1", 0, [], rfl, ⟨1, by decide⟩, rfl, rfl⟩

/-- C12 (counterexample): the floating-point constant 6 of `kernelMisc` is neither an
integer, a global symbol nor a constant expression, and the builder returns the formula
"K" for it instead of failing. -/
theorem other_constants_counterexample :
    (kernelMisc.ir 6).node = .constantOther ∧
    getDimInfo kernelMisc cudaTable orMask 1 6 false 0 = .ok ("K", 0) ∧
    getDimInfo kernelMisc cudaTable orMask 1 6 false 0 ≠ .fatal := by
  decide

/-- C13 (amended): a vector element extraction, a value that is neither instruction,
constant nor parameter, and an instruction of another class whose operand count is not
two make the Symbolic Formula Builder fail fatally, and no formula is ever returned for
them; a stack allocation, which is in none of the recognised classes either, renders the
empty string. -/
theorem unrecognised_values_fail (E : Env) (tbl : Translations) (fuel v : Nat) (p : Bool)
    (m : Nat) :
    ((E.ir v).node = .extractElement ∨ (E.ir v).node = .other ∨
        (∃ opcode pred operands, (E.ir v).node = .inst opcode pred operands ∧
          operands.length ≠ 2) →
      getDimInfo E tbl orMask (fuel + 1) v p m = .fatal ∧
      ∀ g s m', getDimInfo E tbl orMask g v p m ≠ .ok (s, m')) ∧
    ((E.ir v).node = .alloca → getDimInfo E tbl orMask (fuel + 1) v p m = .ok ("", m)) := by
  refine ⟨?_, ?_⟩
  · intro h
    have h1 : ∀ k, getDimInfo E tbl orMask (k + 1) v p m = .fatal := by
      intro k
      simp only [getDimInfo, stepV]
      rcases h with h | h | ⟨opcode, pred, operands, h, hlen⟩
      · rw [h]
      · rw [h]
      · rw [h]
        match operands, hlen with
        | [], _ => rfl
        | [_], _ => rfl
        | [_, _], hlen => exact absurd rfl hlen
        | _ :: _ :: _ :: _, _ => rfl
    exact ⟨h1 fuel, never_ok_of_fatal E tbl orMask v p m (h1 0)⟩
  · intro h
    simp only [getDimInfo, stepV, h]

/-- C13 (witness): the vector element extraction 20 and the three-operand instruction 22
of `kernelMisc` fail fatally. -/
theorem unrecognised_values_fail_witness :
    getDimInfo kernelMisc cudaTable orMask (0 + 1) 20 false 0 = .fatal ∧
    getDimInfo kernelMisc cudaTable orMask (0 + 1) 22 false 0 = .fatal :=
  ⟨((unrecognised_values_fail kernelMisc cudaTable 0 20 false 0).1 (Or.inl rfl)).1,
   ((unrecognised_values_fail kernelMisc cudaTable 0 22 false 0).1
      (Or.inr (Or.inr ⟨_, _, _, rfl, by decide⟩))).1⟩

/-- C13 (counterexample): the stack slot 8 of `kernelMisc` is an instruction of none of the
recognised classes, and the builder returns the empty formula for it instead of failing. -/
theorem unrecognised_values_counterexample :
    (kernelMisc.ir 8).node = .alloca ∧
    getDimInfo kernelMisc cudaTable orMask 1 8 false 0 = .ok ("", 0) ∧
    getDimInfo kernelMisc cudaTable orMask 1 8 false 0 ≠ .fatal := by
  decide

theorem cudaTable_count_zero (raw : String)
    (h : raw ∉ ThreadIdFunNames ++ BlockIdFunNames ++ SizeFunNames) :
    cudaTable.count raw = 0 := by
  simp only [ThreadIdFunNames, BlockIdFunNames, SizeFunNames, List.cons_append,
    List.nil_append, List.mem_cons, List.mem_singleton, List.not_mem_nil, or_false,
    not_or] at h
  obtain ⟨h1, h2, h3, h4, h5, h6, h7, h8, h9⟩ := h
  have hk : ∀ k : String, raw ≠ k → (k == raw) = false :=
    fun k hne => beq_eq_false_iff_ne.mpr (Ne.symm hne)
  rw [cudaTable_eq]
  simp only [Translations.count, List.find?_cons, List.find?_nil, hk _ h1, hk _ h2, hk _ h3,
    hk _ h4, hk _ h5, hk _ h6, hk _ h7, hk _ h8, hk _ h9]
  rfl

theorem not_register_call (E : Env) (v cv : Nat) (args : List Nat) (info : FunInfo)
    (hv : (E.ir v).node = .call cv args) (hcv : (E.ir cv).node = .function info)
    (hnot : (E.ir cv).name ∉ ThreadIdFunNames ++ BlockIdFunNames ++ SizeFunNames) :
    isThreadID E v = false ∧ isBlockSize E v = false ∧ isBlockIdx E v = false := by
  simp only [List.mem_append, not_or] at hnot
  obtain ⟨⟨h1, h2⟩, h3⟩ := hnot
  simp only [isThreadID, isBlockSize, isBlockIdx, hv, getCalledFunction, hcv,
    List.elem_eq_mem, decide_eq_false_iff_not]
  exact ⟨h1, h3, h2⟩

/-- C14: a call that is not a built-in register read and whose callee's demangled name
starts with "cudarrays::dynarray", contains "operator()" and is not marked non-returning
renders exactly "#MEM" and leaves the state as it was; no recursive call is made, so none of
its arguments is visited. -/
theorem element_access_renders_mem (E : Env) (tbl : Translations) (v cv : Nat)
    (args : List Nat) (info : FunInfo) (p : Bool)
    (hv : (E.ir v).node = .call cv args) (hcv : (E.ir cv).node = .function info)
    (hlen : info.demangled.length < npos)
    (hb : BeginsWith info.demangled "cudarrays::dynarray")
    (hc : Contains info.demangled "operator()") (hnr : info.doesNotReturn = false)
    (hnot : (E.ir cv).name ∉ ThreadIdFunNames ++ BlockIdFunNames ++ SizeFunNames) :
    (∀ (σ : Type) (upd : String → String → σ → σ)
        (recV : Nat → Bool → σ → Res (String × σ)) (st : σ),
      stepV E tbl upd recV v p st = .ok ("#MEM", st)) ∧
    (∀ (σ : Type) (upd : String → String → σ → σ) (fuel : Nat) (st : σ),
      getDimInfo E tbl upd (fuel + 1) v p st = .ok ("#MEM", st)) := by
  obtain ⟨h1, h2, h3⟩ := not_register_call E v cv args info hv hcv hnot
  have hm : isDynarrayMember info.demangled "operator()" = true :=
    (isDynarrayMember_iff _ _ hlen).mpr ⟨hb, hc⟩
  have hstep : ∀ (σ : Type) (upd : String → String → σ → σ)
      (recV : Nat → Bool → σ → Res (String × σ)) (st : σ),
      stepV E tbl upd recV v p st = .ok ("#MEM", st) := by
    intro σ upd recV st
    simp only [stepV, hv, h1, h2, h3, Bool.false_eq_true, if_false, getCalledFunction, hcv, hm,
      hnr, beq_self_eq_true, Bool.and_self, if_true]
  exact ⟨hstep, fun σ upd fuel st => hstep σ upd _ st⟩

/-- C14 (witness): the element access 10 of `kernelMisc`. -/
theorem element_access_renders_mem_witness :
    (∀ (σ : Type) (upd : String → String → σ → σ)
        (recV : Nat → Bool → σ → Res (String × σ)) (st : σ),
      stepV kernelMisc cudaTable upd recV 10 false st = .ok ("#MEM", st)) ∧
    (∀ (σ : Type) (upd : String → String → σ → σ) (fuel : Nat) (st : σ),
      getDimInfo kernelMisc cudaTable upd (fuel + 1) 10 false st = .ok ("#MEM", st)) :=
  element_access_renders_mem kernelMisc cudaTable 10 9 [8, 3, 3] _ false rfl rfl (by decide)
    ((find_eq_zero_iff _ _).mp (by decide))
    ((find_ne_npos_iff _ _ (by decide)).mp (by decide)) rfl (by decide)

theorem isDynarrayMember_imp (d what : String) (h : isDynarrayMember d what = true) :
    BeginsWith d "cudarrays::dynarray" ∧ Contains d what := by
  unfold isDynarrayMember at h
  rw [Bool.and_eq_true, beq_iff_eq, bne_iff_ne] at h
  exact ⟨(find_eq_zero_iff d _).mp h.1, infix_of_findFrom_ne_npos _ _ 0 h.2⟩

/-- C15 (amended): for a call that is neither a built-in register read, nor an array
element-access call, nor an array get_dim accessor, the formula is the name the called
function has in the IR (its mangled name); it is the demangled name only where the two
coincide. -/
theorem other_call_renders_ir_name (E : Env) (v cv : Nat) (args : List Nat) (info : FunInfo)
    (p : Bool) (fuel m : Nat)
    (hv : (E.ir v).node = .call cv args) (hcv : (E.ir cv).node = .function info)
    (hnot : (E.ir cv).name ∉ ThreadIdFunNames ++ BlockIdFunNames ++ SizeFunNames)
    (hacc : ¬ (BeginsWith info.demangled "cudarrays::dynarray" ∧
      Contains info.demangled "operator()" ∧ info.doesNotReturn = false))
    (hdim : ¬ (BeginsWith info.demangled "cudarrays::dynarray" ∧
      Contains info.demangled "get_dim")) :
    getDimInfo E cudaTable orMask (fuel + 1) v p m = .ok ((E.ir cv).name, m) ∧
    (info.demangled = (E.ir cv).name →
      getDimInfo E cudaTable orMask (fuel + 1) v p m = .ok (info.demangled, m)) := by
  obtain ⟨h1, h2, h3⟩ := not_register_call E v cv args info hv hcv hnot
  have hcount : ¬ (cudaTable.count (E.ir cv).name > 0) := by
    rw [cudaTable_count_zero _ hnot]
    exact Nat.lt_irrefl 0
  have hget : ¬ (isDynarrayMember info.demangled "get_dim" = true) :=
    fun hc => hdim (isDynarrayMember_imp _ _ hc)
  have hfn : getFunctionName E cudaTable orMask cv args m = .ok ((E.ir cv).name, m) := by
    simp only [getFunctionName, getCalledFunction, hcv, hcount, if_false, hget,
      Bool.false_eq_true]
  have hmem : ¬ ((isDynarrayMember info.demangled "operator()" &&
      info.doesNotReturn == false) = true) := by
    intro hc
    rw [Bool.and_eq_true, beq_iff_eq] at hc
    obtain ⟨hb, hco⟩ := isDynarrayMember_imp _ _ hc.1
    exact hacc ⟨hb, hco, hc.2⟩
  have hmain : getDimInfo E cudaTable orMask (fuel + 1) v p m = .ok ((E.ir cv).name, m) := by
    simp only [getDimInfo, stepV, hv, h1, h2, h3, Bool.false_eq_true, if_false,
      getCalledFunction, hcv, hmem, hfn]
  exact ⟨hmain, fun he => he ▸ hmain⟩

/-- C15 (witness): the call 12 of `kernelMisc` to the function whose IR name is "_Z3fooi". -/
theorem other_call_renders_ir_name_witness :
    getDimInfo kernelMisc cudaTable orMask (0 + 1) 12 false 0 =
      .ok ((kernelMisc.ir 11).name, 0) ∧
    ("foo(int)" = (kernelMisc.ir 11).name →
      getDimInfo kernelMisc cudaTable orMask (0 + 1) 12 false 0 = .ok ("foo(int)", 0)) :=
  other_call_renders_ir_name kernelMisc 12 11 [3] _ false 0 0 rfl rfl (by decide)
    (fun h => absurd ((find_eq_zero_iff _ _).mpr h.1) (by decide))
    (fun h => absurd ((find_eq_zero_iff _ _).mpr h.1) (by decide))

/-- C15 (counterexample): the call 12 of `kernelMisc` is neither a register read, nor an
element access, nor a get_dim accessor; its callee demangles to "foo(int)", and the formula
is "_Z3fooi". -/
theorem other_call_counterexample :
    (kernelMisc.ir 12).node = .call 11 [3] ∧
    (kernelMisc.ir 11).node = .function ⟨"foo(int)", false, 1⟩ ∧
    getDimInfo kernelMisc cudaTable orMask 1 12 false 0 = .ok ("_Z3fooi", 0) ∧
    getDimInfo kernelMisc cudaTable orMask 1 12 false 0 ≠ .ok ("foo(int)", 0) := by
  decide

/-- A value whose rendering is the recursive call on `w` renders exactly as `w` does. -/
theorem renders_through (E : Env) (tbl : Translations) (v w : Nat) (p : Bool)
    (h : ∀ (recV : Nat → Bool → Nat → Res (String × Nat)) (m : Nat),
      stepV E tbl orMask recV v p m = recV w p m) (m : Nat) (s : String) (m' : Nat) :
    Renders E tbl v p m s m' ↔ Renders E tbl w p m s m' := by
  constructor
  · rintro ⟨f, hf⟩
    cases f with
    | zero => cases hf
    | succ g =>
      refine ⟨g, ?_⟩
      rw [← hf]
      exact (h _ m).symm
  · rintro ⟨g, hg⟩
    refine ⟨g + 1, ?_⟩
    rw [← hg]
    exact h _ m

/-- C16: casts, loads and pointer adjustments are transparent. In the Symbolic Formula
Builder a cast instruction has a formula exactly when its operand 0 has one, and then the
same formula and mask; likewise a load and a pointer adjustment with their pointer operand.
In the Evolution Formula Builder a cast expression renders as its operand, and an opaque
wrapped value as the Symbolic Formula Builder renders the wrapped IR value. The
inside-merge flag is the same on both sides. -/
theorem casts_loads_geps_transparent (E : Env) (tbl : Translations) (p : Bool) (m : Nat)
    (s : String) (m' : Nat) :
    (∀ v isBitCast op0, (E.ir v).node = .cast isBitCast op0 →
      (Renders E tbl v p m s m' ↔ Renders E tbl op0 p m s m')) ∧
    (∀ v ptr, (E.ir v).node = .load ptr →
      (Renders E tbl v p m s m' ↔ Renders E tbl ptr p m s m')) ∧
    (∀ v ptr, (E.ir v).node = .getElementPtr ptr →
      (Renders E tbl v p m s m' ↔ Renders E tbl ptr p m s m')) ∧
    (∀ kind operand,
      (RendersSCEV E tbl (.cast kind operand) p m s m' ↔ RendersSCEV E tbl operand p m s m')) ∧
    (∀ value,
      (RendersSCEV E tbl (.unknown value) p m s m' ↔ Renders E tbl value p m s m')) := by
  refine ⟨?_, ?_, ?_, ?_, ?_⟩
  · intro v isBitCast op0 hv
    exact renders_through E tbl v op0 p (fun recV m => by simp only [stepV, hv]) m s m'
  · intro v ptr hv
    exact renders_through E tbl v ptr p (fun recV m => by simp only [stepV, hv]) m s m'
  · intro v ptr hv
    exact renders_through E tbl v ptr p (fun recV m => by simp only [stepV, hv]) m s m'
  · intro kind operand
    constructor
    · rintro ⟨f, hf⟩
      cases f with
      | zero => cases hf
      | succ g => exact ⟨g, hf⟩
    · rintro ⟨g, hg⟩
      exact ⟨g + 1, hg⟩
  · intro value
    constructor
    · rintro ⟨f, hf⟩
      cases f with
      | zero => cases hf
      | succ g => exact ⟨g, hf⟩
    · rintro ⟨g, hg⟩
      exact ⟨g + 1, hg⟩

/-- C16 (witness): in `kernelMisc` the cast 13 renders as the call 12 it converts, and the
load 14 and the pointer adjustment 15 as the global "data" they start from. -/
theorem casts_loads_geps_transparent_witness :
    Renders kernelMisc cudaTable 13 false 0 "_Z3fooi" 0 ∧
    Renders kernelMisc cudaTable 14 false 0 "#GLOBAL:data" 0 ∧
    Renders kernelMisc cudaTable 15 false 0 "#GLOBAL:data" 0 ∧
    RendersSCEV kernelMisc cudaTable (.cast .ZeroExtend (.unknown 1)) false 0 "#GLOBAL:data" 0 :=
  ⟨((casts_loads_geps_transparent kernelMisc cudaTable false 0 "_Z3fooi" 0).1 13 false 12
      rfl).mpr ⟨1, by decide⟩,
   ((casts_loads_geps_transparent kernelMisc cudaTable false 0 "#GLOBAL:data" 0).2.1 14 1
      rfl).mpr ⟨1, by decide⟩,
   ((casts_loads_geps_transparent kernelMisc cudaTable false 0 "#GLOBAL:data" 0).2.2.1 15 1
      rfl).mpr ⟨1, by decide⟩,
   ((casts_loads_geps_transparent kernelMisc cudaTable false 0 "#GLOBAL:data" 0).2.2.2.1
      .ZeroExtend (.unknown 1)).mpr
     (((casts_loads_geps_transparent kernelMisc cudaTable false 0 "#GLOBAL:data" 0).2.2.2.2
        1).mpr ⟨1, by decide⟩)⟩

/-- C17 (amended): extracting field 0, 1 or 2 of a function parameter of a struct type
whose name contains "dim3", when the first occurrence of "off" in the parameter's name is
at its last three characters (as in "b_off"), renders "b_off.x", "b_off.y", "b_off.z"; no
recursive call is made. A parameter named "offset" does not pass this test. -/
theorem offset_field_renders_b_off (E : Env) (tbl : Translations) (v agg : Nat)
    (indices : List Nat) (structName axis : String) (k : Nat) (p : Bool)
    (hv : (E.ir v).node = .extractValue agg (k :: indices))
    (hagg : (E.ir agg).node = .argument (.struct (some structName)))
    (hlen : structName.length < npos) (hdim3 : Contains structName "dim3")
    (hname : (E.ir agg).name.length < npos) (hsize : 3 ≤ (E.ir agg).name.length)
    (hoff : find (E.ir agg).name "off" = (E.ir agg).name.length - 3)
    (hax : (k, axis) ∈ [(0, "x"), (1, "y"), (2, "z")]) :
    (∀ (σ : Type) (upd : String → String → σ → σ)
        (recV : Nat → Bool → σ → Res (String × σ)) (st : σ),
      stepV E tbl upd recV v p st = .ok ("b_off." ++ axis, st)) ∧
    (∀ (fuel m : Nat), getDimInfo E tbl orMask (fuel + 1) v p m = .ok ("b_off." ++ axis, m)) ∧
    find "offset" "off" ≠ subSizeT "offset".length 3 := by
  have hsub : subSizeT (E.ir agg).name.length 3 = (E.ir agg).name.length - 3 := by
    have hn : npos = 2 ^ 64 - 1 := rfl
    unfold subSizeT
    have e : (E.ir agg).name.length + 2 ^ 64 - 3 % 2 ^ 64 =
        ((E.ir agg).name.length - 3) + 2 ^ 64 := by
      have : (3 : Nat) % 2 ^ 64 = 3 := by decide
      omega
    rw [e, Nat.add_mod_right]
    exact Nat.mod_eq_of_lt (by omega)
  have hcond : (find structName "dim3" != npos &&
      find (E.ir agg).name "off" == subSizeT (E.ir agg).name.length 3) = true := by
    rw [Bool.and_eq_true, bne_iff_ne, beq_iff_eq, hsub]
    exact ⟨(find_ne_npos_iff _ _ hlen).mpr hdim3, hoff⟩
  have hdims : offset_dims k = some axis := by
    simp only [List.mem_cons, Prod.mk.injEq, List.mem_singleton, List.not_mem_nil,
      or_false] at hax
    rcases hax with ⟨rfl, rfl⟩ | ⟨rfl, rfl⟩ | ⟨rfl, rfl⟩ <;> rfl
  have hstep : ∀ (σ : Type) (upd : String → String → σ → σ)
      (recV : Nat → Bool → σ → Res (String × σ)) (st : σ),
      stepV E tbl upd recV v p st = .ok ("b_off." ++ axis, st) := by
    intro σ upd recV st
    simp only [stepV, hv, hagg, hcond, if_true, List.head?_cons, hdims]
  exact ⟨hstep, fun fuel m => hstep Nat orMask _ m, by decide⟩

/-- C17 (witness): field 2 of the parameter "b_off" of `kernelMisc` renders "b_off.z". -/
theorem offset_field_renders_b_off_witness :
    (∀ (σ : Type) (upd : String → String → σ → σ)
        (recV : Nat → Bool → σ → Res (String × σ)) (st : σ),
      stepV kernelMisc cudaTable upd recV 19 false st = .ok ("b_off." ++ "z", st)) ∧
    (∀ (fuel m : Nat),
      getDimInfo kernelMisc cudaTable orMask (fuel + 1) 19 false m = .ok ("b_off." ++ "z", m)) ∧
    find "offset" "off" ≠ subSizeT "offset".length 3 :=
  offset_field_renders_b_off kernelMisc cudaTable 19 18 [] "struct.dim3" "z" 2 false rfl rfl
    (by decide) ((find_ne_npos_iff _ _ (by decide)).mp (by decide)) (by decide) (by decide)
    (by decide) (by decide)

/-- C17 (counterexample): in `kernelMisc` the parameter 16 is named "offset" and has the
struct type "struct.dim3"; extracting its field 0 renders the parameter itself, not
"b_off.x". -/
theorem offset_field_counterexample :
    (kernelMisc.ir 17).node = .extractValue 16 [0] ∧
    kernelMisc.ir 16 = ⟨"offset", .argument (.struct (some "struct.dim3"))⟩ ∧
    getDimInfo kernelMisc cudaTable orMask 2 17 false 0 = .ok ("#PARAM:offset", 0) ∧
    getDimInfo kernelMisc cudaTable orMask 2 17 false 0 ≠ .ok ("b_off.x", 0) := by
  decide

theorem rendersAllSCEV_length (E : Env) (tbl : Translations) (p : Bool) :
    ∀ (es : List SCEV) (m : Nat) (ss : List String) (m' : Nat),
      RendersAllSCEV E tbl p es m ss m' → ss.length = es.length := by
  intro es
  induction es with
  | nil =>
    intro m ss m' h
    rw [h.1]
    rfl
  | cons e es ih =>
    intro m ss m' h
    obtain ⟨s, m1, rest, hss, _, hrest⟩ := h
    rw [hss, List.length_cons, List.length_cons, ih m1 rest m' hrest]

/-- All the expressions of a list render with one common amount of fuel; the loop writes
their formulas with `sep` between them and `last` after the final one. -/
theorem rendersAllSCEV_fuel (E : Env) (tbl : Translations) (p : Bool) :
    ∀ (es : List SCEV) (m : Nat) (ss : List String) (m' : Nat),
      RendersAllSCEV E tbl p es m ss m' →
      ∃ fuel, ∀ g, fuel ≤ g → ∀ (sep last : String) (i n : Nat), n = i + es.length →
        renderLoop (fun x s => getDimInfoSCEV E tbl orMask g x p s) sep last n es i m =
          .ok (String.intercalate sep ss ++ (if es.isEmpty then "" else last), m') := by
  intro es
  induction es with
  | nil =>
    intro m ss m' h
    obtain ⟨h1, h2⟩ := h
    subst h1
    subst h2
    exact ⟨0, fun g _ sep last i n _ => rfl⟩
  | cons e es ih =>
    intro m ss m' h
    obtain ⟨s, m1, rest, hss, ⟨f1, hf1⟩, hrest⟩ := h
    subst hss
    obtain ⟨f2, hf2⟩ := ih m1 rest m' hrest
    refine ⟨max f1 f2, ?_⟩
    intro g hg sep last i n hn
    have hv := getDimInfoSCEV_mono E tbl orMask (le_trans (Nat.le_max_left f1 f2) hg) hf1
    have hr := hf2 g (le_trans (Nat.le_max_right f1 f2) hg) sep last (i + 1) n
      (by simp only [List.length_cons] at hn; omega)
    simp only [renderLoop, hv, hr, Res.bind, List.isEmpty_cons, Bool.false_eq_true, if_false]
    cases es with
    | nil =>
      obtain ⟨h1, _⟩ := hrest
      subst h1
      have hi : ¬ (i != n - 1) = true := by
        simp only [List.length_cons, List.length_nil] at hn
        simp only [bne_iff_ne, ne_eq, not_not]
        omega
      simp only [hi, Bool.false_eq_true, if_false, String.intercalate, String.intercalate.go,
        List.isEmpty_nil, if_true, String.append_empty]
    | cons w ws =>
      obtain ⟨t, m2, rest', hrest', _, _⟩ := hrest
      subst hrest'
      have hi : (i != n - 1) = true := by
        simp only [List.length_cons] at hn
        simp only [bne_iff_ne, ne_eq]
        omega
      simp only [hi, if_true, intercalate_cons_cons, List.isEmpty_cons, Bool.false_eq_true,
        if_false, String.append_assoc]

theorem intercalate_length (sep : String) (ss : List String) :
    (String.intercalate sep ss).length =
      (ss.map String.length).sum + sep.length * (ss.length - 1) := by
  induction ss with
  | nil => rfl
  | cons a rest ih =>
    cases rest with
    | nil => simp [String.intercalate, String.intercalate.go]
    | cons b rest' =>
      rw [intercalate_cons_cons, String.length_append, String.length_append, ih]
      simp only [List.map_cons, List.sum_cons, List.length_cons, Nat.add_sub_cancel]
      rw [Nat.mul_succ]
      omega

theorem isNegative_iff (w b : Nat) : isNegative w b = true ↔ sextValue w b < 0 := by
  have hlt : b % 2 ^ w < 2 ^ w := Nat.mod_lt _ (Nat.two_pow_pos w)
  unfold isNegative sextValue
  rw [decide_eq_true_iff]
  split <;> rename_i h
  · constructor
    · intro _; omega
    · intro _; exact h
  · constructor
    · intro hc; exact absurd hc h
    · intro hc; omega

/-- The order of the vectors `rest`, `pos` and `neg` is the order the specification gives. -/
theorem addOrder_eq_claimed (ops : List SCEV) : addOrder ops = claimedAddOrder ops := by
  unfold addOrder claimedAddOrder
  congr 1
  · congr 1
    · apply List.filter_congr
      intro e _
      cases e <;> rfl
    · apply List.filter_congr
      intro e _
      cases e with
      | constant w b =>
        simp only [isSCEVConstant, isNegativeConstant, constantValue, Bool.true_and]
        rw [Bool.eq_iff_iff]
        simp only [Bool.not_eq_true', decide_eq_true_eq, ← Bool.not_eq_true, isNegative_iff]
        omega
      | _ => rfl
  · apply List.filter_congr
    intro e _
    cases e with
    | constant w b =>
      simp only [isSCEVConstant, isNegativeConstant, constantValue, Bool.true_and]
      rw [Bool.eq_iff_iff]
      simp only [decide_eq_true_eq, isNegative_iff]
    | _ => rfl

theorem addOrder_perm (ops : List SCEV) : (addOrder ops).Perm ops := by
  unfold addOrder
  have h1 : ops.filter (fun op => isSCEVConstant op && !isNegativeConstant op) =
      (ops.filter isSCEVConstant).filter (fun op => !isNegativeConstant op) := by
    rw [List.filter_filter]
    apply List.filter_congr
    intro e _
    exact Bool.and_comm _ _
  have h2 : ops.filter (fun op => isSCEVConstant op && isNegativeConstant op) =
      (ops.filter isSCEVConstant).filter (fun op => isNegativeConstant op) := by
    rw [List.filter_filter]
    apply List.filter_congr
    intro e _
    exact Bool.and_comm _ _
  rw [List.append_assoc, h1, h2]
  have h3 : ((ops.filter isSCEVConstant).filter (fun op => !isNegativeConstant op) ++
      (ops.filter isSCEVConstant).filter (fun op => isNegativeConstant op)).Perm
      (ops.filter isSCEVConstant) := by
    have := List.filter_append_perm (fun op => isNegativeConstant op)
      (ops.filter isSCEVConstant)
    exact (List.perm_append_comm).trans this
  have h4 : (ops.filter (fun op => !isSCEVConstant op) ++ ops.filter isSCEVConstant).Perm ops :=
    (List.perm_append_comm).trans (List.filter_append_perm isSCEVConstant ops)
  exact (List.Perm.append_left _ h3).trans h4

/-- C18: an evolution addition renders "(" + the formulas of its operands joined by " + "
+ ")", the operands being taken in the order: non-constant operands, then non-negative
constants (zero included), then negative constants, each group in the order of the operand
list. This order is a rearrangement of the operand list (every operand is rendered once),
and the formula holds one formula per operand and n - 1 separators. -/
theorem add_renders_partitioned (E : Env) (tbl : Translations) (ops : List SCEV) (p : Bool)
    (m : Nat) (ss : List String) (m' : Nat)
    (h : RendersAllSCEV E tbl p (claimedAddOrder ops) m ss m') :
    RendersSCEV E tbl (.add ops) p m ("(" ++ String.intercalate " + " ss ++ ")") m' ∧
    (∀ s1 m1, RendersSCEV E tbl (.add ops) p m s1 m1 →
      s1 = "(" ++ String.intercalate " + " ss ++ ")" ∧ m1 = m') ∧
    (claimedAddOrder ops).Perm ops ∧
    ss.length = ops.length ∧
    (String.intercalate " + " ss).length =
      (ss.map String.length).sum + 3 * (ops.length - 1) := by
  have hperm : (claimedAddOrder ops).Perm ops := addOrder_eq_claimed ops ▸ addOrder_perm ops
  have hlen : ss.length = ops.length :=
    (rendersAllSCEV_length E tbl p _ m ss m' h).trans hperm.length_eq
  obtain ⟨f, hf⟩ := rendersAllSCEV_fuel E tbl p _ m ss m' h
  have h1 : RendersSCEV E tbl (.add ops) p m ("(" ++ String.intercalate " + " ss ++ ")") m' := by
    refine ⟨f + 1, ?_⟩
    have := hf f (le_refl _) " + " "" 0 ops.length (by rw [hperm.length_eq]; omega)
    simp only [getDimInfoSCEV, stepS, addOrder_eq_claimed, this, Res.bind]
    split <;> simp
  refine ⟨h1, fun s1 m1 hs => rendersSCEV_unique hs h1, hperm, hlen, ?_⟩
  rw [intercalate_length, hlen]
  rfl

/-- C18 (witness): the addition of -1, the value 3 of `kernelMisc` (the constant 1 seen as
an opaque value), 0 and 4 renders the opaque value first, then 0 and 4, then -1. -/
theorem add_renders_partitioned_witness :
    RendersSCEV kernelMisc cudaTable
      (.add [.constant 32 4294967295, .unknown 3, .constant 32 0, .constant 32 4]) false 0
      ("(" ++ String.intercalate " + " ["1", "0", "4", "-1"] ++ ")") 0 :=
  (add_renders_partitioned kernelMisc cudaTable
    [.constant 32 4294967295, .unknown 3, .constant 32 0, .constant 32 4] false 0
    ["1", "0", "4", "-1"] 0
    (show RendersAllSCEV kernelMisc cudaTable false
        [.unknown 3, .constant 32 0, .constant 32 4, .constant 32 4294967295] 0
        ["1", "0", "4", "-1"] 0 from
      ⟨"1", 0, _, rfl, ⟨2, by decide⟩, "0", 0, _, rfl, ⟨1, by decide⟩,
       "4", 0, _, rfl, ⟨1, by decide⟩, "-1", 0, _, rfl, ⟨1, by decide⟩, rfl, rfl⟩)).1

/-- C19: an evolution multiplication, signed max and unsigned max with at least one operand
render their operands in the original order: the multiplication as "(" + formulas joined by
" * " + ")", the signed max as "smax(" + formulas joined by ", " + ")" and the unsigned max
as "umax(" + formulas joined by ", " + ")". -/
theorem mul_smax_umax_render_in_order (E : Env) (tbl : Translations) (ops : List SCEV)
    (p : Bool) (m : Nat) (ss : List String) (m' : Nat) (hne : ops ≠ [])
    (h : RendersAllSCEV E tbl p ops m ss m') :
    (RendersSCEV E tbl (.mul ops) p m ("(" ++ String.intercalate " * " ss ++ ")") m' ∧
      ∀ s1 m1, RendersSCEV E tbl (.mul ops) p m s1 m1 →
        s1 = "(" ++ String.intercalate " * " ss ++ ")" ∧ m1 = m') ∧
    (RendersSCEV E tbl (.smax ops) p m ("smax(" ++ String.intercalate ", " ss ++ ")") m' ∧
      ∀ s1 m1, RendersSCEV E tbl (.smax ops) p m s1 m1 →
        s1 = "smax(" ++ String.intercalate ", " ss ++ ")" ∧ m1 = m') ∧
    (RendersSCEV E tbl (.umax ops) p m ("umax(" ++ String.intercalate ", " ss ++ ")") m' ∧
      ∀ s1 m1, RendersSCEV E tbl (.umax ops) p m s1 m1 →
        s1 = "umax(" ++ String.intercalate ", " ss ++ ")" ∧ m1 = m') ∧
    ss.length = ops.length := by
  have hemp : ops.isEmpty = false := by
    cases ops with
    | nil => exact absurd rfl hne
    | cons _ _ => rfl
  obtain ⟨f, hf⟩ := rendersAllSCEV_fuel E tbl p ops m ss m' h
  have h1 : RendersSCEV E tbl (.mul ops) p m ("(" ++ String.intercalate " * " ss ++ ")") m' := by
    refine ⟨f + 1, ?_⟩
    have := hf f (le_refl _) " * " "" 0 ops.length (by omega)
    simp only [getDimInfoSCEV, stepS, this, Res.bind, hemp, Bool.false_eq_true, if_false,
      String.append_empty]
  have h2 : RendersSCEV E tbl (.smax ops) p m
      ("smax(" ++ String.intercalate ", " ss ++ ")") m' := by
    refine ⟨f + 1, ?_⟩
    have := hf f (le_refl _) ", " ")" 0 ops.length (by omega)
    simp only [getDimInfoSCEV, stepS, this, Res.bind, hemp, Bool.false_eq_true, if_false,
      String.append_assoc]
  have h3 : RendersSCEV E tbl (.umax ops) p m
      ("umax(" ++ String.intercalate ", " ss ++ ")") m' := by
    refine ⟨f + 1, ?_⟩
    have := hf f (le_refl _) ", " ")" 0 ops.length (by omega)
    simp only [getDimInfoSCEV, stepS, this, Res.bind, hemp, Bool.false_eq_true, if_false,
      String.append_assoc]
  exact ⟨⟨h1, fun s1 m1 hs => rendersSCEV_unique hs h1⟩,
    ⟨h2, fun s1 m1 hs => rendersSCEV_unique hs h2⟩,
    ⟨h3, fun s1 m1 hs => rendersSCEV_unique hs h3⟩,
    rendersAllSCEV_length E tbl p ops m ss m' h⟩

/-- C19 (witness): the product and the maxima of the constant 4 and the value 3 of
`kernelMisc`. -/
theorem mul_smax_umax_render_in_order_witness :
    RendersSCEV kernelMisc cudaTable (.mul [.constant 32 4, .unknown 3]) false 0
      ("(" ++ String.intercalate " * " ["4", "1"] ++ ")") 0 ∧
    RendersSCEV kernelMisc cudaTable (.smax [.constant 32 4, .unknown 3]) false 0
      ("smax(" ++ String.intercalate ", " ["4", "1"] ++ ")") 0 ∧
    RendersSCEV kernelMisc cudaTable (.umax [.constant 32 4, .unknown 3]) false 0
      ("umax(" ++ String.intercalate ", " ["4", "1"] ++ ")") 0 :=
  have h := mul_smax_umax_render_in_order kernelMisc cudaTable [.constant 32 4, .unknown 3]
    false 0 ["4", "1"] 0 (by simp)
    ⟨"4", 0, _, rfl, ⟨1, by decide⟩, "1", 0, _, rfl, ⟨2, by decide⟩, rfl, rfl⟩
  ⟨h.1.1, h.2.1.1, h.2.2.1.1⟩

/-- C20 (amended): an affine recurrence over a loop of nesting depth d whose
loop-invariant trip count is available in closed form renders
"{" + d + "}<" + S + " : " + B + " , " + T + ">" (a blank on each side of the comma), where
S, B and T are the evolution formulas of the recurrence start, the loop's count and the
recurrence step (the mask being passed from one to the next). -/
theorem affine_recurrence_formula (E : Env) (tbl : Translations) (start step : SCEV)
    (loop : Nat) (p : Bool) (m m1 m2 m3 : Nat) (S B T : String)
    (hinv : E.hasLoopInvariantBackedgeTakenCount loop = true)
    (hcnc : isCouldNotCompute (E.getBackedgeTakenCount loop) = false)
    (hS : RendersSCEV E tbl start p m S m1)
    (hB : RendersSCEV E tbl (E.getBackedgeTakenCount loop) p m1 B m2)
    (hT : RendersSCEV E tbl step p m2 T m3) :
    RendersSCEV E tbl (.addRec [start, step] loop) p m
      ("\x7b" ++ toString (E.loops loop).depth ++ "\x7d" ++ "<" ++ S ++ " : " ++ B ++ " , " ++
        T ++ ">") m3 ∧
    (∀ s1 m4, RendersSCEV E tbl (.addRec [start, step] loop) p m s1 m4 →
      s1 = "\x7b" ++ toString (E.loops loop).depth ++ "\x7d" ++ "<" ++ S ++ " : " ++ B ++
        " , " ++ T ++ ">" ∧ m4 = m3) := by
  obtain ⟨f1, hf1⟩ := hS
  obtain ⟨f2, hf2⟩ := hB
  obtain ⟨f3, hf3⟩ := hT
  have h1 : RendersSCEV E tbl (.addRec [start, step] loop) p m
      ("\x7b" ++ toString (E.loops loop).depth ++ "\x7d" ++ "<" ++ S ++ " : " ++ B ++ " , " ++
        T ++ ">") m3 := by
    refine ⟨max f1 (max f2 f3) + 1, ?_⟩
    have e1 := getDimInfoSCEV_mono E tbl orMask
      (Nat.le_max_left f1 (max f2 f3)) hf1
    have e2 := getDimInfoSCEV_mono E tbl orMask
      (le_trans (Nat.le_max_left f2 f3) (Nat.le_max_right f1 (max f2 f3))) hf2
    have e3 := getDimInfoSCEV_mono E tbl orMask
      (le_trans (Nat.le_max_right f2 f3) (Nat.le_max_right f1 (max f2 f3))) hf3
    have hstepr : getStepRecurrence E [start, step] loop = step := rfl
    simp only [getDimInfoSCEV, stepS, List.head?_cons, hinv, if_true, hcnc, Bool.not_true,
      Bool.or_self, Bool.false_eq_true, if_false, hstepr, e1, e2, e3, Res.bind,
      String.append_assoc]
  exact ⟨h1, fun s1 m4 hs => rendersSCEV_unique hs h1⟩

/-- C20 (witness): in `kernelMisc` the loop 0 has depth 1 and the closed-form count 9; the
recurrence from 0 with step 1 renders with " , " between count and step. -/
theorem affine_recurrence_formula_witness :
    RendersSCEV kernelMisc cudaTable (.addRec [.constant 32 0, .constant 32 1] 0) false 0
      ("\x7b" ++ toString (kernelMisc.loops 0).depth ++ "\x7d" ++ "<" ++ "0" ++ " : " ++ "9" ++
        " , " ++ "1" ++ ">") 0 :=
  (affine_recurrence_formula kernelMisc cudaTable (.constant 32 0) (.constant 32 1) 0 false
    0 0 0 0 "0" "9" "1" rfl rfl ⟨1, by decide⟩ ⟨1, by decide⟩ ⟨1, by decide⟩).1

/-- C20 (counterexample): for the recurrence from 0 with step 1 over the loop 0 of
`kernelMisc` (depth 1, closed-form count 9) the formula is "{1}<0 : 9 , 1>", not
"{1}<0 : 9, 1>". -/
theorem affine_recurrence_counterexample :
    kernelMisc.hasLoopInvariantBackedgeTakenCount 0 = true ∧
    getDimInfoSCEV kernelMisc cudaTable orMask 2 (.addRec [.constant 32 0, .constant 32 1] 0)
      false 0 = .ok ("\x7b1\x7d<0 : 9 , 1>", 0) ∧
    getDimInfoSCEV kernelMisc cudaTable orMask 2 (.addRec [.constant 32 0, .constant 32 1] 0)
      false 0 ≠ .ok ("\x7b" ++ "1" ++ "\x7d<" ++ "0" ++ " : " ++ "9" ++ ", " ++ "1" ++ ">", 0) := by
  decide

theorem stepV_max_irrelevant {σ : Type} (E : Env) (mx : Nat → SCEV) (tbl : Translations)
    (upd : String → String → σ → σ) (recV : Nat → Bool → σ → Res (String × σ)) (v : Nat)
    (p : Bool) (st : σ) :
    stepV { E with getMaxBackedgeTakenCount := mx } tbl upd recV v p st =
      stepV E tbl upd recV v p st := rfl

theorem stepS_max_irrelevant {σ : Type} (E : Env) (mx : Nat → SCEV)
    (recV : Nat → Bool → σ → Res (String × σ)) (recS : SCEV → Bool → σ → Res (String × σ))
    (e : SCEV) (p : Bool) (st : σ) :
    stepS { E with getMaxBackedgeTakenCount := mx } recV recS e p st =
      stepS E recV recS e p st := by
  cases e with
  | addRec operands loop =>
    have hs : getStepRecurrence { E with getMaxBackedgeTakenCount := mx } operands loop =
        getStepRecurrence E operands loop := rfl
    simp only [stepS, hs]
    cases h : E.hasLoopInvariantBackedgeTakenCount loop <;> simp [h]
  | _ => rfl

theorem getDimInfo_max_irrelevant {σ : Type} (E : Env) (mx : Nat → SCEV) (tbl : Translations)
    (upd : String → String → σ → σ) (fuel : Nat) :
    getDimInfo { E with getMaxBackedgeTakenCount := mx } tbl upd fuel =
      getDimInfo E tbl upd fuel := by
  induction fuel with
  | zero => rfl
  | succ n ih =>
    funext v p st
    show stepV _ tbl upd (getDimInfo _ tbl upd n) v p st = stepV E tbl upd _ v p st
    rw [ih]
    rfl

theorem getDimInfoSCEV_max_irrelevant {σ : Type} (E : Env) (mx : Nat → SCEV)
    (tbl : Translations) (upd : String → String → σ → σ) (fuel : Nat) :
    getDimInfoSCEV { E with getMaxBackedgeTakenCount := mx } tbl upd fuel =
      getDimInfoSCEV E tbl upd fuel := by
  induction fuel with
  | zero => rfl
  | succ n ih =>
    funext e p st
    show stepS _ (getDimInfo _ tbl upd n) (getDimInfoSCEV _ tbl upd n) e p st =
      stepS E (getDimInfo E tbl upd n) (getDimInfoSCEV E tbl upd n) e p st
    rw [ih, getDimInfo_max_irrelevant, stepS_max_irrelevant]

/-- The text of a recurrence up to the bound: the loop depth in braces, then the start. -/
theorem recurrence_head_assoc (d S : String) :
    "\x7b" ++ d ++ "\x7d" ++ ("<" ++ S ++ " : ") = "\x7b" ++ d ++ "\x7d" ++ "<" ++ S ++ " : " := by
  simp only [String.append_assoc]

/-- The recurrence falls back on the latch block when the loop has no loop-invariant count
or the count is the sentinel. -/
theorem latch_condition (E : Env) (loop : Nat)
    (hno : E.hasLoopInvariantBackedgeTakenCount loop = false ∨
      isCouldNotCompute (E.getBackedgeTakenCount loop) = true) :
    (!E.hasLoopInvariantBackedgeTakenCount loop ||
      isCouldNotCompute (if E.hasLoopInvariantBackedgeTakenCount loop = true then
        E.getBackedgeTakenCount loop else E.getMaxBackedgeTakenCount loop)) = true := by
  cases h : E.hasLoopInvariantBackedgeTakenCount loop with
  | false => rfl
  | true =>
    rcases hno with h1 | h1
    · rw [h] at h1
      cases h1
    · simp [h1]

/-- C21 (what the code does): for an affine recurrence whose loop has no loop-invariant
closed-form count, a latch block that holds no branch instruction at all does not stop the
Evolution Formula Builder: the recurrence renders with an empty bound and step, as
"{" + d + "}<" + S + " : >". A latch block whose branch is unconditional, and a loop without
latch block, are fatal and no formula is ever returned. -/
theorem latch_without_branch_not_fatal (E : Env) (tbl : Translations) (start step : SCEV)
    (loop : Nat) (p : Bool) (m m1 : Nat) (S : String)
    (hno : E.hasLoopInvariantBackedgeTakenCount loop = false ∨
      isCouldNotCompute (E.getBackedgeTakenCount loop) = true)
    (hS : RendersSCEV E tbl start p m S m1) :
    (∀ block, (E.loops loop).latch = some block →
      block.find? (fun i => isBranchInst (E.ir i).node) = none →
      RendersSCEV E tbl (.addRec [start, step] loop) p m
        ("\x7b" ++ toString (E.loops loop).depth ++ "\x7d" ++ "<" ++ S ++ " : " ++ ">") m1) ∧
    (∀ block branch opcode pred dest, (E.loops loop).latch = some block →
      block.find? (fun i => isBranchInst (E.ir i).node) = some branch →
      (E.ir branch).node = .inst opcode pred [dest] →
      (∃ fuel, getDimInfoSCEV E tbl orMask fuel (.addRec [start, step] loop) p m = .fatal) ∧
      ∀ fuel s m', getDimInfoSCEV E tbl orMask fuel (.addRec [start, step] loop) p m ≠
        .ok (s, m')) ∧
    ((E.loops loop).latch = none →
      (∃ fuel, getDimInfoSCEV E tbl orMask fuel (.addRec [start, step] loop) p m = .fatal) ∧
      ∀ fuel s m', getDimInfoSCEV E tbl orMask fuel (.addRec [start, step] loop) p m ≠
        .ok (s, m')) := by
  have hc := latch_condition E loop hno
  obtain ⟨f, hf⟩ := hS
  have hfatal : getDimInfoSCEV E tbl orMask (f + 1) (.addRec [start, step] loop) p m = .fatal →
      (∃ fuel, getDimInfoSCEV E tbl orMask fuel (.addRec [start, step] loop) p m = .fatal) ∧
      ∀ fuel s m', getDimInfoSCEV E tbl orMask fuel (.addRec [start, step] loop) p m ≠
        .ok (s, m') := by
    intro h
    refine ⟨⟨f + 1, h⟩, ?_⟩
    intro fuel s m' hok
    have h1 := getDimInfoSCEV_mono E tbl orMask (Nat.le_max_left fuel (f + 1)) hok
    have h2 := getDimInfoSCEV_mono_fatal E tbl orMask (Nat.le_max_right fuel (f + 1)) h
    rw [h1] at h2
    cases h2
  refine ⟨?_, ?_, ?_⟩
  · intro block hl hb
    refine ⟨f + 1, ?_⟩
    simp only [getDimInfoSCEV, stepS, List.head?_cons, hf, Res.bind, hc, if_true, hl, hb,
      recurrence_head_assoc]
  · intro block branch opcode pred dest hl hb hbr
    apply hfatal
    simp only [getDimInfoSCEV, stepS, List.head?_cons, hf, Res.bind, hc, if_true, hl, hb, hbr]
  · intro hl
    apply hfatal
    simp only [getDimInfoSCEV, stepS, List.head?_cons, hf, Res.bind, hc, if_true, hl]

/-- C21 (failing input): in `kernelLatch` the latch of loop 0 ends in a switch and holds no
branch instruction; the recurrence from 0 with step 1 over it renders "{1}<0 : >". -/
theorem latch_without_branch_not_fatal_witness :
    RendersSCEV kernelLatch cudaTable (.addRec [.constant 32 0, .constant 32 1] 0) false 0
      ("\x7b" ++ toString (kernelLatch.loops 0).depth ++ "\x7d" ++ "<" ++ "0" ++ " : " ++ ">") 0 ∧
    getDimInfoSCEV kernelLatch cudaTable orMask 2 (.addRec [.constant 32 0, .constant 32 1] 0)
      false 0 = .ok ("\x7b1\x7d<0 : >", 0) :=
  ⟨(latch_without_branch_not_fatal kernelLatch cudaTable (.constant 32 0) (.constant 32 1) 0
      false 0 0 "0" (Or.inl rfl) ⟨1, by decide⟩).1 [8, 7] rfl (by decide),
   by decide⟩

theorem rendersAllSCEV_append (E : Env) (tbl : Translations) (p : Bool) :
    ∀ (pre post : List SCEV) (m : Nat) (ss1 ss2 : List String) (m1 m2 : Nat),
      RendersAllSCEV E tbl p pre m ss1 m1 → RendersAllSCEV E tbl p post m1 ss2 m2 →
      RendersAllSCEV E tbl p (pre ++ post) m (ss1 ++ ss2) m2 := by
  intro pre
  induction pre with
  | nil =>
    intro post m ss1 ss2 m1 m2 h1 h2
    obtain ⟨e1, e2⟩ := h1
    subst e1
    subst e2
    exact h2
  | cons e es ih =>
    intro post m ss1 ss2 m1 m2 h1 h2
    obtain ⟨s, m0, rest, hss, hs, hrest⟩ := h1
    subst hss
    exact ⟨s, m0, rest ++ ss2, rfl, hs, ih post m0 rest ss2 m1 m2 hrest h2⟩

/-- The sentinel renders "#EXPR" with any positive fuel and leaves the mask alone. -/
theorem sentinel_renders (E : Env) (tbl : Translations) (p : Bool) (m : Nat) :
    RendersSCEV E tbl .couldNotCompute p m "#EXPR" m := ⟨1, rfl⟩

/-- C22: the Evolution Formula Builder applied to the "cannot be computed" sentinel returns
exactly "#EXPR" (with any positive fuel, the mask unchanged) and never fails; where the
sentinel is an operand of a larger expression the enclosing expression is rendered around
it: a cast of it is "#EXPR", a division has it on either side of "/", and a multiplication,
signed max or unsigned max has "#EXPR" at its place among the operand formulas. -/
theorem sentinel_renders_expr (E : Env) (tbl : Translations) (p : Bool) (m m1 m2 : Nat)
    (pre post : List SCEV) (ss1 ss2 : List String)
    (hpre : RendersAllSCEV E tbl p pre m ss1 m1)
    (hpost : RendersAllSCEV E tbl p post m1 ss2 m2) :
    (∀ fuel, getDimInfoSCEV E tbl orMask (fuel + 1) .couldNotCompute p m = .ok ("#EXPR", m)) ∧
    (∀ fuel, getDimInfoSCEV E tbl orMask fuel .couldNotCompute p m ≠ .fatal) ∧
    (∀ kind, RendersSCEV E tbl (.cast kind .couldNotCompute) p m "#EXPR" m) ∧
    (∀ e s m3, RendersSCEV E tbl e p m s m3 →
      RendersSCEV E tbl (.udiv e .couldNotCompute) p m ("(" ++ s ++ "/" ++ "#EXPR" ++ ")") m3 ∧
      RendersSCEV E tbl (.udiv .couldNotCompute e) p m ("(" ++ "#EXPR" ++ "/" ++ s ++ ")") m3) ∧
    RendersSCEV E tbl (.mul (pre ++ [.couldNotCompute] ++ post)) p m
      ("(" ++ String.intercalate " * " (ss1 ++ ["#EXPR"] ++ ss2) ++ ")") m2 ∧
    RendersSCEV E tbl (.smax (pre ++ [.couldNotCompute] ++ post)) p m
      ("smax(" ++ String.intercalate ", " (ss1 ++ ["#EXPR"] ++ ss2) ++ ")") m2 ∧
    RendersSCEV E tbl (.umax (pre ++ [.couldNotCompute] ++ post)) p m
      ("umax(" ++ String.intercalate ", " (ss1 ++ ["#EXPR"] ++ ss2) ++ ")") m2 := by
  have hall : RendersAllSCEV E tbl p (pre ++ [.couldNotCompute] ++ post) m
      (ss1 ++ ["#EXPR"] ++ ss2) m2 := by
    refine rendersAllSCEV_append E tbl p _ _ m _ _ m1 m2 ?_ hpost
    exact rendersAllSCEV_append E tbl p pre [.couldNotCompute] m ss1 ["#EXPR"] m1 m1 hpre
      ⟨"#EXPR", m1, [], rfl, sentinel_renders E tbl p m1, rfl, rfl⟩
  have hemp : (pre ++ [SCEV.couldNotCompute] ++ post).isEmpty = false := by
    cases pre <;> rfl
  obtain ⟨f, hf⟩ := rendersAllSCEV_fuel E tbl p _ m _ m2 hall
  refine ⟨fun _ => rfl, ?_, fun _ => ⟨2, rfl⟩, ?_, ?_, ?_, ?_⟩
  · intro fuel
    cases fuel with
    | zero => intro h; cases h
    | succ k => intro h; cases h
  · intro e s m3 ⟨g, hg⟩
    refine ⟨⟨g + 1, ?_⟩, ⟨g + 2, ?_⟩⟩
    · cases g with
      | zero => cases hg
      | succ k =>
        have hc : getDimInfoSCEV E tbl orMask (k + 1) .couldNotCompute p m3 =
            .ok ("#EXPR", m3) := rfl
        show stepS E _ (getDimInfoSCEV E tbl orMask (k + 1)) _ p m = _
        simp only [stepS, hc, hg, Res.bind]
    · have hg1 := getDimInfoSCEV_mono E tbl orMask (Nat.le_succ g) hg
      have hc : getDimInfoSCEV E tbl orMask (g + 1) .couldNotCompute p m =
          .ok ("#EXPR", m) := rfl
      show stepS E _ (getDimInfoSCEV E tbl orMask (g + 1)) _ p m = _
      simp only [stepS, hc, hg1, Res.bind]
  · refine ⟨f + 1, ?_⟩
    have := hf f (le_refl _) " * " "" 0
      (pre ++ [SCEV.couldNotCompute] ++ post).length (by omega)
    simp only [getDimInfoSCEV, stepS, this, Res.bind, hemp, Bool.false_eq_true, if_false,
      String.append_empty]
  · refine ⟨f + 1, ?_⟩
    have := hf f (le_refl _) ", " ")" 0
      (pre ++ [SCEV.couldNotCompute] ++ post).length (by omega)
    simp only [getDimInfoSCEV, stepS, this, Res.bind, hemp, Bool.false_eq_true, if_false,
      String.append_assoc]
  · refine ⟨f + 1, ?_⟩
    have := hf f (le_refl _) ", " ")" 0
      (pre ++ [SCEV.couldNotCompute] ++ post).length (by omega)
    simp only [getDimInfoSCEV, stepS, this, Res.bind, hemp, Bool.false_eq_true, if_false,
      String.append_assoc]

/-- C22 (witness): the product of the constant 4, the sentinel and the constant 7 renders
"(4 * #EXPR * 7)". -/
theorem sentinel_renders_expr_witness :
    RendersSCEV kernelMisc cudaTable
      (.mul ([.constant 32 4] ++ [.couldNotCompute] ++ [.constant 32 7])) false 0
      ("(" ++ String.intercalate " * " (["4"] ++ ["#EXPR"] ++ ["7"]) ++ ")") 0 ∧
    getDimInfoSCEV kernelMisc cudaTable orMask 2
      (.mul [.constant 32 4, .couldNotCompute, .constant 32 7]) false 0 =
      .ok ("(4 * #EXPR * 7)", 0) :=
  ⟨(sentinel_renders_expr kernelMisc cudaTable false 0 0 0 [.constant 32 4] [.constant 32 7]
      ["4"] ["7"] ⟨"4", 0, [], rfl, ⟨1, by decide⟩, rfl, rfl⟩
      ⟨"7", 0, [], rfl, ⟨1, by decide⟩, rfl, rfl⟩).2.2.2.2.1,
   by decide⟩

/-- C29: for an affine recurrence whose loop lacks a loop-invariant closed-form count (or
whose count is the sentinel), when the first branch instruction of the latch block is
conditional on an integer comparison, the formula is
"{" + d + "}<" + S + " : " + B + " , " + T + ">" where B is the Symbolic Formula Builder's
formula of operand 1 of the comparison and T the evolution formula of the recurrence step;
and replacing the loop's maximum backedge-taken counts by any others changes the result of
neither builder on any input. -/
theorem latch_bound_is_comparison_operand (E : Env) (tbl : Translations) (start step : SCEV)
    (loop : Nat) (p : Bool) (m m1 m2 m3 : Nat) (S B T : String) (block cmpOperands : List Nat)
    (branch cond dest1 dest2 bound : Nat) (opcode : Opcode) (pred : Predicate)
    (hno : E.hasLoopInvariantBackedgeTakenCount loop = false ∨
      isCouldNotCompute (E.getBackedgeTakenCount loop) = true)
    (hl : (E.loops loop).latch = some block)
    (hb : block.find? (fun i => isBranchInst (E.ir i).node) = some branch)
    (hbr : (E.ir branch).node = .inst opcode pred [cond, dest1, dest2])
    (hc : icmpOperands (E.ir cond).node = some cmpOperands)
    (hbound : cmpOperands.get? 1 = some bound)
    (hS : RendersSCEV E tbl start p m S m1)
    (hB : Renders E tbl bound p m1 B m2)
    (hT : RendersSCEV E tbl step p m2 T m3) :
    RendersSCEV E tbl (.addRec [start, step] loop) p m
      ("\x7b" ++ toString (E.loops loop).depth ++ "\x7d" ++ "<" ++ S ++ " : " ++ B ++ " , " ++
        T ++ ">") m3 ∧
    (∀ s1 m4, RendersSCEV E tbl (.addRec [start, step] loop) p m s1 m4 →
      s1 = "\x7b" ++ toString (E.loops loop).depth ++ "\x7d" ++ "<" ++ S ++ " : " ++ B ++
        " , " ++ T ++ ">" ∧ m4 = m3) ∧
    (∀ (mx : Nat → SCEV) (fuel : Nat),
      getDimInfoSCEV { E with getMaxBackedgeTakenCount := mx } tbl orMask fuel =
        getDimInfoSCEV E tbl orMask fuel ∧
      getDimInfo { E with getMaxBackedgeTakenCount := mx } tbl orMask fuel =
        getDimInfo E tbl orMask fuel) := by
  have hcnd := latch_condition E loop hno
  obtain ⟨f1, hf1⟩ := hS
  obtain ⟨f2, hf2⟩ := hB
  obtain ⟨f3, hf3⟩ := hT
  have h1 : RendersSCEV E tbl (.addRec [start, step] loop) p m
      ("\x7b" ++ toString (E.loops loop).depth ++ "\x7d" ++ "<" ++ S ++ " : " ++ B ++ " , " ++
        T ++ ">") m3 := by
    refine ⟨max f1 (max f2 f3) + 1, ?_⟩
    have e1 := getDimInfoSCEV_mono E tbl orMask
      (Nat.le_max_left f1 (max f2 f3)) hf1
    have e2 := getDimInfo_mono E tbl orMask
      (le_trans (Nat.le_max_left f2 f3) (Nat.le_max_right f1 (max f2 f3))) hf2
    have e3 := getDimInfoSCEV_mono E tbl orMask
      (le_trans (Nat.le_max_right f2 f3) (Nat.le_max_right f1 (max f2 f3))) hf3
    have hstepr : getStepRecurrence E [start, step] loop = step := rfl
    simp only [getDimInfoSCEV, stepS, List.head?_cons, hcnd, if_true, hl, hb, hbr, hc, hbound,
      hstepr, e1, e2, e3, Res.bind, String.append_assoc]
  exact ⟨h1, fun s1 m4 hs => rendersSCEV_unique hs h1,
    fun mx fuel => ⟨getDimInfoSCEV_max_irrelevant E mx tbl orMask fuel,
      getDimInfo_max_irrelevant E mx tbl orMask fuel⟩⟩

/-- C29 (witness): the latch of loop 2 of `kernelLatch` ends in a branch on `7 < n`; the
recurrence from 0 with step 1 renders the bound "#PARAM:n", whatever the maximum count. -/
theorem latch_bound_is_comparison_operand_witness :
    RendersSCEV kernelLatch cudaTable (.addRec [.constant 32 0, .constant 32 1] 2) false 0
      ("\x7b" ++ toString (kernelLatch.loops 2).depth ++ "\x7d" ++ "<" ++ "0" ++ " : " ++
        "#PARAM:n" ++ " , " ++ "1" ++ ">") 0 ∧
    getDimInfoSCEV kernelLatch cudaTable orMask 2 (.addRec [.constant 32 0, .constant 32 1] 2)
      false 0 = .ok ("\x7b2\x7d<0 : #PARAM:n , 1>", 0) :=
  ⟨(latch_bound_is_comparison_operand kernelLatch cudaTable (.constant 32 0) (.constant 32 1)
      2 false 0 0 0 0 "0" "#PARAM:n" "1" [8, 5] [3, 1] 5 4 20 21 1 .Br .ICMP_EQ (Or.inl rfl)
      rfl (by decide) rfl rfl rfl ⟨1, by decide⟩ ⟨1, by decide⟩ ⟨1, by decide⟩).1,
   by decide⟩

/-- The opcodes for which the source writes an operator symbol. -/
theorem opSymbol_none_of_unlisted (opcode : Opcode) (pred : Predicate)
    (h : opcode ∉ [Opcode.SDiv, .UDiv, .SRem, .URem, .Shl, .Mul, .Add, .Sub, .ICmp, .And]) :
    opSymbol opcode pred = none := by
  cases opcode <;> first | rfl | (exact absurd (by decide) h)

/-- C30: a two-operand bitwise-and instruction renders "(" + L + " ^ " + R + ")"; no
opcode and predicate give the operator symbol " v "; and a two-operand instruction whose
opcode is outside sdiv, udiv, srem, urem, shl, mul, add, sub, icmp, and never returns a
formula and fails fatally once its left operand has been rendered. -/
theorem and_renders_caret_or_fails (E : Env) (tbl : Translations) (v left right : Nat)
    (pred : Predicate) (p : Bool) (m m1 m2 : Nat) (L R : String)
    (hv : (E.ir v).node = .inst .And pred [left, right])
    (hL : Renders E tbl left p m L m1) (hR : Renders E tbl right p m1 R m2) :
    Renders E tbl v p m ("(" ++ L ++ " ^ " ++ R ++ ")") m2 ∧
    (∀ s1 m3, Renders E tbl v p m s1 m3 → s1 = "(" ++ L ++ " ^ " ++ R ++ ")" ∧ m3 = m2) ∧
    (∀ opcode pred1, opSymbol opcode pred1 ≠ some " v ") ∧
    (∀ (w l r : Nat) (opcode : Opcode) (pred1 : Predicate) (q : Bool) (n : Nat),
      (E.ir w).node = .inst opcode pred1 [l, r] →
      opcode ∉ [Opcode.SDiv, .UDiv, .SRem, .URem, .Shl, .Mul, .Add, .Sub, .ICmp, .And] →
      (∀ fuel s n1, getDimInfo E tbl orMask fuel w q n ≠ .ok (s, n1)) ∧
      (∀ s n1, Renders E tbl l q n s n1 →
        ∃ fuel, getDimInfo E tbl orMask fuel w q n = .fatal)) := by
  obtain ⟨f1, hf1⟩ := hL
  obtain ⟨f2, hf2⟩ := hR
  have h1 : Renders E tbl v p m ("(" ++ L ++ " ^ " ++ R ++ ")") m2 := by
    refine ⟨max f1 f2 + 1, ?_⟩
    have e1 := getDimInfo_mono E tbl orMask (Nat.le_max_left f1 f2) hf1
    have e2 := getDimInfo_mono E tbl orMask (Nat.le_max_right f1 f2) hf2
    have hop : opSymbol .And pred = some " ^ " := rfl
    simp only [getDimInfo, stepV, hv, e1, Res.bind, hop, e2]
  refine ⟨h1, fun s1 m3 h => renders_unique h h1, ?_, ?_⟩
  · intro opcode pred1
    cases opcode <;> cases pred1 <;> decide
  · intro w l r opcode pred1 q n hw hop
    have hnone := opSymbol_none_of_unlisted opcode pred1 hop
    refine ⟨?_, ?_⟩
    · intro fuel s n1 hok
      cases fuel with
      | zero => cases hok
      | succ k =>
        simp only [getDimInfo, stepV, hw, hnone] at hok
        cases hl : getDimInfo E tbl orMask k l q n with
        | ok a => rw [hl] at hok; cases hok
        | fatal => rw [hl] at hok; cases hok
        | timeout => rw [hl] at hok; cases hok
    · intro s n1 ⟨g, hg⟩
      refine ⟨g + 1, ?_⟩
      simp only [getDimInfo, stepV, hw, hnone, hg, Res.bind]

/-- C30 (witness): in `kernelLatch` the value `a = n & 7` renders "(#PARAM:n ^ 7)" and the
value `o = n | 7` fails fatally. -/
theorem and_renders_caret_or_fails_witness :
    Renders kernelLatch cudaTable 9 false 0 ("(" ++ "#PARAM:n" ++ " ^ " ++ "7" ++ ")") 0 ∧
    getDimInfo kernelLatch cudaTable orMask 2 10 false 0 = .fatal ∧
    (∀ fuel s n1, getDimInfo kernelLatch cudaTable orMask fuel 10 false 0 ≠ .ok (s, n1)) :=
  have h := and_renders_caret_or_fails kernelLatch cudaTable 9 1 3 .ICMP_EQ false 0 0 0
    "#PARAM:n" "7" rfl ⟨1, by decide⟩ ⟨1, by decide⟩
  ⟨h.1, by decide, (h.2.2.2 10 1 3 .Or .ICMP_EQ false 0 rfl (by decide)).1⟩

theorem contains_of_occurrence (name pat : String) (pre post : List Char)
    (h : name.data = pre ++ pat.data ++ post) : Contains name pat :=
  ⟨pre, post, h.symm⟩

/-- An occurrence of "_kernel_" in a name without "_<" is not followed by "_<". -/
theorem not_prefix_of_not_contains (name pat : String) (pre mid post : List Char)
    (h : name.data = pre ++ mid ++ post) (hn : ¬ Contains name pat) : ¬ pat.data <+: post := by
  intro ⟨t, ht⟩
  apply hn
  refine ⟨pre ++ mid, t, ?_⟩
  rw [h, ← ht]
  simp only [List.append_assoc]

/-- C23 (amended): a function of the module is processed as a kernel if and only if it is
defined and its demangled name contains "_kernel(" or "_kernel<", or contains "_kernel_"
and contains neither "_<" nor "_(" anywhere; a function that is only declared is never
processed. Every processed function satisfies the test as the specification words it. -/
theorem kernel_iff_name_patterns (M : List ModuleFunction) (f : ModuleFunction)
    (hlen : f.demangled.length < npos) :
    (f ∈ kernelsOf M ↔ f ∈ M ∧ f.isDeclaration = false ∧
      (Contains f.demangled "_kernel(" ∨ Contains f.demangled "_kernel<" ∨
        (Contains f.demangled "_kernel_" ∧ ¬ Contains f.demangled "_<" ∧
          ¬ Contains f.demangled "_("))) ∧
    (f.isDeclaration = true → f ∉ kernelsOf M) ∧
    (f ∈ kernelsOf M → ClaimedKernelName f.demangled) := by
  have hname : isKernelName f.demangled = true ↔
      (Contains f.demangled "_kernel(" ∨ Contains f.demangled "_kernel<" ∨
        (Contains f.demangled "_kernel_" ∧ ¬ Contains f.demangled "_<" ∧
          ¬ Contains f.demangled "_(")) := by
    unfold isKernelName
    rw [Bool.or_eq_true, Bool.or_eq_true, Bool.and_eq_true, Bool.and_eq_true, bne_iff_ne,
      bne_iff_ne, bne_iff_ne, beq_iff_eq, beq_iff_eq, find_ne_npos_iff _ _ hlen,
      find_ne_npos_iff _ _ hlen, find_ne_npos_iff _ _ hlen,
      ← find_ne_npos_iff f.demangled "_<" hlen, ← find_ne_npos_iff f.demangled "_(" hlen]
    simp only [ne_eq, not_not, or_assoc, and_assoc]
  have hmem : f ∈ kernelsOf M ↔ f ∈ M ∧ f.isDeclaration = false ∧
      isKernelName f.demangled = true := by
    unfold kernelsOf isKernel
    rw [List.mem_filter, Bool.and_eq_true, Bool.not_eq_true']
  refine ⟨by rw [hmem, hname], ?_, ?_⟩
  · intro hd hin
    rw [hmem, hd] at hin
    cases hin.2.1
  · intro hin
    rcases (hname.mp (hmem.mp hin).2.2) with h | h | ⟨⟨pre, post, hk⟩, hlt, hpar⟩
    · exact Or.inl h
    · exact Or.inr (Or.inl h)
    · exact Or.inr (Or.inr ⟨pre, post, hk.symm,
        not_prefix_of_not_contains _ _ pre _ post hk.symm hlt,
        not_prefix_of_not_contains _ _ pre _ post hk.symm hpar⟩)

/-- C23 (witness): of a module with the definition `vecadd_kernel(float*, int)`, a
declaration of the same name pattern and the definition `main`, only the first is
processed. -/
theorem kernel_iff_name_patterns_witness :
    kernelsOf [⟨false, "vecadd_kernel(float*, int)"⟩, ⟨true, "scale_kernel(float*)"⟩,
      ⟨false, "main"⟩] = [⟨false, "vecadd_kernel(float*, int)"⟩] ∧
    ((⟨false, "vecadd_kernel(float*, int)"⟩ : ModuleFunction) ∈
      kernelsOf [⟨false, "vecadd_kernel(float*, int)"⟩, ⟨true, "scale_kernel(float*)"⟩,
        ⟨false, "main"⟩] ↔
      (⟨false, "vecadd_kernel(float*, int)"⟩ : ModuleFunction) ∈
        [⟨false, "vecadd_kernel(float*, int)"⟩, ⟨true, "scale_kernel(float*)"⟩,
          ⟨false, "main"⟩] ∧
      (⟨false, "vecadd_kernel(float*, int)"⟩ : ModuleFunction).isDeclaration = false ∧
      (Contains "vecadd_kernel(float*, int)" "_kernel(" ∨
        Contains "vecadd_kernel(float*, int)" "_kernel<" ∨
        (Contains "vecadd_kernel(float*, int)" "_kernel_" ∧
          ¬ Contains "vecadd_kernel(float*, int)" "_<" ∧
          ¬ Contains "vecadd_kernel(float*, int)" "_("))) :=
  ⟨by decide,
   (kernel_iff_name_patterns _ ⟨false, "vecadd_kernel(float*, int)"⟩ (by decide)).1⟩

/-- C23 (counterexample): the defined function `my_kernel_v2(vec_<float>)` has an
occurrence of "_kernel_" that is followed by "v2(", so the specification's test holds for
it; the name holds "_<" further on, so the code does not process it. -/
theorem kernel_name_counterexample :
    ClaimedKernelName "my_kernel_v2(vec_<float>)" ∧
    isKernelName "my_kernel_v2(vec_<float>)" = false ∧
    kernelsOf [⟨false, "my_kernel_v2(vec_<float>)"⟩] = [] :=
  ⟨Or.inr (Or.inr ⟨"my".data, "v2(vec_<float>)".data, by decide, by decide, by decide⟩),
   by decide, by decide⟩

theorem DimInfo_new_mono (E : Env) (tbl : Translations) {f g : Nat} (hfg : f ≤ g) (scev : SCEV)
    (dim : Nat) (d : DimInfo) (h : DimInfo.new E tbl f scev dim = .ok d) :
    DimInfo.new E tbl g scev dim = .ok d := by
  unfold DimInfo.new at h ⊢
  cases hr : getDimInfoSCEV E tbl orMask f scev false DimNone with
  | ok a =>
    rw [hr] at h
    rw [getDimInfoSCEV_mono E tbl orMask hfg hr]
    exact h
  | fatal => rw [hr] at h; cases h
  | timeout => rw [hr] at h; cases h

theorem fillDims_mono (E : Env) (tbl : Translations) {f g : Nat} (hfg : f ≤ g) (cv : Nat)
    (args : List Nat) (n : Nat) :
    ∀ (is : List Nat) (base base' : List DimInfo),
      fillDims E tbl f cv args n is base = .ok base' →
      fillDims E tbl g cv args n is base = .ok base' := by
  intro is
  induction is with
  | nil => intro base base' h; exact h
  | cons i is ih =>
    intro base base' h
    unfold fillDims at h ⊢
    cases hop : getArgOperand cv args (i + 1) with
    | none => rw [hop] at h; cases h
    | some val =>
      rw [hop] at h
      simp only [addDimInfo] at h ⊢
      cases hd : DimInfo.new E tbl f (E.getSCEV val) (n - (i + 1)) with
      | ok d =>
        rw [hd] at h
        rw [DimInfo_new_mono E tbl hfg _ _ d hd]
        exact ih _ _ h
      | fatal => rw [hd] at h; cases h
      | timeout => rw [hd] at h; cases h

theorem AccessInfo_new_mono (E : Env) (tbl0 : Translations) {f g : Nat} (hfg : f ≤ g)
    (dynarray cv : Nat) (args : List Nat) (loop : Option Nat) (write : Bool)
    (r : AccessInfo × Translations)
    (h : AccessInfo.new E tbl0 f dynarray cv args loop write = .ok r) :
    AccessInfo.new E tbl0 g dynarray cv args loop write = .ok r := by
  unfold AccessInfo.new at h ⊢
  cases hc : getCalledFunction E cv with
  | none => rw [hc] at h; cases h
  | some fi =>
    rw [hc] at h
    simp only at h ⊢
    split at h
    · cases h
    · rename_i hz
      rw [if_neg hz]
      cases hb : fillDims E (initFunctionTranslations tbl0) f cv args
          ((fi.2.argSize - 1) % 2 ^ 32) (List.range ((fi.2.argSize - 1) % 2 ^ 32))
          (List.replicate ((fi.2.argSize - 1) % 2 ^ 32) DimInfo.default) with
      | ok b =>
        rw [hb] at h
        rw [fillDims_mono E _ hfg cv args _ _ _ _ hb]
        exact h
      | fatal => rw [hb] at h; cases h
      | timeout => rw [hb] at h; cases h

/-- C27: the constructor of an access record gives the same result (record, formulas and
masks included) whether the translation table is still empty or was already initialised by
an earlier record, and leaves the table in the same state; `initFunctionTranslations` is
idempotent and yields the nine built-in entries; and two runs on the same IR and the same
answers of the evolution service that both return give the same record, whatever their
recursion bounds and whatever loop is passed. -/
theorem record_independent_of_table_state (E : Env) (fuel dynarray cv : Nat)
    (args : List Nat) (loop : Option Nat) (write : Bool) :
    AccessInfo.new E [] fuel dynarray cv args loop write =
      AccessInfo.new E cudaTable fuel dynarray cv args loop write ∧
    (∀ r t, AccessInfo.new E [] fuel dynarray cv args loop write = .ok (r, t) →
      t = cudaTable) ∧
    (∀ t, initFunctionTranslations (initFunctionTranslations t) = initFunctionTranslations t) ∧
    initFunctionTranslations [] =
      [("llvm.nvvm.read.ptx.sreg.ctaid.x", "b.x"), ("llvm.nvvm.read.ptx.sreg.ctaid.y", "b.y"),
       ("llvm.nvvm.read.ptx.sreg.ctaid.z", "b.z"), ("llvm.nvvm.read.ptx.sreg.tid.x", "t.x"),
       ("llvm.nvvm.read.ptx.sreg.tid.y", "t.y"), ("llvm.nvvm.read.ptx.sreg.tid.z", "t.z"),
       ("llvm.nvvm.read.ptx.sreg.ntid.x", "bsize.x"),
       ("llvm.nvvm.read.ptx.sreg.ntid.y", "bsize.y"),
       ("llvm.nvvm.read.ptx.sreg.ntid.z", "bsize.z")] ∧
    (initFunctionTranslations []).length = 9 ∧
    (∀ (t0 t1 : Translations) (f1 f2 : Nat) (loop1 loop2 : Option Nat)
      (r1 r2 : AccessInfo × Translations),
      (t0 = [] ∨ t0 = cudaTable) → (t1 = [] ∨ t1 = cudaTable) →
      AccessInfo.new E t0 f1 dynarray cv args loop1 write = .ok r1 →
      AccessInfo.new E t1 f2 dynarray cv args loop2 write = .ok r2 → r1 = r2) := by
  have hinit : initFunctionTranslations [] = cudaTable := rfl
  have hsame : ∀ (f : Nat) (l : Option Nat), AccessInfo.new E [] f dynarray cv args l write =
      AccessInfo.new E cudaTable f dynarray cv args none write := by
    intro f l
    unfold AccessInfo.new
    rw [hinit, initFunctionTranslations_cudaTable]
  have hloop : ∀ (f : Nat) (l : Option Nat),
      AccessInfo.new E cudaTable f dynarray cv args l write =
      AccessInfo.new E cudaTable f dynarray cv args none write := fun _ _ => rfl
  have hany : ∀ (t : Translations) (f : Nat) (l : Option Nat), (t = [] ∨ t = cudaTable) →
      AccessInfo.new E t f dynarray cv args l write =
      AccessInfo.new E cudaTable f dynarray cv args none write := by
    intro t f l ht
    rcases ht with ht | ht
    · rw [ht]; exact hsame f l
    · rw [ht]; exact hloop f l
  refine ⟨(hsame fuel loop).trans (hloop fuel loop).symm, ?_, ?_, cudaTable_eq, by decide, ?_⟩
  · intro r t h
    unfold AccessInfo.new at h
    rw [hinit] at h
    cases hc : getCalledFunction E cv with
    | none => rw [hc] at h; cases h
    | some fi =>
      rw [hc] at h
      simp only at h
      split at h
      · cases h
      · cases hb : fillDims E cudaTable fuel cv args
            ((fi.2.argSize - 1) % 2 ^ 32) (List.range ((fi.2.argSize - 1) % 2 ^ 32))
            (List.replicate ((fi.2.argSize - 1) % 2 ^ 32) DimInfo.default) with
        | ok b =>
          rw [hb] at h
          simp only [Res.bind, Res.ok.injEq, Prod.mk.injEq] at h
          exact h.2.symm
        | fatal => rw [hb] at h; cases h
        | timeout => rw [hb] at h; cases h
  · intro t
    cases t with
    | nil => exact initFunctionTranslations_cudaTable
    | cons a rest =>
      have h : initFunctionTranslations (a :: rest) = a :: rest := by
        unfold initFunctionTranslations
        exact if_pos (Nat.succ_pos rest.length)
      rw [h, h]
  · intro t0 t1 f1 f2 loop1 loop2 r1 r2 h0 h1 e1 e2
    rw [hany t0 f1 loop1 h0] at e1
    rw [hany t1 f2 loop2 h1] at e2
    have a1 := AccessInfo_new_mono E cudaTable (Nat.le_max_left f1 f2) _ _ _ _ _ _ e1
    have a2 := AccessInfo_new_mono E cudaTable (Nat.le_max_right f1 f2) _ _ _ _ _ _ e2
    rw [a1] at a2
    exact Res.ok.inj a2

/-- The result of `isNonUnitStride` in terms of the stride. -/
theorem isNonUnitStride_of_stride (E : Env) (DL : DataLayout) (pointer stride : Nat)
    (h : getStride E DL pointer = .ok stride) :
    isNonUnitStride E DL pointer =
      .ok (decide (stride ≠ 0 ∧ stride ≠ getUnitStride DL pointer)) := by
  unfold isNonUnitStride
  rw [h]
  simp only [Res.bind, Res.ok.injEq]
  by_cases h0 : stride = 0 <;> by_cases h1 : stride = getUnitStride DL pointer <;>
    simp [h0, h1]

/-- C26 (amended): for a pointer whose evolution is an affine recurrence with a step
expression evaluating to k * elementSize (elementSize > 0 the allocation size of the
pointee type), `isNonUnitStride` returns false when k = 0 or k = 1 and true for every other
k; and whenever `getStride` returns, `isNonUnitStride` returns true exactly when the stride
is nonzero and differs from `getUnitStride`. -/
theorem isNonUnitStride_iff_stride_nonzero_and_differs (E : Env) (DL : DataLayout)
    (pointer : Nat) (start step : SCEV) (loop k : Nat)
    (hscev : E.getSCEV pointer = .addRec [start, step] loop)
    (hstep : evaluate DL step = .ok (k * getUnitStride DL pointer))
    (hpos : 0 < getUnitStride DL pointer) :
    getStride E DL pointer = .ok (k * getUnitStride DL pointer) ∧
    isNonUnitStride E DL pointer = .ok (decide (k ≠ 0 ∧ k ≠ 1)) ∧
    (∀ p stride, getStride E DL p = .ok stride →
      isNonUnitStride E DL p = .ok (decide (stride ≠ 0 ∧ stride ≠ getUnitStride DL p))) := by
  have hs : getStride E DL pointer = .ok (k * getUnitStride DL pointer) := by
    unfold getStride
    rw [hscev]
    exact hstep
  refine ⟨hs, ?_, fun p stride h => isNonUnitStride_of_stride E DL p stride h⟩
  rw [isNonUnitStride_of_stride E DL pointer _ hs]
  congr 1
  apply decide_eq_decide.mpr
  constructor
  · rintro ⟨h0, h1⟩
    refine ⟨fun hk => h0 (by rw [hk, Nat.zero_mul]), fun hk => h1 (by rw [hk, Nat.one_mul])⟩
  · rintro ⟨h0, h1⟩
    refine ⟨fun h => ?_, fun h => ?_⟩
    · rcases Nat.mul_eq_zero.mp h with h | h
      · exact h0 h
      · omega
    · exact h1 (Nat.eq_of_mul_eq_mul_right hpos (by rw [h, Nat.one_mul]))

/-- C26 (witness): pointer 0 of `kernelStride` advances by 3 elements and has a non-unit
stride; pointer 1 advances by 1 element and has not. -/
theorem isNonUnitStride_iff_stride_nonzero_and_differs_witness :
    (getStride kernelStride layoutStride 0 = .ok (3 * getUnitStride layoutStride 0) ∧
      isNonUnitStride kernelStride layoutStride 0 = .ok (decide (3 ≠ 0 ∧ 3 ≠ 1))) ∧
    isNonUnitStride kernelStride layoutStride 0 = .ok true ∧
    isNonUnitStride kernelStride layoutStride 1 = .ok false :=
  have h := isNonUnitStride_iff_stride_nonzero_and_differs kernelStride layoutStride 0
    (.unknown 10) (.mul [.constant 64 3, .unknown 5]) 0 3 rfl (by decide) (by decide)
  ⟨⟨h.1, h.2.1⟩, by decide, by decide⟩

/-- C26 (counterexample): the step of pointer 2 of `kernelStride` is `4 * n` with `n` a
run-time value; it evaluates to 0 = 0 * elementSize, so k = 0 is not 1 and the stride 0
differs from the unit stride 4, yet `isNonUnitStride` returns false. -/
theorem isNonUnitStride_counterexample :
    kernelStride.getSCEV 2 =
      .addRec [.unknown 10, .mul [.constant 64 4, .cast .ZeroExtend (.unknown 6)]] 0 ∧
    evaluate layoutStride (.mul [.constant 64 4, .cast .ZeroExtend (.unknown 6)]) =
      .ok (0 * getUnitStride layoutStride 2) ∧
    getStride kernelStride layoutStride 2 = .ok 0 ∧
    getUnitStride layoutStride 2 = 4 ∧
    isNonUnitStride kernelStride layoutStride 2 = .ok false :=
  ⟨rfl, by decide, by decide, by decide, by decide⟩

theorem findAllocaSource_mono (E : Env) :
    ∀ (f g : Nat) (v : Nat) (r : Option Nat), f ≤ g →
      findAllocaSource E f v = .ok r → findAllocaSource E g v = .ok r := by
  intro f
  induction f with
  | zero => intro g v r _ h; cases h
  | succ n ih =>
    intro g v r hfg h
    cases g with
    | zero => omega
    | succ k =>
      have hnk : n ≤ k := Nat.le_of_succ_le_succ hfg
      unfold findAllocaSource at h ⊢
      cases hn : (E.ir v).node with
      | cast b op =>
        cases b with
        | true =>
          simp only [hn] at h ⊢
          exact ih k _ r hnk h
        | false =>
          simp only [hn] at h ⊢
          exact h
      | call cv args =>
        simp only [hn] at h ⊢
        cases hc : getCalledFunction E cv with
        | none =>
          simp only [hc] at h ⊢
          exact h
        | some p =>
          obtain ⟨name, info⟩ := p
          simp only [hc] at h ⊢
          by_cases h1 : (!startswith name "llvm.nvvm.ptr.gen.to.") = true
          · rw [if_pos h1] at h ⊢
            exact h
          · rw [if_neg h1] at h ⊢
            by_cases h2 : (info.argSize != 1) = true
            · rw [if_pos h2] at h ⊢
              exact h
            · rw [if_neg h2] at h ⊢
              cases ha : getArgOperand cv args 0 with
              | none =>
                simp only [ha] at h
                cases h
              | some a =>
                simp only [ha] at h ⊢
                exact ih k _ r hnk h
      | _ =>
        simp only [hn] at h ⊢
        exact h

theorem getCUDArraySet_mem (E : Env) (underlying : Nat → Nat) (fuel : Nat) (T : MemOper) :
    ∀ (insts : List Nat) (set s : List (Option Nat)),
      getCUDArraySet E underlying fuel T insts set = .ok s →
      ∀ x, x ∈ s ↔ x ∈ set ∨ ∃ i ∈ insts, arraySlotOf E underlying fuel T i = .ok (some x) := by
  intro insts
  induction insts with
  | nil =>
    intro set s h x
    simp only [getCUDArraySet, Res.ok.injEq] at h
    subst h
    simp
  | cons i rest ih =>
    intro set s h x
    unfold getCUDArraySet at h
    cases hr : arraySlotOf E underlying fuel T i with
    | fatal => rw [hr] at h; cases h
    | timeout => rw [hr] at h; cases h
    | ok r =>
      rw [hr] at h
      simp only [Res.bind] at h
      cases r with
      | none =>
        rw [ih set s h x]
        simp only [List.mem_cons, exists_eq_or_imp, hr, Res.ok.injEq, reduceCtorEq, false_or]
      | some a =>
        rw [ih _ s h x]
        simp only [List.mem_cons, exists_eq_or_imp, hr, Res.ok.injEq, Option.some.injEq]
        by_cases hc : set.contains a = true
        · rw [if_pos hc]
          have hm : a ∈ set := by simpa using hc
          constructor
          · rintro (h1 | h1)
            · exact Or.inl h1
            · exact Or.inr (Or.inr h1)
          · rintro (h1 | h1 | h1)
            · exact Or.inl h1
            · exact Or.inl (h1 ▸ hm)
            · exact Or.inr h1
        · rw [if_neg hc, List.mem_append, List.mem_singleton]
          constructor
          · rintro ((h1 | h1) | h1)
            · exact Or.inl h1
            · exact Or.inr (Or.inl h1.symm)
            · exact Or.inr (Or.inr h1)
          · rintro (h1 | h1 | h1)
            · exact Or.inl (Or.inl h1)
            · exact Or.inl (Or.inr h1.symm)
            · exact Or.inr h1

/-- An iteration of `getCUDArraySet` inserts the slot exactly when the pointer of the
memory instruction has as underlying object a call to a cudarrays `array_storage` or
`dynarray` function whose first argument is traced to the slot. -/
theorem arraySlotOf_some_iff (E : Env) (underlying : Nat → Nat) (fuel : Nat) (T : MemOper)
    (inst : Nat) (x : Option Nat) :
    arraySlotOf E underlying fuel T inst = .ok (some x) ↔
      ∃ ptr cv args name fi a0, getPointerOperand T (E.ir inst).node = some ptr ∧
        (E.ir (underlying ptr)).node = .call cv args ∧
        getCalledFunction E cv = some (name, fi) ∧ isCUDArrayFunction name = true ∧
        getArgOperand cv args 0 = some a0 ∧ findAllocaSource E fuel a0 = .ok x := by
  constructor
  · intro h
    unfold arraySlotOf at h
    split at h
    · cases h
    · rename_i ptr hptr
      split at h
      · rename_i cv args hcall
        split at h
        · cases h
        · rename_i name fi hfun
          split at h
          · cases h
          · rename_i hname
            split at h
            · cases h
            · rename_i a0 harg
              cases hfa : findAllocaSource E fuel a0 with
              | ok r =>
                rw [hfa] at h
                simp only [Res.bind, Res.ok.injEq, Option.some.injEq] at h
                refine ⟨ptr, cv, args, name, fi, a0, hptr, hcall, hfun, ?_, harg, ?_⟩
                · simpa using hname
                · rw [← h]
                  exact hfa
              | fatal => rw [hfa] at h; cases h
              | timeout => rw [hfa] at h; cases h
      · cases h
  · rintro ⟨ptr, cv, args, name, fi, a0, hptr, hcall, hfun, hname, harg, hfa⟩
    simp only [arraySlotOf, hptr, hcall, hfun, hname, harg, hfa, Res.bind, Bool.not_true,
      Bool.false_eq_true, if_false]

theorem slotsOf_contains (s : List (Option Nat)) (a : Nat) :
    (slotsOf s).contains a = s.contains (some a) := by
  induction s with
  | nil => rfl
  | cons x xs ih =>
    cases x with
    | none =>
      have e1 : slotsOf (none :: xs) = slotsOf xs := rfl
      rw [e1, ih]
      simp [List.contains_cons]
    | some b =>
      have e1 : slotsOf (some b :: xs) = b :: slotsOf xs := rfl
      rw [e1, List.contains_cons, List.contains_cons, ih]
      simp

theorem arrayFacts_head (E : Env) (argMap : List (Nat × Nat)) (rs ws : List Nat)
    (info : Nat × List AccessInfo) (facts : List Fact)
    (h : arrayFacts E argMap rs ws info = some facts) :
    ∃ arg dims rest, argMap.lookup info.1 = some arg ∧
      facts = Fact.setArrayInfo arg dims (rs.contains info.1) (ws.contains info.1) :: rest := by
  unfold arrayFacts at h
  split at h
  · split at h
    · cases h
    · rename_i arg harg
      split at h
      · split at h
        · cases h
        · rename_i first _
          simp only [Option.some.injEq] at h
          exact ⟨arg, first.getNumDims, _, harg, h.symm⟩
      · cases h
  · cases h

/-- C24 (amended): for every reported array the flags passed to `set_array_info` are
exactly membership of the array's stack slot in the read set and in the write set; and the
slot is in the write set (read set) exactly when the kernel contains a store (load) whose
pointer has as underlying object a call to a function whose IR name contains "cudarrays"
and one of "array_storage", "dynarray", and whose first argument traces back through
bitcasts and address-space-conversion calls to the slot. -/
theorem flags_are_set_membership (E : Env) (underlying : Nat → Nat) (fuel : Nat)
    (insts : List Nat) (argMap : List (Nat × Nat)) (rs ws : List (Option Nat))
    (info : Nat × List AccessInfo) (facts : List Fact)
    (hr : getCUDArraySet E underlying fuel .LoadInst insts [] = .ok rs)
    (hw : getCUDArraySet E underlying fuel .StoreInst insts [] = .ok ws)
    (hf : arrayFacts E argMap (slotsOf rs) (slotsOf ws) info = some facts) :
    (∃ arg dims rest, argMap.lookup info.1 = some arg ∧
      facts = Fact.setArrayInfo arg dims (rs.contains (some info.1))
        (ws.contains (some info.1)) :: rest) ∧
    (∀ slot, some slot ∈ ws ↔ ∃ inst ∈ insts, ∃ ptr cv args name fi a0,
      getPointerOperand .StoreInst (E.ir inst).node = some ptr ∧
      (E.ir (underlying ptr)).node = .call cv args ∧
      getCalledFunction E cv = some (name, fi) ∧ isCUDArrayFunction name = true ∧
      getArgOperand cv args 0 = some a0 ∧ findAllocaSource E fuel a0 = .ok (some slot)) ∧
    (∀ slot, some slot ∈ rs ↔ ∃ inst ∈ insts, ∃ ptr cv args name fi a0,
      getPointerOperand .LoadInst (E.ir inst).node = some ptr ∧
      (E.ir (underlying ptr)).node = .call cv args ∧
      getCalledFunction E cv = some (name, fi) ∧ isCUDArrayFunction name = true ∧
      getArgOperand cv args 0 = some a0 ∧ findAllocaSource E fuel a0 = .ok (some slot)) ∧
    (∀ a0 slot, findAllocaSource E fuel a0 = .ok (some slot) → TracesToSlot E a0 slot) := by
  refine ⟨?_, ?_, ?_, fun a0 slot h => ⟨fuel, h⟩⟩
  · obtain ⟨arg, dims, rest, harg, hfacts⟩ := arrayFacts_head E argMap _ _ info facts hf
    rw [slotsOf_contains, slotsOf_contains] at hfacts
    exact ⟨arg, dims, rest, harg, hfacts⟩
  · intro slot
    rw [getCUDArraySet_mem E underlying fuel .StoreInst insts [] ws hw (some slot)]
    simp only [List.not_mem_nil, false_or, arraySlotOf_some_iff]
  · intro slot
    rw [getCUDArraySet_mem E underlying fuel .LoadInst insts [] rs hr (some slot)]
    simp only [List.not_mem_nil, false_or, arraySlotOf_some_iff]

/-- C24 (witness): in `kernelRW` the array `out` (argument 6, slot 7) is written through the
result of `operator()` and not read: its flags are (false, true). -/
theorem flags_are_set_membership_witness :
    (∃ arg dims rest, [(7, 6), (2, 1)].lookup 7 = some arg ∧
      [Fact.setArrayInfo 6 1 false true] =
        Fact.setArrayInfo arg dims ([some 2].contains (some 7))
          ([some 7].contains (some 7)) :: rest) ∧
    processKernel kernelRW id bodyRW 3 [] [] [] 20 =
      .ok (⟨[.resetInfo 20, .setArrayInfo 1 1 true false, .setArrayInfo 6 1 false true], true⟩,
        ⟨[.resetInfo 20, .setArrayInfo 1 1 true false, .setArrayInfo 6 1 false true],
          true⟩) :=
  ⟨(flags_are_set_membership kernelRW id 3 kernelRWInsts [(7, 6), (2, 1)] [some 2] [some 7]
      (7, [{ base_ := [⟨.unknown 11, 0, "t.x", 0⟩], dynarray_ := 7, dim_ := 1, write_ := true }])
      [Fact.setArrayInfo 6 1 false true] (by decide) (by decide) (by decide)).1,
   by decide⟩

/-- C24 (counterexample): the kernel of `kernelRW` contains the store 3 of the argument `arr`
to its stack slot 2; the pointer of that store is the slot itself, yet the array is
reported with is_written = false, because the underlying object of the pointer is not a
call. -/
theorem store_to_slot_counterexample :
    3 ∈ bodyRW.insts ∧
    getPointerOperand .StoreInst (kernelRW.ir 3).node = some 2 ∧
    TracesToSlot kernelRW 2 2 ∧
    createAllocaToArgMap kernelRW 3 bodyRW.insts [] = .ok [(7, 6), (2, 1)] ∧
    getCUDArraySet kernelRW id 3 .StoreInst bodyRW.insts [] = .ok [some 7] ∧
    processKernel kernelRW id bodyRW 3 [] [] [] 20 =
      .ok (⟨[.resetInfo 20, .setArrayInfo 1 1 true false, .setArrayInfo 6 1 false true], true⟩,
        ⟨[.resetInfo 20, .setArrayInfo 1 1 true false, .setArrayInfo 6 1 false true],
          true⟩) :=
  ⟨by decide, by decide, ⟨1, by decide⟩, by decide, by decide, by decide⟩

/-- The three assertions of the loop body of `insertCUDArrayInfo`. -/
theorem arrayFacts_eq_none_iff (E : Env) (argMap : List (Nat × Nat)) (rs ws : List Nat)
    (info : Nat × List AccessInfo) :
    arrayFacts E argMap rs ws info = none ↔
      (isAlloca E info.1 = false ∨ argMap.lookup info.1 = none ∨
        hasConsistentDims info.2 = false) := by
  constructor
  · intro h
    by_cases h1 : isAlloca E info.1 = true
    · cases h2 : argMap.lookup info.1 with
      | none => exact Or.inr (Or.inl rfl)
      | some arg =>
        by_cases h3 : hasConsistentDims info.2 = true
        · rw [arrayFacts_valid E argMap rs ws info h1 (by rw [h2]; rfl) h3] at h
          cases h
        · exact Or.inr (Or.inr (by simpa using h3))
    · exact Or.inl (by simpa using h1)
  · rintro (h | h | h)
    · unfold arrayFacts
      rw [h]
      rfl
    · unfold arrayFacts
      rw [h]
      split <;> rfl
    · exact arrayFacts_none_of_inconsistent E argMap rs ws info h

/-- C25 (amended): when the report of a kernel fails at an array (its records have
inconsistent dimension counts, or its handle is not a stack slot mapped to a kernel
argument), no fact of that array or of an array after it has been passed to a sink and the
second sink has received nothing of the kernel; the reset and all the facts of the arrays
before it have already been passed to the first sink. -/
theorem failing_array_keeps_earlier_facts (E : Env) (underlying : Nat → Nat) (fuel : Nat)
    (insts : List Nat) (driver driverRT : List Fact) (fn : Nat) (pre post : ArrayInfoMap)
    (key : Nat) (infos : List AccessInfo) (argMap : List (Nat × Nat))
    (rs ws : List (Option Nat))
    (hmap : createAllocaToArgMap E fuel insts [] = .ok argMap)
    (hr : getCUDArraySet E underlying fuel .LoadInst insts [] = .ok rs)
    (hw : getCUDArraySet E underlying fuel .StoreInst insts [] = .ok ws)
    (hpre : ∀ info ∈ pre, isAlloca E info.1 = true ∧ (argMap.lookup info.1).isSome = true ∧
      hasConsistentDims info.2 = true)
    (hbad : isAlloca E key = false ∨ argMap.lookup key = none ∨
      hasConsistentDims infos = false) :
    reportKernel E underlying fuel insts driver driverRT fn (pre ++ (key, infos) :: post) =
      .ok ({ log := driver ++ [Fact.resetInfo fn] ++
               pre.flatMap (expectedArrayFacts argMap (slotsOf rs) (slotsOf ws)),
             alive := false },
           { log := driverRT, alive := false }) := by
  have hnone : arrayFacts E argMap (slotsOf rs) (slotsOf ws) (key, infos) = none :=
    (arrayFacts_eq_none_iff E argMap _ _ (key, infos)).mpr hbad
  have hfirst : insertCUDArrayInfo E driver fn (pre ++ (key, infos) :: post) argMap
      (slotsOf rs) (slotsOf ws) =
      { log := driver ++ [Fact.resetInfo fn] ++
          pre.flatMap (expectedArrayFacts argMap (slotsOf rs) (slotsOf ws)),
        alive := false } := by
    unfold insertCUDArrayInfo
    rw [insertArrays_append E argMap _ _ _ pre _ rfl,
      insertArrays_valid E argMap _ _ pre _ rfl hpre]
    simp only [if_true, insertArrays, hnone]
  unfold reportKernel
  rw [hmap, hr, hw]
  simp only [Res.bind, hfirst, Bool.false_eq_true, if_false]

/-- C25 (witness): in the kernel of `bodyUnmapped` the slot 7 is not mapped to an argument;
the report fails at it with the first sink holding the reset and the fact of the array in
slot 2, and the second sink empty. -/
theorem failing_array_keeps_earlier_facts_witness :
    reportKernel kernelRW id 3 bodyUnmapped.insts [] [] 20
      ([(2, [{ base_ := [⟨.unknown 11, 0, "t.x", 0⟩], dynarray_ := 2, dim_ := 1,
               write_ := true }])] ++
        (7, [{ base_ := [⟨.unknown 11, 0, "t.x", 0⟩], dynarray_ := 7, dim_ := 1,
               write_ := true }]) :: []) =
      .ok ({ log := [] ++ [Fact.resetInfo 20] ++
               [(2, [{ base_ := [⟨.unknown 11, 0, "t.x", 0⟩], dynarray_ := 2, dim_ := 1,
                       write_ := true }])].flatMap
                 (expectedArrayFacts [(2, 1)] (slotsOf [some 2]) (slotsOf [some 7])),
             alive := false },
           { log := [], alive := false }) :=
  failing_array_keeps_earlier_facts kernelRW id 3 bodyUnmapped.insts [] [] 20 _ [] 7 _
    [(2, 1)] [some 2] [some 7] (by decide) (by decide) (by decide)
    (by
      intro info hinfo
      rw [List.mem_singleton] at hinfo
      subst hinfo
      exact ⟨rfl, rfl, rfl⟩)
    (Or.inr (Or.inl rfl))

/-- C25 (counterexample): the kernel of `bodyUnmapped` has the arrays in slots 2 and 7;
slot 7 is a stack slot that is not mapped to a kernel argument, so the report fails fatally
at it, but the fact `set_array_info` of the array in slot 2 (argument 1) has already been
passed to the first sink. -/
theorem published_before_failure_counterexample :
    recordCounts (runOnFunction kernelRW bodyUnmapped 3 []) = .ok [(2, 1), (7, 1)] ∧
    createAllocaToArgMap kernelRW 3 bodyUnmapped.insts [] = .ok [(2, 1)] ∧
    isAlloca kernelRW 7 = true ∧
    processKernel kernelRW id bodyUnmapped 3 [] [] [] 20 =
      .ok (⟨[.resetInfo 20, .setArrayInfo 1 1 true false], false⟩, ⟨[], false⟩) := by
  decide

/-- C28 (what the code does): the kernel of `bodyNested` has one array-access call site
(the call 4, in block 2). Outside any loop and inside one loop the scan adds one access
record for it; with block 2 inside two nested loops, `runOnLoop` runs on block 2 once for
the outer loop and once for the inner loop, and the scan adds two records for the one call
site. -/
theorem nested_call_site_recorded_per_loop :
    (∀ depth, accessCallSites kernelRW (bodyNested depth) = [4]) ∧
    recordCounts (runOnFunction kernelRW (bodyNested 0) 3 []) = .ok [(2, 1)] ∧
    recordCounts (runOnFunction kernelRW (bodyNested 1) 3 []) = .ok [(2, 1)] ∧
    recordCounts (runOnFunction kernelRW (bodyNested 2) 3 []) = .ok [(2, 2)] ∧
    recordCounts (runOnFunction kernelRW (bodyNested 2) 6 []) = .ok [(2, 2)] ∧
    totalRecords (runOnFunction kernelRW (bodyNested 2) 3 []) = .ok 2 ∧
    totalRecords (runOnFunction kernelRW (bodyNested 2) 3 []) ≠
      .ok (accessCallSites kernelRW (bodyNested 2)).length :=
  ⟨fun _ => rfl, by decide, by decide, by decide, by decide, by decide, by decide⟩

/-- C31 (amended): a call that is neither a built-in register read nor an element-access
call and whose callee's demangled name starts with "cudarrays::dynarray" and contains
"get_dim" renders, when it has at least two arguments, "dim(" + a + ")" where a is the
decimal of the unsigned value of argument 1 saturated at 2^64 - 1 (the unsigned value itself
for a width of at most 64 bits) when argument 1 is an integer constant and the name of
argument 1 otherwise; with no argument it renders "dim()". The mask is left as it was. -/
theorem get_dim_call_renders_dim (E : Env) (v cv : Nat) (args : List Nat) (info : FunInfo)
    (p : Bool) (fuel m : Nat)
    (hv : (E.ir v).node = .call cv args) (hcv : (E.ir cv).node = .function info)
    (hnot : (E.ir cv).name ∉ ThreadIdFunNames ++ BlockIdFunNames ++ SizeFunNames)
    (hacc : ¬ (BeginsWith info.demangled "cudarrays::dynarray" ∧
      Contains info.demangled "operator()" ∧ info.doesNotReturn = false))
    (hlen : info.demangled.length < npos)
    (hb : BeginsWith info.demangled "cudarrays::dynarray")
    (hc : Contains info.demangled "get_dim") :
    (∀ a0 a1 rest, args = a0 :: a1 :: rest →
      (∀ w b, (E.ir a1).node = .constantInt w b →
        getDimInfo E cudaTable orMask (fuel + 1) v p m =
          .ok ("dim(" ++ toString (getLimitedValue w b) ++ ")", m) ∧
        (w ≤ 64 → getLimitedValue w b = b % 2 ^ w)) ∧
      ((∀ w b, (E.ir a1).node ≠ .constantInt w b) →
        getDimInfo E cudaTable orMask (fuel + 1) v p m =
          .ok ("dim(" ++ (E.ir a1).name ++ ")", m))) ∧
    (args = [] → getDimInfo E cudaTable orMask (fuel + 1) v p m = .ok ("dim()", m)) := by
  obtain ⟨h1, h2, h3⟩ := not_register_call E v cv args info hv hcv hnot
  have hcount : ¬ (cudaTable.count (E.ir cv).name > 0) := by
    rw [cudaTable_count_zero _ hnot]
    exact Nat.lt_irrefl 0
  have hget : isDynarrayMember info.demangled "get_dim" = true :=
    (isDynarrayMember_iff _ _ hlen).mpr ⟨hb, hc⟩
  have hmem : ¬ ((isDynarrayMember info.demangled "operator()" &&
      info.doesNotReturn == false) = true) := by
    intro hco
    rw [Bool.and_eq_true, beq_iff_eq] at hco
    obtain ⟨hb1, hc1⟩ := isDynarrayMember_imp _ _ hco.1
    exact hacc ⟨hb1, hc1, hco.2⟩
  have hstep : getDimInfo E cudaTable orMask (fuel + 1) v p m =
      getFunctionName E cudaTable orMask cv args m := by
    simp only [getDimInfo, stepV, hv, h1, h2, h3, Bool.false_eq_true, if_false,
      getCalledFunction, hcv, hmem]
  refine ⟨?_, ?_⟩
  · intro a0 a1 rest hargs
    subst hargs
    have harg : getArgOperand cv (a0 :: a1 :: rest) 1 = some a1 := rfl
    have hne : ((a0 :: a1 :: rest).length != 0) = true := by simp
    refine ⟨?_, ?_⟩
    · intro w b hk
      refine ⟨?_, ?_⟩
      · rw [hstep]
        simp only [getFunctionName, getCalledFunction, hcv, hcount, if_false, hget, if_true,
          hne, harg, hk]
        rfl
      · intro hw
        unfold getLimitedValue
        apply Nat.min_eq_left
        have h2w : 2 ^ w ≤ 2 ^ 64 := Nat.pow_le_pow_right (by decide) hw
        have := Nat.mod_lt b (Nat.two_pow_pos w)
        omega
    · intro hk
      rw [hstep]
      simp only [getFunctionName, getCalledFunction, hcv, hcount, if_false, hget, if_true,
        hne, harg]
      rfl
  · intro hargs
    subst hargs
    rw [hstep]
    simp only [getFunctionName, getCalledFunction, hcv, hcount, if_false, hget, if_true]
    rfl

/-- C31 (witness): in `kernelDim` the call `get_dim(1)` renders "dim(1)", the call
`get_dim(d)` renders "dim(d)" and the call without argument renders "dim()". -/
theorem get_dim_call_renders_dim_witness :
    getDimInfo kernelDim cudaTable orMask (0 + 1) 4 false 0 =
      .ok ("dim(" ++ toString (getLimitedValue 32 1) ++ ")", 0) ∧
    getDimInfo kernelDim cudaTable orMask 1 4 false 0 = .ok ("dim(1)", 0) ∧
    getDimInfo kernelDim cudaTable orMask 1 5 false 0 = .ok ("dim(d)", 0) ∧
    getDimInfo kernelDim cudaTable orMask 1 6 false 0 = .ok ("dim()", 0) :=
  ⟨(((get_dim_call_renders_dim kernelDim 4 0 [1, 2] _ false 0 0 rfl rfl (by decide)
      (fun h => absurd ((find_ne_npos_iff _ _ (by decide)).mpr h.2.1) (by decide))
      (by decide) ((find_eq_zero_iff _ _).mp (by decide))
      ((find_ne_npos_iff _ _ (by decide)).mp (by decide))).1 1 2 [] rfl).1 32 1 rfl).1,
   by decide, by decide, by decide⟩

/-- C31 (counterexample): in `kernelDim` the call 9 passes the integer constant 2^64 + 5 (on
128 bits) as argument 1; the formula holds the saturated value 2^64 - 1, not the unsigned
value of the constant. -/
theorem get_dim_wide_constant_counterexample :
    (kernelDim.ir 9).node = .call 0 [1, 8] ∧
    (kernelDim.ir 8).node = .constantInt 128 18446744073709551621 ∧
    getDimInfo kernelDim cudaTable orMask 1 9 false 0 =
      .ok ("dim(18446744073709551615)", 0) ∧
    getDimInfo kernelDim cudaTable orMask 1 9 false 0 ≠
      .ok ("dim(" ++ toString (18446744073709551621 % 2 ^ 128) ++ ")", 0) := by
  decide

theorem runOnInsts_loop_irrelevant (E : Env) (body : FunctionBody) (fuel : Nat)
    (loop1 loop2 : Option Nat) :
    ∀ (insts : List Nat) (st : ScanState),
      runOnInsts E body fuel loop1 insts st = runOnInsts E body fuel loop2 insts st := by
  intro insts
  induction insts with
  | nil => intro st; rfl
  | cons i rest ih =>
    intro st
    have hacc : ∀ cv args, runOnAccess E body fuel loop1 cv args true st =
        runOnAccess E body fuel loop2 cv args true st := fun _ _ => rfl
    unfold runOnInsts
    split
    · split
      · exact ih st
      · split
        · rw [hacc]
          cases runOnAccess E body fuel loop2 _ _ true st with
          | ok st1 => exact ih st1
          | fatal => rfl
          | timeout => rfl
        · exact ih st
    · exact ih st

/-- C35: the access record built for a call does not depend on the loop context passed to
the constructor: with any loop, or with no loop, the constructor returns the same result,
so the formulas and the masks of every dimension are equal; the same holds for
`runOnAccess` and for the scan of the instructions of a block. -/
theorem record_independent_of_loop (E : Env) (body : FunctionBody) (tbl : Translations)
    (fuel dynarray cv : Nat) (args : List Nat) (write : Bool) (loop1 loop2 : Option Nat) :
    AccessInfo.new E tbl fuel dynarray cv args loop1 write =
      AccessInfo.new E tbl fuel dynarray cv args loop2 write ∧
    (∀ r1 r2 t1 t2, AccessInfo.new E tbl fuel dynarray cv args loop1 write = .ok (r1, t1) →
      AccessInfo.new E tbl fuel dynarray cv args loop2 write = .ok (r2, t2) →
      r1.getNumDims = r2.getNumDims ∧
      r1.getDimInfo.map DimInfo.strAccess = r2.getDimInfo.map DimInfo.strAccess ∧
      r1.getDimInfo.map DimInfo.mask = r2.getDimInfo.map DimInfo.mask) ∧
    (∀ st, runOnAccess E body fuel loop1 cv args write st =
      runOnAccess E body fuel loop2 cv args write st) ∧
    (∀ insts st, runOnInsts E body fuel loop1 insts st =
      runOnInsts E body fuel loop2 insts st) ∧
    (∀ bb st, runOnBB E body fuel loop1 bb st = runOnBB E body fuel loop2 bb st) := by
  have h0 : AccessInfo.new E tbl fuel dynarray cv args loop1 write =
      AccessInfo.new E tbl fuel dynarray cv args loop2 write := rfl
  refine ⟨h0, ?_, fun _ => rfl, runOnInsts_loop_irrelevant E body fuel loop1 loop2, ?_⟩
  · intro r1 r2 t1 t2 e1 e2
    rw [h0, e2] at e1
    have h := Res.ok.inj e1
    have hr : r2 = r1 := (Prod.mk.inj h).1
    subst hr
    exact ⟨rfl, rfl, rfl⟩
  · intro bb st
    exact runOnInsts_loop_irrelevant E body fuel loop1 loop2 _ _

theorem evaluateProduct_cons (DL : DataLayout) (op : SCEV) (rest : List SCEV) (result : Nat) :
    evaluateProduct DL (op :: rest) result =
      (evaluate DL op).bind fun x => evaluateProduct DL rest (result * x % 2 ^ 64) := by
  rw [evaluateProduct]

theorem evaluate_mul (DL : DataLayout) (ops : List SCEV) :
    evaluate DL (.mul ops) = evaluateProduct DL ops 1 := by
  rw [evaluate]

/-- The loop of a product returns the product of the values of the factors on `uint64_t`. -/
theorem evaluateProduct_values (DL : DataLayout) :
    ∀ (ops : List SCEV) (vals : List Nat) (acc : Nat), acc < 2 ^ 64 →
      List.Forall₂ (fun e x => evaluate DL e = .ok x) ops vals →
      evaluateProduct DL ops acc = .ok (acc * vals.prod % 2 ^ 64) := by
  intro ops
  induction ops with
  | nil =>
    intro vals acc hacc h
    cases h
    rw [evaluateProduct, List.prod_nil, Nat.mul_one, Nat.mod_eq_of_lt hacc]
  | cons e rest ih =>
    intro vals acc hacc h
    cases h with
    | cons hx hrest =>
      rename_i x xs
      rw [evaluateProduct_cons, hx]
      simp only [Res.bind]
      rw [ih xs _ (Nat.mod_lt _ (Nat.two_pow_pos 64)) hrest, List.prod_cons]
      congr 1
      rw [Nat.mul_mod, Nat.mod_mod, ← Nat.mul_mod, Nat.mul_assoc]

/-- A product with a failing factor fails when the factors before it evaluate. -/
theorem evaluateProduct_fatal (DL : DataLayout) :
    ∀ (pre : List SCEV) (e : SCEV) (post : List SCEV) (acc : Nat),
      (∀ f ∈ pre, ∃ x, evaluate DL f = .ok x) → evaluate DL e = .fatal →
      evaluateProduct DL (pre ++ e :: post) acc = .fatal := by
  intro pre
  induction pre with
  | nil =>
    intro e post acc _ he
    rw [List.nil_append, evaluateProduct_cons, he]
    rfl
  | cons f rest ih =>
    intro e post acc hpre he
    obtain ⟨x, hx⟩ := hpre f (List.mem_cons_self _ _)
    rw [List.cons_append, evaluateProduct_cons, hx]
    exact ih e post _ (fun g hg => hpre g (List.mem_cons_of_mem _ hg)) he

/-- C33: `getStride` returns 0 when the evolution of the pointer is not an add recurrence or
is a recurrence that is not affine, and `evaluate` of the step otherwise; `evaluate` of a
product whose factors evaluate is the product of their values modulo 2^64 (and fails with a
failing factor), of a size-of unknown the allocation size, of an align-of unknown the ABI
alignment, of any other unknown 0, of a constant its unsigned value saturated at 2^64 - 1,
of a zero-extension the value of its operand, and it fails for every other kind of
expression. -/
theorem getStride_evaluates_step (E : Env) (DL : DataLayout) (pointer : Nat) :
    ((∀ ops loop, E.getSCEV pointer ≠ .addRec ops loop) → getStride E DL pointer = .ok 0) ∧
    (∀ ops loop, E.getSCEV pointer = .addRec ops loop → ops.length ≠ 2 →
      getStride E DL pointer = .ok 0) ∧
    (∀ start step loop, E.getSCEV pointer = .addRec [start, step] loop →
      getStride E DL pointer = evaluate DL step) ∧
    (∀ ops vals, List.Forall₂ (fun e x => evaluate DL e = .ok x) ops vals →
      evaluate DL (.mul ops) = .ok (vals.prod % 2 ^ 64)) ∧
    (∀ pre e post, (∀ f ∈ pre, ∃ x, evaluate DL f = .ok x) → evaluate DL e = .fatal →
      evaluate DL (.mul (pre ++ e :: post)) = .fatal) ∧
    (∀ v size, DL.sizeOf v = some size → evaluate DL (.unknown v) = .ok (size % 2 ^ 64)) ∧
    (∀ v align, DL.sizeOf v = none → DL.alignOf v = some align →
      evaluate DL (.unknown v) = .ok (align % 2 ^ 64)) ∧
    (∀ v, DL.sizeOf v = none → DL.alignOf v = none → evaluate DL (.unknown v) = .ok 0) ∧
    (∀ w b, evaluate DL (.constant w b) = .ok (min (b % 2 ^ w) (2 ^ 64 - 1))) ∧
    (∀ e, evaluate DL (.cast .ZeroExtend e) = evaluate DL e) ∧
    (∀ ops, evaluate DL (.add ops) = .fatal) ∧
    (∀ e, evaluate DL (.cast .SignExtend e) = .fatal) ∧
    (∀ e, evaluate DL (.cast .Truncate e) = .fatal) ∧
    (∀ l r, evaluate DL (.udiv l r) = .fatal) ∧
    (∀ ops loop, evaluate DL (.addRec ops loop) = .fatal) ∧
    (∀ ops, evaluate DL (.smax ops) = .fatal) ∧
    (∀ ops, evaluate DL (.umax ops) = .fatal) ∧
    evaluate DL .couldNotCompute = .fatal ∧ evaluate DL .null = .fatal := by
  refine ⟨?_, ?_, ?_, ?_, ?_, ?_, ?_, ?_, ?_, ?_, ?_, ?_, ?_, ?_, ?_, ?_, ?_, ?_, ?_⟩
  · intro h
    unfold getStride
    split
    · rename_i ops loop heq
      exact absurd heq (h ops loop)
    · rfl
  · intro ops loop h hl
    unfold getStride
    rw [h]
    simp only [beq_iff_eq, hl, if_false]
  · intro start step loop h
    unfold getStride
    rw [h]
    rfl
  · intro ops vals h
    rw [evaluate_mul, evaluateProduct_values DL ops vals 1 (by decide) h, Nat.one_mul]
  · intro pre e post hpre he
    rw [evaluate_mul]
    exact evaluateProduct_fatal DL pre e post 1 hpre he
  · intro v size h
    rw [evaluate, h]
  · intro v align h1 h2
    rw [evaluate, h1, h2]
  · intro v h1 h2
    rw [evaluate, h1, h2]
  · intro w b
    rw [evaluate]
    rfl
  · intro e
    rw [evaluate]
  · intro ops
    simp [evaluate]
  · intro e
    simp [evaluate]
  · intro e
    simp [evaluate]
  · intro l r
    simp [evaluate]
  · intro ops loop
    simp [evaluate]
  · intro ops
    simp [evaluate]
  · intro ops
    simp [evaluate]
  · simp [evaluate]
  · simp [evaluate]

/-- A product whose factors all evaluate and one of which evaluates to 0 evaluates to 0. -/
theorem evaluateProduct_zero (DL : DataLayout) :
    ∀ (ops : List SCEV) (acc : Nat), (∀ e ∈ ops, ∃ x, evaluate DL e = .ok x) →
      (acc = 0 ∨ ∃ e ∈ ops, evaluate DL e = .ok 0) →
      evaluateProduct DL ops acc = .ok 0 := by
  intro ops
  induction ops with
  | nil =>
    intro acc _ h
    rcases h with h | ⟨e, he, _⟩
    · rw [evaluateProduct, h]
    · cases he
  | cons e rest ih =>
    intro acc hall h
    obtain ⟨x, hx⟩ := hall e (List.mem_cons_self _ _)
    rw [evaluateProduct_cons, hx]
    simp only [Res.bind]
    apply ih _ (fun g hg => hall g (List.mem_cons_of_mem _ hg))
    rcases h with h | ⟨e1, he1, hz⟩
    · left
      rw [h, Nat.zero_mul]
      rfl
    · rcases List.mem_cons.mp he1 with heq | hin
      · left
        rw [heq] at hz
        rw [hx] at hz
        have hx0 : x = 0 := Res.ok.inj hz
        rw [hx0, Nat.mul_zero]
        rfl
      · exact Or.inr ⟨e1, hin, hz⟩

/-- C39: when the step of an affine pointer recurrence is a product with a factor that is an
unknown neither size-of nor align-of, and every factor evaluates, `getStride` returns 0 and
`isNonUnitStride` returns false, whatever the values of the other factors. -/
theorem unknown_factor_gives_zero_stride (E : Env) (DL : DataLayout) (pointer : Nat)
    (start : SCEV) (loop : Nat) (ops : List SCEV) (u : Nat)
    (hscev : E.getSCEV pointer = .addRec [start, .mul ops] loop)
    (hin : SCEV.unknown u ∈ ops)
    (hs : DL.sizeOf u = none) (ha : DL.alignOf u = none)
    (hev : ∀ e ∈ ops, ∃ x, evaluate DL e = .ok x) :
    getStride E DL pointer = .ok 0 ∧ isNonUnitStride E DL pointer = .ok false := by
  have hop : evaluate DL (.unknown u) = .ok 0 := by
    rw [evaluate, hs, ha]
  have hst : getStride E DL pointer = .ok 0 := by
    unfold getStride
    rw [hscev]
    show evaluate DL (.mul ops) = .ok 0
    rw [evaluate_mul]
    exact evaluateProduct_zero DL ops 1 hev (Or.inr ⟨_, hin, hop⟩)
  refine ⟨hst, ?_⟩
  unfold isNonUnitStride
  rw [hst]
  rfl

/-- C39 (witness): the pointer of `kernelRuntimeStride` advances by `8 * n` with `n` a run-time value; its
stride is reported as 0 and it does not count as a non-unit stride. -/
theorem unknown_factor_gives_zero_stride_witness :
    getStride kernelRuntimeStride layoutStride 0 = .ok 0 ∧
    isNonUnitStride kernelRuntimeStride layoutStride 0 = .ok false :=
  unknown_factor_gives_zero_stride kernelRuntimeStride layoutStride 0 (.unknown 10) 0
    [.constant 64 8, .unknown 6] 6 rfl (List.mem_cons_of_mem _ (List.mem_cons_self _ _))
    rfl rfl
    (by
      intro e he
      rcases List.mem_cons.mp he with h | h
      · exact ⟨8, by rw [h]; rfl⟩
      · rw [List.mem_singleton] at h
        exact ⟨0, by rw [h]; rfl⟩)

theorem startswith_iff (name pat : String) : startswith name pat = true ↔ BeginsWith name pat := by
  unfold startswith BeginsWith
  exact List.isPrefixOf_iff_prefix

theorem getArgOperand_zero (cv : Nat) (args : List Nat) :
    ∃ W, getArgOperand cv args 0 = some W := by
  cases args with
  | nil => exact ⟨cv, rfl⟩
  | cons a rest => exact ⟨a, rfl⟩

/-- The walk of `findAllocaSource` follows a conversion step. -/
theorem findAllocaSource_step (E : Env) (V W : Nat) (h : ConversionStep E V W) (fuel : Nat) :
    findAllocaSource E (fuel + 1) V = findAllocaSource E fuel W := by
  rcases h with h | ⟨cv, args, name, info, hcall, hfun, hname, hsize, harg⟩
  · rw [findAllocaSource, h]
  · have hs : startswith name "llvm.nvvm.ptr.gen.to." = true := (startswith_iff _ _).mpr hname
    rw [findAllocaSource, hcall]
    simp only [hfun, hs, hsize, harg, Bool.not_true, Bool.false_eq_true, if_false, bne_self_eq_false]

/-- The function `findAllocaSource` on a value that is no stack slot and has no conversion
step. -/
theorem findAllocaSource_other (E : Env) (V : Nat) (ha : (E.ir V).node ≠ .alloca)
    (hno : ∀ W, ¬ ConversionStep E V W) (fuel : Nat) :
    findAllocaSource E (fuel + 1) V = .ok none := by
  unfold findAllocaSource
  cases hn : (E.ir V).node with
  | alloca => exact absurd hn ha
  | cast b op =>
    cases b with
    | true => exact absurd (Or.inl hn) (hno op)
    | false => rfl
  | call cv args =>
    simp only
    cases hc : getCalledFunction E cv with
    | none => rfl
    | some q =>
      obtain ⟨name, info⟩ := q
      simp only
      by_cases h1 : startswith name "llvm.nvvm.ptr.gen.to." = true
      · by_cases h2 : info.argSize = 1
        · obtain ⟨W, hW⟩ := getArgOperand_zero cv args
          exact absurd (Or.inr ⟨cv, args, name, info, hn, hc, (startswith_iff _ _).mp h1, h2, hW⟩)
            (hno W)
        · have h2b : (info.argSize != 1) = true := by simpa using h2
          simp only [h1, h2b, Bool.not_true, Bool.false_eq_true, if_false, if_true]
      · have h1b : (!startswith name "llvm.nvvm.ptr.gen.to.") = true := by simpa using h1
        simp only [h1b, if_true]
  | _ => rfl

theorem findAllocaSource_sound (E : Env) :
    ∀ (fuel V a : Nat), findAllocaSource E fuel V = .ok (some a) →
      (E.ir a).node = .alloca ∧ Relation.ReflTransGen (ConversionStep E) V a := by
  intro fuel
  induction fuel with
  | zero => intro V a h; cases h
  | succ n ih =>
    intro V a h
    by_cases ha : (E.ir V).node = .alloca
    · rw [findAllocaSource, ha] at h
      have hVa : V = a := Option.some.inj (Res.ok.inj h)
      subst hVa
      exact ⟨ha, Relation.ReflTransGen.refl⟩
    · by_cases hstep : ∃ W, ConversionStep E V W
      · obtain ⟨W, hW⟩ := hstep
        rw [findAllocaSource_step E V W hW n] at h
        obtain ⟨h1, h2⟩ := ih W a h
        exact ⟨h1, Relation.ReflTransGen.head hW h2⟩
      · rw [findAllocaSource_other E V ha (fun W hW => hstep ⟨W, hW⟩) n] at h
        cases h

/-- C32: `findAllocaSource(V)` returns `V` when `V` is a stack allocation, the result of
`findAllocaSource` on the operand when `V` is a bitcast or a call to a function whose name
starts with "llvm.nvvm.ptr.gen.to." and that has exactly one formal parameter, and null for
every other value; a non-null result is a stack allocation reached from `V` through such
steps only, and every stack allocation so reached is returned. -/
theorem findAllocaSource_walk (E : Env) (V : Nat) :
    ((E.ir V).node = .alloca → ∀ fuel, findAllocaSource E (fuel + 1) V = .ok (some V)) ∧
    (∀ W, ConversionStep E V W →
      ∀ fuel, findAllocaSource E (fuel + 1) V = findAllocaSource E fuel W) ∧
    ((E.ir V).node ≠ .alloca → (∀ W, ¬ ConversionStep E V W) →
      ∀ fuel, findAllocaSource E (fuel + 1) V = .ok none) ∧
    (∀ fuel a, findAllocaSource E fuel V = .ok (some a) →
      (E.ir a).node = .alloca ∧ Relation.ReflTransGen (ConversionStep E) V a) ∧
    (∀ a, (E.ir a).node = .alloca → Relation.ReflTransGen (ConversionStep E) V a →
      ∃ fuel, findAllocaSource E fuel V = .ok (some a)) := by
  refine ⟨?_, fun W h fuel => findAllocaSource_step E V W h fuel,
    fun ha hno fuel => findAllocaSource_other E V ha hno fuel,
    fun fuel a h => findAllocaSource_sound E fuel V a h, ?_⟩
  · intro ha fuel
    rw [findAllocaSource, ha]
  · intro a ha hreach
    induction hreach using Relation.ReflTransGen.head_induction_on with
    | refl => exact ⟨1, by rw [findAllocaSource, ha]⟩
    | head hstep _ ih =>
      obtain ⟨fuel, hf⟩ := ih
      exact ⟨fuel + 1, by rw [findAllocaSource_step E _ _ hstep fuel, hf]⟩

/-- C32 (witness): in `kernelWalk` the walk from the bitcast 5 goes through the conversion
call 4 and the bitcast 2 to the stack slot 1; an integer-to-pointer cast and a call to
another function give null. -/
theorem findAllocaSource_walk_witness :
    findAllocaSource kernelWalk (3 + 1) 5 = findAllocaSource kernelWalk 3 4 ∧
    findAllocaSource kernelWalk 4 5 = .ok (some 1) ∧
    findAllocaSource kernelWalk 1 6 = .ok none ∧
    findAllocaSource kernelWalk 1 8 = .ok none :=
  ⟨(findAllocaSource_walk kernelWalk 5).2.1 4 (Or.inl rfl) 3, by decide, by decide, by decide⟩

/-- A position that `find` returns is the start of an occurrence. -/
theorem prefix_drop_of_findFrom (pat : List Char) :
    ∀ (s : List Char) (i : Nat), findFrom pat s i ≠ npos →
      i ≤ findFrom pat s i ∧ pat <+: s.drop (findFrom pat s i - i) := by
  intro s
  induction s with
  | nil =>
    intro i h
    unfold findFrom at h ⊢
    split
    · rename_i hp
      have hnil : pat = [] := by simpa using hp
      subst hnil
      simp
    · rename_i hp
      rw [if_neg hp] at h
      exact absurd rfl h
  | cons c cs ih =>
    intro i h
    unfold findFrom at h ⊢
    split
    · rename_i hp
      refine ⟨le_refl _, ?_⟩
      rw [Nat.sub_self, List.drop_zero]
      exact List.isPrefixOf_iff_prefix.mp hp
    · rename_i hp
      rw [if_neg hp] at h
      obtain ⟨h1, h2⟩ := ih (i + 1) h
      refine ⟨by omega, ?_⟩
      have e : findFrom pat cs (i + 1) - i = (findFrom pat cs (i + 1) - (i + 1)) + 1 := by omega
      rw [e, List.drop_succ_cons]
      exact h2

theorem subSizeT_of_le (a b : Nat) (hb : b ≤ a) (ha : a < 2 ^ 64) : subSizeT a b = a - b := by
  unfold subSizeT
  have hb2 : b % 2 ^ 64 = b := Nat.mod_eq_of_lt (by omega)
  have e : a + 2 ^ 64 - b % 2 ^ 64 = (a - b) + 2 ^ 64 := by omega
  rw [e, Nat.add_mod_right]
  exact Nat.mod_eq_of_lt (by omega)

/-- A name shorter than the pattern does not hold it. -/
theorem find_eq_npos_of_short (s pat : String) (h : s.length < pat.length) :
    find s pat = npos := by
  by_contra hne
  have hin : pat.data <:+: s.data := infix_of_findFrom_ne_npos pat.data s.data 0 hne
  have := hin.length_le
  have e1 : s.length = s.data.length := rfl
  have e2 : pat.length = pat.data.length := rfl
  omega

/-- The test `name.find("off") == name.size() - 3` fails for a name that does not end with
"off" and is not two characters long. -/
theorem find_off_ne (name : String) (hlen : name.length < npos) (h2 : name.length ≠ 2)
    (hend : ¬ EndsWith name "off") : find name "off" ≠ subSizeT name.length 3 := by
  have hnp : npos = 2 ^ 64 - 1 := rfl
  by_cases h3 : 3 ≤ name.length
  · rw [subSizeT_of_le _ _ h3 (by omega)]
    intro hf
    have hne : findFrom "off".data name.data 0 ≠ npos := by
      have : find name "off" < npos := by omega
      exact Nat.ne_of_lt this
    obtain ⟨_, hpre⟩ := prefix_drop_of_findFrom "off".data name.data 0 hne
    have hf2 : findFrom "off".data name.data 0 = name.length - 3 := hf
    rw [hf2, Nat.sub_zero] at hpre
    have hl : (name.data.drop (name.length - 3)).length = 3 := by
      have e1 : name.length = name.data.length := rfl
      rw [List.length_drop]
      omega
    have heq : "off".data = name.data.drop (name.length - 3) :=
      hpre.eq_of_length (by rw [hl]; rfl)
    apply hend
    unfold EndsWith
    rw [heq]
    exact List.drop_suffix _ _
  · have hf : find name "off" = npos :=
      find_eq_npos_of_short name "off" (by have : "off".length = 3 := rfl; omega)
    rw [hf]
    have hcases : name.length = 0 ∨ name.length = 1 := by omega
    rcases hcases with h | h <;> rw [h] <;> decide

/-- C38 (what the code does): for an extract-value instruction on a parameter whose name
neither ends with "off" nor is two characters long, the formula is that of the aggregate
operand; but for a parameter of a struct type whose name contains "dim3" and whose own name
has exactly two characters (it cannot end with "off"), `name.size() - 3` wraps around to
`npos`, the value `find` returns for "no occurrence", and the formula is "b_off.<axis>". -/
theorem two_character_name_renders_b_off (E : Env) (tbl : Translations) (v agg : Nat)
    (indices : List Nat) (structName axis : String) (k : Nat) (p : Bool)
    (hv : (E.ir v).node = .extractValue agg (k :: indices))
    (hagg : (E.ir agg).node = .argument (.struct (some structName)))
    (hlen : structName.length < npos) (hdim3 : Contains structName "dim3")
    (hname : (E.ir agg).name.length = 2)
    (hax : (k, axis) ∈ [(0, "x"), (1, "y"), (2, "z")]) :
    ¬ EndsWith (E.ir agg).name "off" ∧
    (∀ (fuel m : Nat), getDimInfo E tbl orMask (fuel + 1) v p m = .ok ("b_off." ++ axis, m)) ∧
    (∀ (w a : Nat) (idx : List Nat) (ty : Ty),
      (E.ir w).node = .extractValue a idx → (E.ir a).node = .argument ty →
      ty ≠ .struct none → (E.ir a).name.length < npos → (E.ir a).name.length ≠ 2 →
      ¬ EndsWith (E.ir a).name "off" →
      ∀ (fuel : Nat) (q : Bool) (m : Nat),
        getDimInfo E tbl orMask (fuel + 1) w q m = getDimInfo E tbl orMask fuel a q m) := by
  refine ⟨?_, ?_, ?_⟩
  · intro hend
    have := hend.length_le
    have e1 : (E.ir agg).name.length = (E.ir agg).name.data.length := rfl
    have e2 : "off".data.length = 3 := rfl
    omega
  · have hf : find (E.ir agg).name "off" = npos :=
      find_eq_npos_of_short _ "off" (by rw [hname]; decide)
    have hcond : (find structName "dim3" != npos &&
        find (E.ir agg).name "off" == subSizeT (E.ir agg).name.length 3) = true := by
      rw [Bool.and_eq_true, bne_iff_ne, beq_iff_eq, hf, hname]
      exact ⟨(find_ne_npos_iff _ _ hlen).mpr hdim3, by decide⟩
    have hdims : offset_dims k = some axis := by
      simp only [List.mem_cons, Prod.mk.injEq, List.mem_singleton, List.not_mem_nil,
        or_false] at hax
      rcases hax with ⟨rfl, rfl⟩ | ⟨rfl, rfl⟩ | ⟨rfl, rfl⟩ <;> rfl
    intro fuel m
    simp only [getDimInfo, stepV, hv, hagg, hcond, if_true, List.head?_cons, hdims]
  · intro w a idx ty hw ha hty hl h2 hend fuel q m
    have hne := find_off_ne (E.ir a).name hl h2 hend
    cases ty with
    | other => simp only [getDimInfo, stepV, hw, ha]
    | struct n =>
      cases n with
      | none => exact absurd rfl hty
      | some sn =>
        have hcond : (find sn "dim3" != npos &&
            find (E.ir a).name "off" == subSizeT (E.ir a).name.length 3) = false := by
          rw [Bool.and_eq_false_iff]
          right
          exact beq_eq_false_iff_ne.mpr hne
        simp only [getDimInfo, stepV, hw, ha, hcond, Bool.false_eq_true, if_false]

/-- C38 (failing input): in `kernelShortName` field 1 of the parameter "sz" of type
`struct.dim3` renders "b_off.y"; fields of the parameters "n", "" and "size" render the
parameter. -/
theorem two_character_name_renders_b_off_witness :
    (∀ (fuel m : Nat),
      getDimInfo kernelShortName cudaTable orMask (fuel + 1) 1 false m =
        .ok ("b_off." ++ "y", m)) ∧
    getDimInfo kernelShortName cudaTable orMask 2 1 false 0 = .ok ("b_off.y", 0) ∧
    getDimInfo kernelShortName cudaTable orMask 2 3 false 0 = .ok ("#PARAM:n", 0) ∧
    getDimInfo kernelShortName cudaTable orMask 2 5 false 0 = .ok ("#PARAM:", 0) ∧
    getDimInfo kernelShortName cudaTable orMask 2 7 false 0 = .ok ("#PARAM:size", 0) :=
  ⟨(two_character_name_renders_b_off kernelShortName cudaTable 1 0 [] "struct.dim3" "y" 1
      false rfl rfl (by decide) ((find_ne_npos_iff _ _ (by decide)).mp (by decide)) rfl
      (by decide)).2.1,
   by decide, by decide, by decide, by decide⟩

theorem getArrayMask_eq_unionMask (records : List AccessInfo) (d : Nat) :
    getArrayMask records d = unionMask records d := by
  unfold getArrayMask
  rw [getArrayMask_acc]
  exact Nat.zero_or _

theorem unionMask_testBit (d k : Nat) (records : List AccessInfo) :
    (unionMask records d).testBit k = true ↔
      ∃ r ∈ records, (siteMask r d).testBit k = true := by
  induction records with
  | nil => simp [unionMask]
  | cons x xs ih =>
    have hu : unionMask (x :: xs) d = siteMask x d ||| unionMask xs d := rfl
    rw [hu, Nat.testBit_or, Bool.or_eq_true, ih]
    simp only [List.mem_cons, exists_eq_or_imp]

theorem unionMask_congr (d : Nat) (l1 l2 : List AccessInfo) (h : ∀ r, r ∈ l1 ↔ r ∈ l2) :
    unionMask l1 d = unionMask l2 d := by
  apply Nat.eq_of_testBit_eq
  intro k
  have h1 := unionMask_testBit d k l1
  have h2 := unionMask_testBit d k l2
  have h3 : (∃ r ∈ l1, (siteMask r d).testBit k = true) ↔
      (∃ r ∈ l2, (siteMask r d).testBit k = true) :=
    ⟨fun ⟨r, hr, hk⟩ => ⟨r, (h r).mp hr, hk⟩, fun ⟨r, hr, hk⟩ => ⟨r, (h r).mpr hr, hk⟩⟩
  cases ha : (unionMask l1 d).testBit k <;> cases hb : (unionMask l2 d).testBit k
  · rfl
  · exact absurd (h1.mpr (h3.mpr (h2.mp hb))) (by rw [ha]; decide)
  · exact absurd (h2.mpr (h3.mp (h1.mp ha))) (by rw [hb]; decide)
  · rfl

theorem hasConsistentDims_iff_pairwise (infos : List AccessInfo) :
    hasConsistentDims infos = true ↔
      infos ≠ [] ∧ ∀ r1 ∈ infos, ∀ r2 ∈ infos, r1.getNumDims = r2.getNumDims := by
  rw [hasConsistentDims_iff]
  constructor
  · rintro ⟨first, rest, rfl, hall⟩
    exact ⟨List.cons_ne_nil _ _, fun r1 h1 r2 h2 => (hall r1 h1).trans (hall r2 h2).symm⟩
  · rintro ⟨hne, hall⟩
    cases infos with
    | nil => exact absurd rfl hne
    | cons first rest =>
      exact ⟨first, rest, rfl, fun r hr => hall r hr first (List.mem_cons_self _ _)⟩

theorem hasConsistentDims_congr (l1 l2 : List AccessInfo) (h : ∀ r, r ∈ l1 ↔ r ∈ l2) :
    hasConsistentDims l1 = hasConsistentDims l2 := by
  have hne : l1 ≠ [] ↔ l2 ≠ [] := by
    constructor
    · intro h1 h2
      cases l1 with
      | nil => exact h1 rfl
      | cons a as =>
        have := (h a).mp (List.mem_cons_self _ _)
        rw [h2] at this
        cases this
    · intro h2 h1
      cases l2 with
      | nil => exact h2 rfl
      | cons a as =>
        have := (h a).mpr (List.mem_cons_self _ _)
        rw [h1] at this
        cases this
  have hiff : hasConsistentDims l1 = true ↔ hasConsistentDims l2 = true := by
    rw [hasConsistentDims_iff_pairwise, hasConsistentDims_iff_pairwise, hne]
    constructor
    · rintro ⟨h0, hall⟩
      exact ⟨h0, fun r1 h1 r2 h2 => hall r1 ((h r1).mpr h1) r2 ((h r2).mpr h2)⟩
    · rintro ⟨h0, hall⟩
      exact ⟨h0, fun r1 h1 r2 h2 => hall r1 ((h r1).mp h1) r2 ((h r2).mp h2)⟩
  cases ha : hasConsistentDims l1 <;> cases hb : hasConsistentDims l2
  · rfl
  · exact absurd (hiff.mpr hb) (by rw [ha]; decide)
  · exact absurd (hiff.mp ha) (by rw [hb]; decide)
  · rfl

theorem mem_insert_copy (pre post : List AccessInfo) (r : AccessInfo) (hr : r ∈ pre ++ post) :
    ∀ x, x ∈ pre ++ r :: post ↔ x ∈ pre ++ post := by
  intro x
  simp only [List.mem_append, List.mem_cons] at hr ⊢
  constructor
  · rintro (h | h | h)
    · exact Or.inl h
    · rw [h]; exact hr
    · exact Or.inr h
  · rintro (h | h)
    · exact Or.inl h
    · exact Or.inr (Or.inr h)

/-- The loop over the arrays makes the same calls when one entry is replaced by an entry
with the same calls. -/
theorem insertArrays_congr (E : Env) (argMap : List (Nat × Nat)) (rs ws : List Nat)
    (x y : Nat × List AccessInfo) (F2 : ArrayInfoMap)
    (h : arrayFacts E argMap rs ws x = arrayFacts E argMap rs ws y) :
    ∀ (F1 : ArrayInfoMap) (run : Run),
      insertArrays E argMap rs ws (F1 ++ x :: F2) run =
        insertArrays E argMap rs ws (F1 ++ y :: F2) run := by
  intro F1
  induction F1 with
  | nil =>
    intro run
    simp only [List.nil_append, insertArrays, h]
  | cons a rest ih =>
    intro run
    simp only [List.cons_append, insertArrays]
    cases arrayFacts E argMap rs ws a with
    | none => rfl
    | some facts => exact ih _

/-- C36: for a record list L and a record r of L, the list with an extra copy of r (at any
position) has the same `hasConsistentDims`, the same `getArrayMask` for every dimension
and, when the dimension counts are consistent, the same reported dimension count as L; the
calls made for the array, and so the whole sequence of calls on the sink, are identical. -/
theorem duplicate_record_same_facts (E : Env) (argMap : List (Nat × Nat)) (rs ws : List Nat)
    (key : Nat) (pre post : List AccessInfo) (r : AccessInfo) (hr : r ∈ pre ++ post) :
    hasConsistentDims (pre ++ r :: post) = hasConsistentDims (pre ++ post) ∧
    (∀ d, getArrayMask (pre ++ r :: post) d = getArrayMask (pre ++ post) d) ∧
    (hasConsistentDims (pre ++ post) = true →
      (pre ++ r :: post).head?.map AccessInfo.getNumDims =
        (pre ++ post).head?.map AccessInfo.getNumDims) ∧
    arrayFacts E argMap rs ws (key, pre ++ r :: post) =
      arrayFacts E argMap rs ws (key, pre ++ post) ∧
    (∀ sink fn F1 F2,
      insertCUDArrayInfo E sink fn (F1 ++ (key, pre ++ r :: post) :: F2) argMap rs ws =
        insertCUDArrayInfo E sink fn (F1 ++ (key, pre ++ post) :: F2) argMap rs ws) := by
  have hmem := mem_insert_copy pre post r hr
  have hcons := hasConsistentDims_congr _ _ hmem
  have hmask : ∀ d, getArrayMask (pre ++ r :: post) d = getArrayMask (pre ++ post) d := by
    intro d
    rw [getArrayMask_eq_unionMask, getArrayMask_eq_unionMask]
    exact unionMask_congr d _ _ hmem
  have hhead : hasConsistentDims (pre ++ post) = true →
      (pre ++ r :: post).head?.map AccessInfo.getNumDims =
        (pre ++ post).head?.map AccessInfo.getNumDims := by
    intro hc
    obtain ⟨_, hall⟩ := (hasConsistentDims_iff_pairwise _).mp hc
    cases h1 : (pre ++ r :: post) with
    | nil => cases pre <;> cases h1
    | cons a as =>
      cases h2 : (pre ++ post) with
      | nil =>
        rw [h2] at hr
        cases hr
      | cons b bs =>
        have ha : a ∈ pre ++ post := (hmem a).mp (by rw [h1]; exact List.mem_cons_self _ _)
        have hb : b ∈ pre ++ post := by rw [h2]; exact List.mem_cons_self _ _
        simp only [List.head?_cons, Option.map_some']
        rw [hall a ha b hb]
  have hfacts : arrayFacts E argMap rs ws (key, pre ++ r :: post) =
      arrayFacts E argMap rs ws (key, pre ++ post) := by
    by_cases h1 : isAlloca E key = true
    · cases h2 : argMap.lookup key with
      | none =>
        rw [(arrayFacts_eq_none_iff E argMap rs ws _).mpr (Or.inr (Or.inl h2)),
          (arrayFacts_eq_none_iff E argMap rs ws _).mpr (Or.inr (Or.inl h2))]
      | some arg =>
        cases h3 : hasConsistentDims (pre ++ post) with
        | false =>
          rw [(arrayFacts_eq_none_iff E argMap rs ws _).mpr
              (Or.inr (Or.inr (hcons.trans h3))),
            (arrayFacts_eq_none_iff E argMap rs ws _).mpr (Or.inr (Or.inr h3))]
        | true =>
          have hd : ∀ l : List AccessInfo, dimFacts arg l =
              fun i => expectedDimFacts arg (getArrayMask l i) i :=
            fun l => funext fun i => dimFacts_eq arg l i
          have hh := hhead h3
          have hm : (fun i => expectedDimFacts arg (getArrayMask (pre ++ r :: post) i) i) =
              fun i => expectedDimFacts arg (getArrayMask (pre ++ post) i) i :=
            funext fun i => by rw [hmask i]
          simp only [arrayFacts, h1, if_true, h2, h3, hcons.trans h3, hd, hm]
          cases h4 : (pre ++ r :: post).head? with
          | none =>
            cases h5 : (pre ++ post).head? with
            | none => rfl
            | some b =>
              rw [h4, h5] at hh
              cases hh
          | some a =>
            cases h5 : (pre ++ post).head? with
            | none =>
              rw [h4, h5] at hh
              cases hh
            | some b =>
              rw [h4, h5] at hh
              have hab : a.getNumDims = b.getNumDims := Option.some.inj hh
              simp only [hab]
    · have h1b : isAlloca E key = false := by simpa using h1
      rw [(arrayFacts_eq_none_iff E argMap rs ws _).mpr (Or.inl h1b),
        (arrayFacts_eq_none_iff E argMap rs ws _).mpr (Or.inl h1b)]
  refine ⟨hcons, hmask, hhead, hfacts, ?_⟩
  intro sink fn F1 F2
  unfold insertCUDArrayInfo
  exact insertArrays_congr E argMap rs ws _ _ F2 hfacts F1 _

/-- C36 (witness): on `kernelBxTy`, the array in slot 3 with its record listed twice gives the
same calls as with the record listed once. -/
theorem duplicate_record_same_facts_witness :
    arrayFacts kernelBxTy [(3, 7)] [3] []
        (3, [{ base_ := [⟨.unknown 5, 0, "t.y", 0⟩, ⟨.unknown 4, 1, "b.x", 1⟩],
               dynarray_ := 3, dim_ := 2, write_ := true }] ++
          { base_ := [⟨.unknown 5, 0, "t.y", 0⟩, ⟨.unknown 4, 1, "b.x", 1⟩],
            dynarray_ := 3, dim_ := 2, write_ := true } :: []) =
      arrayFacts kernelBxTy [(3, 7)] [3] []
        (3, [{ base_ := [⟨.unknown 5, 0, "t.y", 0⟩, ⟨.unknown 4, 1, "b.x", 1⟩],
               dynarray_ := 3, dim_ := 2, write_ := true }] ++ []) ∧
    arrayFacts kernelBxTy [(3, 7)] [3] []
        (3, [{ base_ := [⟨.unknown 5, 0, "t.y", 0⟩, ⟨.unknown 4, 1, "b.x", 1⟩],
               dynarray_ := 3, dim_ := 2, write_ := true }]) =
      some [Fact.setArrayInfo 7 2 true false, Fact.setArrayDimInfo 7 1 0] :=
  ⟨(duplicate_record_same_facts kernelBxTy [(3, 7)] [3] [] 3 _ [] _
      (List.mem_append_left _ (List.mem_singleton.mpr rfl))).2.2.2.1,
   by decide⟩

theorem DimInfo_new_dim (E : Env) (tbl : Translations) (fuel : Nat) (scev : SCEV) (dim : Nat)
    (d : DimInfo) (h : DimInfo.new E tbl fuel scev dim = .ok d) : d.dim = dim := by
  unfold DimInfo.new at h
  cases hr : getDimInfoSCEV E tbl orMask fuel scev false DimNone with
  | ok a =>
    rw [hr] at h
    simp only [Res.bind, Res.ok.injEq] at h
    rw [← h]
  | fatal => rw [hr] at h; cases h
  | timeout => rw [hr] at h; cases h

/-- In a list whose entry at index `j` has the dimension field `o + j`, the entries with
dimension field `d` are the entry at index `d - o`. -/
theorem filter_dim_of_indexed :
    ∀ (l : List DimInfo) (o d : Nat),
      (∀ (j : Nat) (di : DimInfo), l[j]? = some di → di.dim = o + j) → o ≤ d →
      l.filter (fun di => di.dim == d) = (l[d - o]?).toList := by
  intro l
  induction l with
  | nil => intro o d _ _; rfl
  | cons x xs ih =>
    intro o d h hod
    have hx : x.dim = o := by
      have := h 0 x (by simp)
      simpa using this
    have hxs : ∀ (j : Nat) (di : DimInfo), xs[j]? = some di → di.dim = (o + 1) + j := by
      intro j di hj
      have := h (j + 1) di (by simpa using hj)
      omega
    by_cases hd : d = o
    · subst hd
      have hnone : xs.filter (fun di => di.dim == d) = [] := by
        rw [List.filter_eq_nil_iff]
        intro di hdi hc
        obtain ⟨j, hj⟩ := List.getElem?_of_mem hdi
        have := hxs j di hj
        have hc2 : di.dim = d := by simpa using hc
        omega
      rw [List.filter_cons_of_pos (by simpa using hx), hnone, Nat.sub_self]
      simp
    · have hlt : o + 1 ≤ d := by omega
      rw [List.filter_cons_of_neg (by simpa [hx] using fun h => hd h.symm), ih (o + 1) d hxs hlt]
      have e : d - o = (d - (o + 1)) + 1 := by omega
      rw [e, List.getElem?_cons_succ]

theorem siteMask_eq_maskAt (r : AccessInfo) (hw : WellIndexed r) (d : Nat) :
    siteMask r d = maskAt r d := by
  unfold siteMask maskAt
  rw [filter_dim_of_indexed r.base_ 0 d (fun j di hj => by rw [hw j di hj, Nat.zero_add])
    (Nat.zero_le d), Nat.sub_zero]
  cases r.base_[d]? with
  | none => rfl
  | some di => simp

theorem unionMask_eq_indexMask (records : List AccessInfo) (hw : ∀ r ∈ records, WellIndexed r)
    (d : Nat) : unionMask records d = indexMask records d := by
  unfold unionMask indexMask
  induction records with
  | nil => rfl
  | cons x xs ih =>
    simp only [List.map_cons, List.foldr_cons]
    rw [siteMask_eq_maskAt x (hw x (List.mem_cons_self _ _)) d,
      ih (fun r hr => hw r (List.mem_cons_of_mem _ hr))]

/-- C40: an access record returned by the constructor with dimension count n has a dimension
list of length n whose entry at every index d < n has its dimension field equal to d (so
every entry of the list has its dimension field equal to its index); for records with this
property `getArrayMask(records, d)` is the union of the masks of the entries stored at
index d. -/
theorem dimension_field_equals_index (E : Env) (t0 : Translations) (fuel dynarray cv : Nat)
    (args : List Nat) (loop : Option Nat) (w : Bool) (r : AccessInfo) (tbl : Translations)
    (h : AccessInfo.new E t0 fuel dynarray cv args loop w = .ok (r, tbl)) :
    r.getDimInfo.length = r.getNumDims ∧
    (∀ d, d < r.getNumDims → ∃ di, r.getDimInfo[d]? = some di ∧ di.dim = d) ∧
    WellIndexed r ∧
    (∀ (records : List AccessInfo) (d : Nat), (∀ x ∈ records, WellIndexed x) →
      getArrayMask records d = indexMask records d) := by
  have hmain : r.base_.length = r.dim_ ∧
      ∀ d, d < r.dim_ → ∃ di, r.base_[d]? = some di ∧ di.dim = d := by
    unfold AccessInfo.new at h
    cases hc : getCalledFunction E cv with
    | none => rw [hc] at h; cases h
    | some fi =>
      rw [hc] at h
      simp only at h
      split at h
      · cases h
      · cases hb : fillDims E (initFunctionTranslations t0) fuel cv args
            ((fi.2.argSize - 1) % 2 ^ 32) (List.range ((fi.2.argSize - 1) % 2 ^ 32))
            (List.replicate ((fi.2.argSize - 1) % 2 ^ 32) DimInfo.default) with
        | fatal => rw [hb] at h; cases h
        | timeout => rw [hb] at h; cases h
        | ok base =>
          rw [hb] at h
          simp only [Res.bind, Res.ok.injEq, Prod.mk.injEq] at h
          obtain ⟨hr, _⟩ := h
          subst hr
          obtain ⟨hlen, hset, _⟩ := fillDims_spec E _ fuel cv args
            ((fi.2.argSize - 1) % 2 ^ 32) (List.range ((fi.2.argSize - 1) % 2 ^ 32))
            (List.replicate ((fi.2.argSize - 1) % 2 ^ 32) DimInfo.default) base
            (fun i hi => List.mem_range.mp hi) (List.nodup_range _) hb
          rw [List.length_replicate] at hlen hset
          refine ⟨hlen, ?_⟩
          intro d hd
          simp only at hd
          obtain ⟨val, di, _, hnew, hget⟩ := hset ((fi.2.argSize - 1) % 2 ^ 32 - 1 - d)
            (List.mem_range.mpr (by omega)) (by omega)
          have e : (fi.2.argSize - 1) % 2 ^ 32 -
              ((fi.2.argSize - 1) % 2 ^ 32 - 1 - d + 1) = d := by omega
          rw [e] at hnew hget
          exact ⟨di, hget, DimInfo_new_dim E _ fuel _ d di hnew⟩
  have hwi : WellIndexed r := by
    intro j di hj
    have hjlt : j < r.base_.length := by
      by_contra hge
      rw [List.getElem?_eq_none (by omega)] at hj
      cases hj
    obtain ⟨di2, h2, h3⟩ := hmain.2 j (by rw [← hmain.1]; exact hjlt)
    rw [hj] at h2
    rw [Option.some.inj h2]
    exact h3
  refine ⟨hmain.1, hmain.2, hwi, ?_⟩
  intro records d hw
  rw [getArrayMask_eq_unionMask]
  exact unionMask_eq_indexMask records hw d

/-- C40 (witness): the record of the access `arr(blockIdx.x, threadIdx.y)` of `kernelBxTy`
has two entries, with dimension fields 0 and 1. -/
theorem dimension_field_equals_index_witness :
    AccessInfo.new kernelBxTy [] 2 3 2 [3, 4, 5] none true =
      .ok ({ base_ := [⟨.unknown 5, 0, "t.y", 0⟩, ⟨.unknown 4, 1, "b.x", 1⟩],
             dynarray_ := 3, dim_ := 2, write_ := true }, cudaTable) ∧
    WellIndexed { base_ := [⟨.unknown 5, 0, "t.y", 0⟩, ⟨.unknown 4, 1, "b.x", 1⟩],
                  dynarray_ := 3, dim_ := 2, write_ := true } :=
  ⟨rfl, (dimension_field_equals_index kernelBxTy [] 2 3 2 [3, 4, 5] none true
    { base_ := [⟨.unknown 5, 0, "t.y", 0⟩, ⟨.unknown 4, 1, "b.x", 1⟩],
      dynarray_ := 3, dim_ := 2, write_ := true } cudaTable rfl).2.2.1⟩

theorem contains_append_left (s t p : String) (h : Contains s p) : Contains (s ++ t) p := by
  unfold Contains at h ⊢
  rw [String.data_append]
  exact h.trans (List.prefix_append _ _).isInfix

theorem contains_append_right (s t p : String) (h : Contains t p) : Contains (s ++ t) p := by
  unfold Contains at h ⊢
  rw [String.data_append]
  exact h.trans (List.suffix_append _ _).isInfix

theorem contains_self (s : String) : Contains s s := List.infix_refl _

theorem bind_eq_ok {α β : Type} (r : Res α) (k : α → Res β) (b : β) :
    r.bind k = .ok b ↔ ∃ a, r = .ok a ∧ k a = .ok b := by
  cases r with
  | ok a => simp [Res.bind]
  | fatal => simp [Res.bind]
  | timeout => simp [Res.bind]

theorem named_refl (m : Nat) (s : String) : Named m s m := fun _ _ h => Or.inl h

theorem named_mono (m m1 : Nat) (s1 s : String) (h1 : Named m s1 m1)
    (hs : ∀ p, Contains s1 p → Contains s p) : Named m s m1 := by
  intro axis ha hb
  rcases h1 axis ha hb with h | h
  · exact Or.inl h
  · exact Or.inr (hs _ h)

theorem named_step (m m1 m2 : Nat) (s1 s2 s : String) (h1 : Named m s1 m1)
    (h2 : Named m1 s2 m2) (hs1 : ∀ p, Contains s1 p → Contains s p)
    (hs2 : ∀ p, Contains s2 p → Contains s p) : Named m s m2 := by
  intro axis ha hb
  rcases h2 axis ha hb with h | h
  · rcases h1 axis ha h with h' | h'
    · exact Or.inl h'
    · exact Or.inr (hs1 _ h')
  · exact Or.inr (hs2 _ h)

/-- The update of the mask in `getFunctionName` adds an axis bit only with the short name of
the block-id register of that axis as the formula. -/
theorem orMask_named (raw translated : String) (m : Nat) :
    Named m translated (orMask raw translated m) := by
  intro axis ha hb
  unfold orMask at hb
  have hbit : ∀ (k : Nat), (m ||| 2 ^ k).testBit axis = true →
      m.testBit axis = true ∨ axis = k := by
    intro k h
    rw [Nat.testBit_or, Bool.or_eq_true, Nat.testBit_two_pow] at h
    rcases h with h | h
    · exact Or.inl h
    · have hk : k = axis := by simpa using h
      exact Or.inr hk.symm
  split at hb
  · rename_i ht
    have ht' : translated = "b.x" := by simpa using ht
    rcases hbit 0 hb with h | h
    · exact Or.inl h
    · right
      rw [h, ht']
      exact contains_self _
  · split at hb
    · rename_i ht
      have ht' : translated = "b.y" := by simpa using ht
      rcases hbit 1 hb with h | h
      · exact Or.inl h
      · right
        rw [h, ht']
        exact contains_self _
    · split at hb
      · rename_i ht
        have ht' : translated = "b.z" := by simpa using ht
        rcases hbit 2 hb with h | h
        · exact Or.inl h
        · right
          rw [h, ht']
          exact contains_self _
      · exact Or.inl hb

theorem getFunctionName_bitsNamed (E : Env) (tbl : Translations) (cv : Nat) (args : List Nat)
    (m : Nat) : BitsNamed m (getFunctionName E tbl orMask cv args m) := by
  intro s m' h
  have hsame : ∀ (t : String), (Res.ok (t, m) : Res (String × Nat)) = .ok (s, m') →
      Named m s m' := by
    intro t ht
    have := Prod.mk.inj (Res.ok.inj ht)
    rw [← this.2]
    exact named_refl _ _
  unfold getFunctionName at h
  split at h
  · cases h
  · split at h
    · have := Prod.mk.inj (Res.ok.inj h)
      rw [← this.1, ← this.2]
      exact orMask_named _ _ _
    · split at h
      · split at h
        · split at h
          · cases h
          · split at h
            · exact hsame _ h
            · exact hsame _ h
        · exact hsame _ h
      · exact hsame _ h

theorem renderLoop_bitsNamed {α : Type} (f : α → Nat → Res (String × Nat)) (sep last : String)
    (n : Nat) (hf : ∀ x m, BitsNamed m (f x m)) :
    ∀ (xs : List α) (i m : Nat), BitsNamed m (renderLoop f sep last n xs i m) := by
  intro xs
  induction xs with
  | nil =>
    intro i m s m' h
    have := Prod.mk.inj (Res.ok.inj h)
    rw [← this.2]
    exact named_refl _ _
  | cons x xs ih =>
    intro i m s m' h
    unfold renderLoop at h
    rw [bind_eq_ok] at h
    obtain ⟨⟨s1, m1⟩, h1, h⟩ := h
    rw [bind_eq_ok] at h
    obtain ⟨⟨s2, m2⟩, h2, h⟩ := h
    have := Prod.mk.inj (Res.ok.inj h)
    rw [← this.1, ← this.2]
    exact named_step m m1 m2 s1 s2 _ (hf x m s1 m1 h1) (ih (i + 1) m1 s2 m2 h2)
      (fun p hp => contains_append_left _ _ _ (contains_append_left _ _ _ hp))
      (fun p hp => contains_append_right _ _ _ hp)

theorem stepV_bitsNamed (E : Env) (tbl : Translations)
    (recV : Nat → Bool → Nat → Res (String × Nat))
    (hrec : ∀ v p m, BitsNamed m (recV v p m)) :
    ∀ v p m, BitsNamed m (stepV E tbl orMask recV v p m) := by
  intro v p m s m' h
  have hsame : ∀ (t : String), (Res.ok (t, m) : Res (String × Nat)) = .ok (s, m') →
      Named m s m' := by
    intro t ht
    have := Prod.mk.inj (Res.ok.inj ht)
    rw [← this.2]
    exact named_refl _ _
  unfold stepV at h
  cases hn : (E.ir v).node with
  | null => simp only [hn] at h; exact hsame _ h
  | call cv args =>
    simp only [hn] at h
    split at h
    · exact getFunctionName_bitsNamed E tbl cv args m s m' h
    · split at h
      · exact getFunctionName_bitsNamed E tbl cv args m s m' h
      · split at h
        · exact getFunctionName_bitsNamed E tbl cv args m s m' h
        · split at h
          · cases h
          · split at h
            · exact hsame _ h
            · exact getFunctionName_bitsNamed E tbl cv args m s m' h
  | extractValue agg indices =>
    simp only [hn] at h
    split at h
    · cases h
    · split at h
      · split at h
        · cases h
        · split at h
          · cases h
          · exact hsame _ h
      · exact hrec _ _ _ s m' h
    · exact hrec _ _ _ s m' h
  | extractElement => simp only [hn] at h; cases h
  | getElementPtr ptr => simp only [hn] at h; exact hrec _ _ _ s m' h
  | cast b op0 => simp only [hn] at h; exact hrec _ _ _ s m' h
  | load ptr => simp only [hn] at h; exact hrec _ _ _ s m' h
  | alloca => simp only [hn] at h; exact hsame _ h
  | constantInt w b => simp only [hn] at h; exact hsame _ h
  | constantArray => simp only [hn] at h; cases h
  | constantStruct => simp only [hn] at h; cases h
  | constantVector => simp only [hn] at h; cases h
  | function info => simp only [hn] at h; exact hsame _ h
  | globalVariable => simp only [hn] at h; exact hsame _ h
  | undefValue => simp only [hn] at h; cases h
  | constantDataSequential => simp only [hn] at h; cases h
  | constantExpr opcode operands =>
    simp only [hn] at h
    split at h
    · cases h
    · split at h
      · rw [bind_eq_ok] at h
        obtain ⟨⟨s1, m1⟩, h1, h⟩ := h
        have hn1 := hrec _ _ _ s1 m1 h1
        split at h
        · split at h
          · cases h
          · split at h
            · split at h
              · cases h
              · have := Prod.mk.inj (Res.ok.inj h)
                rw [← this.1, ← this.2]
                exact named_mono m m1 s1 _ hn1
                  (fun q hq => contains_append_left _ _ _ (contains_append_left _ _ _ hq))
            · cases h
        · have := Prod.mk.inj (Res.ok.inj h)
          rw [← this.1, ← this.2]
          exact hn1
      · exact renderLoop_bitsNamed _ _ _ _ (fun x m0 => hrec x p m0) _ _ _ s m' h
  | constantOther => simp only [hn] at h; exact hsame _ h
  | inst opcode pred operands =>
    simp only [hn] at h
    split at h
    · rw [bind_eq_ok] at h
      obtain ⟨⟨s1, m1⟩, h1, h⟩ := h
      split at h
      · cases h
      · rw [bind_eq_ok] at h
        obtain ⟨⟨s2, m2⟩, h2, h⟩ := h
        have := Prod.mk.inj (Res.ok.inj h)
        rw [← this.1, ← this.2]
        exact named_step m m1 m2 s1 s2 _ (hrec _ _ _ s1 m1 h1) (hrec _ _ _ s2 m2 h2)
          (fun q hq => contains_append_left _ _ _ (contains_append_left _ _ _
            (contains_append_left _ _ _ (contains_append_right _ _ _ hq))))
          (fun q hq => contains_append_left _ _ _ (contains_append_right _ _ _ hq))
    · cases h
  | phi incoming =>
    simp only [hn] at h
    split at h
    · rw [bind_eq_ok] at h
      obtain ⟨⟨s1, m1⟩, h1, h⟩ := h
      have := Prod.mk.inj (Res.ok.inj h)
      rw [← this.1, ← this.2]
      exact named_mono m m1 s1 _
        (renderLoop_bitsNamed _ _ _ _ (fun x m0 => hrec x true m0) _ _ _ s1 m1 h1)
        (fun q hq => contains_append_left _ _ _ (contains_append_right _ _ _ hq))
    · exact hsame _ h
  | argument ty => simp only [hn] at h; exact hsame _ h
  | other => simp only [hn] at h; cases h

theorem stepS_bitsNamed (E : Env) (recV : Nat → Bool → Nat → Res (String × Nat))
    (recS : SCEV → Bool → Nat → Res (String × Nat))
    (hrecV : ∀ v p m, BitsNamed m (recV v p m))
    (hrecS : ∀ e p m, BitsNamed m (recS e p m)) :
    ∀ e p m, BitsNamed m (stepS E recV recS e p m) := by
  intro e p m s m' h
  have hsame : ∀ (t : String), (Res.ok (t, m) : Res (String × Nat)) = .ok (s, m') →
      Named m s m' := by
    intro t ht
    have := Prod.mk.inj (Res.ok.inj ht)
    rw [← this.2]
    exact named_refl _ _
  have hloop : ∀ (sep last : String) (n : Nat) (xs : List SCEV) (s1 : String) (m1 : Nat),
      renderLoop (fun x st => recS x p st) sep last n xs 0 m = .ok (s1, m1) →
      Named m s1 m1 :=
    fun sep last n xs s1 m1 h1 =>
      renderLoop_bitsNamed _ sep last n (fun x m0 => hrecS x p m0) xs 0 m s1 m1 h1
  cases e with
  | null => exact hsame _ h
  | unknown v => exact hrecV _ _ _ s m' h
  | constant w b => exact hsame _ h
  | udiv l r =>
    simp only [stepS] at h
    rw [bind_eq_ok] at h
    obtain ⟨⟨s1, m1⟩, h1, h⟩ := h
    rw [bind_eq_ok] at h
    obtain ⟨⟨s2, m2⟩, h2, h⟩ := h
    have := Prod.mk.inj (Res.ok.inj h)
    rw [← this.1, ← this.2]
    exact named_step m m1 m2 s1 s2 _ (hrecS _ _ _ s1 m1 h1) (hrecS _ _ _ s2 m2 h2)
      (fun q hq => contains_append_left _ _ _ (contains_append_left _ _ _
        (contains_append_left _ _ _ (contains_append_right _ _ _ hq))))
      (fun q hq => contains_append_left _ _ _ (contains_append_right _ _ _ hq))
  | addRec operands loop =>
    simp only [stepS] at h
    split at h
    · cases h
    · rw [bind_eq_ok] at h
      obtain ⟨⟨s1, m1⟩, h1, h⟩ := h
      have hn1 := hrecS _ _ _ s1 m1 h1
      have hhead : ∀ (a q : String), Contains s1 q → Contains (a ++ ("<" ++ s1 ++ " : ")) q :=
        fun a q hq => contains_append_right _ _ _
          (contains_append_left _ _ _ (contains_append_right _ _ _ hq))
      have hthree : ∀ (hd sb st : String) (mb mt : Nat),
          (∀ q, Contains s1 q → Contains hd q) → Named m1 sb mb → Named mb st mt →
          Named m (hd ++ sb ++ " , " ++ st ++ ">") mt := by
        intro hd sb st mb mt hhd hb ht
        have h12 : Named m (hd ++ sb ++ " , " ++ st ++ ">") mb :=
          named_step m m1 mb s1 sb _ hn1 hb
            (fun q hq => contains_append_left _ _ _ (contains_append_left _ _ _
              (contains_append_left _ _ _ (contains_append_left _ _ _ (hhd q hq)))))
            (fun q hq => contains_append_left _ _ _ (contains_append_left _ _ _
              (contains_append_left _ _ _ (contains_append_right _ _ _ hq))))
        exact named_step m mb mt _ st _ h12 ht (fun q hq => hq)
          (fun q hq => contains_append_left _ _ _ (contains_append_right _ _ _ hq))
      by_cases hcond : (!E.hasLoopInvariantBackedgeTakenCount loop ||
          isCouldNotCompute (if E.hasLoopInvariantBackedgeTakenCount loop = true then
            E.getBackedgeTakenCount loop else E.getMaxBackedgeTakenCount loop)) = true
      · rw [if_pos hcond] at h
        cases hl : (E.loops loop).latch with
        | none =>
          simp only [hl] at h
          cases h
        | some block =>
          simp only [hl] at h
          cases hb : block.find? (fun i => isBranchInst (E.ir i).node) with
          | none =>
            simp only [hb] at h
            have := Prod.mk.inj (Res.ok.inj h)
            rw [← this.1, ← this.2]
            exact named_mono m m1 s1 _ hn1
              (fun q hq => contains_append_left _ _ _ (hhead _ q hq))
          | some branch =>
            simp only [hb] at h
            split at h
            · split at h
              · cases h
              · split at h
                · cases h
                · rw [bind_eq_ok] at h
                  obtain ⟨⟨sb, mb⟩, hbd, h⟩ := h
                  rw [bind_eq_ok] at h
                  obtain ⟨⟨st, mt⟩, ht, h⟩ := h
                  have := Prod.mk.inj (Res.ok.inj h)
                  rw [← this.1, ← this.2]
                  exact hthree _ sb st mb mt (fun q hq => hhead _ q hq)
                    (hrecV _ _ _ sb mb hbd) (hrecS _ _ _ st mt ht)
            · cases h
      · rw [if_neg hcond] at h
        rw [bind_eq_ok] at h
        obtain ⟨⟨sb, mb⟩, hb, h⟩ := h
        rw [bind_eq_ok] at h
        obtain ⟨⟨st, mt⟩, ht, h⟩ := h
        have := Prod.mk.inj (Res.ok.inj h)
        rw [← this.1, ← this.2]
        exact hthree _ sb st mb mt (fun q hq => hhead _ q hq)
          (hrecS _ _ _ sb mb hb) (hrecS _ _ _ st mt ht)
  | mul operands =>
    simp only [stepS] at h
    rw [bind_eq_ok] at h
    obtain ⟨⟨s1, m1⟩, h1, h⟩ := h
    have := Prod.mk.inj (Res.ok.inj h)
    rw [← this.1, ← this.2]
    exact named_mono m m1 s1 _ (hloop _ _ _ _ s1 m1 h1)
      (fun q hq => contains_append_left _ _ _ (contains_append_right _ _ _ hq))
  | add operands =>
    simp only [stepS] at h
    rw [bind_eq_ok] at h
    obtain ⟨⟨s1, m1⟩, h1, h⟩ := h
    have := Prod.mk.inj (Res.ok.inj h)
    rw [← this.1, ← this.2]
    exact named_mono m m1 s1 _ (hloop _ _ _ _ s1 m1 h1)
      (fun q hq => contains_append_left _ _ _ (contains_append_right _ _ _ hq))
  | smax operands =>
    simp only [stepS] at h
    rw [bind_eq_ok] at h
    obtain ⟨⟨s1, m1⟩, h1, h⟩ := h
    have := Prod.mk.inj (Res.ok.inj h)
    rw [← this.1, ← this.2]
    exact named_mono m m1 s1 _ (hloop _ _ _ _ s1 m1 h1)
      (fun q hq => contains_append_right _ _ _ hq)
  | umax operands =>
    simp only [stepS] at h
    rw [bind_eq_ok] at h
    obtain ⟨⟨s1, m1⟩, h1, h⟩ := h
    have := Prod.mk.inj (Res.ok.inj h)
    rw [← this.1, ← this.2]
    exact named_mono m m1 s1 _ (hloop _ _ _ _ s1 m1 h1)
      (fun q hq => contains_append_right _ _ _ hq)
  | cast kind operand => exact hrecS _ _ _ s m' h
  | couldNotCompute => exact hsame _ h

theorem getDimInfo_bitsNamed (E : Env) (tbl : Translations) :
    ∀ (fuel v : Nat) (p : Bool) (m : Nat),
      BitsNamed m (getDimInfo E tbl orMask fuel v p m) := by
  intro fuel
  induction fuel with
  | zero => intro v p m s m' h; cases h
  | succ n ih => exact stepV_bitsNamed E tbl _ ih

theorem getDimInfoSCEV_bitsNamed (E : Env) (tbl : Translations) :
    ∀ (fuel : Nat) (e : SCEV) (p : Bool) (m : Nat),
      BitsNamed m (getDimInfoSCEV E tbl orMask fuel e p m) := by
  intro fuel
  induction fuel with
  | zero => intro e p m s m' h; cases h
  | succ n ih => exact stepS_bitsNamed E _ _ (getDimInfo_bitsNamed E tbl n) ih

/-- C37: for every dimension record built from a dimension expression and each axis x, y,
z: if the mask of the record has the bit of the axis set, the formula of the record contains
"b.x", "b.y", "b.z" respectively. More generally each builder, entered with any mask, returns
a formula that names every axis bit it adds to the mask. -/
theorem mask_bit_implies_block_id_in_formula (E : Env) (tbl : Translations) (fuel : Nat)
    (scev : SCEV) (dim : Nat) (d : DimInfo)
    (h : DimInfo.new E tbl fuel scev dim = .ok d) :
    (d.mask.testBit 0 = true → Contains d.strAccess "b.x") ∧
    (d.mask.testBit 1 = true → Contains d.strAccess "b.y") ∧
    (d.mask.testBit 2 = true → Contains d.strAccess "b.z") ∧
    (∀ (g : Nat) (e : SCEV) (p : Bool) (m : Nat) (s : String) (m' : Nat),
      getDimInfoSCEV E tbl orMask g e p m = .ok (s, m') → Named m s m') ∧
    (∀ (g v : Nat) (p : Bool) (m : Nat) (s : String) (m' : Nat),
      getDimInfo E tbl orMask g v p m = .ok (s, m') → Named m s m') := by
  have hd : Named 0 d.strAccess d.mask := by
    unfold DimInfo.new at h
    rw [bind_eq_ok] at h
    obtain ⟨⟨s1, m1⟩, h1, h⟩ := h
    have := Res.ok.inj h
    rw [← this]
    exact getDimInfoSCEV_bitsNamed E tbl fuel scev false DimNone s1 m1 h1
  have hz : ∀ axis, (0 : Nat).testBit axis = false := fun axis => Nat.zero_testBit axis
  refine ⟨?_, ?_, ?_, fun g e p m s m' hg => getDimInfoSCEV_bitsNamed E tbl g e p m s m' hg,
    fun g v p m s m' hg => getDimInfo_bitsNamed E tbl g v p m s m' hg⟩
  · intro hb
    rcases hd 0 (by decide) hb with h0 | h0
    · rw [hz] at h0
      cases h0
    · exact h0
  · intro hb
    rcases hd 1 (by decide) hb with h0 | h0
    · rw [hz] at h0
      cases h0
    · exact h0
  · intro hb
    rcases hd 2 (by decide) hb with h0 | h0
    · rw [hz] at h0
      cases h0
    · exact h0

/-- C37 (witness): the dimension record of the value `by + 5` of `kernelPhi` has the mask
{Y} and the formula "(b.y + 5)", which contains "b.y". -/
theorem mask_bit_implies_block_id_in_formula_witness :
    DimInfo.new kernelPhi cudaTable 3 (.unknown 6) 0 =
      .ok { scev := .unknown 6, dim := 0, strAccess := "(b.y + 5)", mask := 2 } ∧
    ((2 : Nat).testBit 1 = true → Contains "(b.y + 5)" "b.y") :=
  ⟨rfl, (mask_bit_implies_block_id_in_formula kernelPhi cudaTable 3 (.unknown 6) 0
    { scev := .unknown 6, dim := 0, strAccess := "(b.y + 5)", mask := 2 } rfl).2.1⟩

theorem bind_ne_timeout {α β : Type} (r : Res α) (k : α → Res β) (hr : r ≠ .timeout)
    (hk : ∀ a, r = .ok a → k a ≠ .timeout) : r.bind k ≠ .timeout := by
  cases r with
  | ok a => exact hk a rfl
  | fatal => intro h; cases h
  | timeout => exact absurd rfl hr

theorem renderLoop_ne_timeout {α σ : Type} (f : α → σ → Res (String × σ)) (sep last : String)
    (n : Nat) :
    ∀ (xs : List α) (i : Nat) (st : σ), (∀ x ∈ xs, ∀ s, f x s ≠ .timeout) →
      renderLoop f sep last n xs i st ≠ .timeout := by
  intro xs
  induction xs with
  | nil => intro i st _ h; cases h
  | cons x xs ih =>
    intro i st hf
    unfold renderLoop
    apply bind_ne_timeout _ _ (hf x (List.mem_cons_self _ _) st)
    intro r _
    apply bind_ne_timeout _ _ (ih (i + 1) r.2 (fun y hy s => hf y (List.mem_cons_of_mem _ hy) s))
    intro t _ h
    cases h

theorem getFunctionName_ne_timeout {σ : Type} (E : Env) (tbl : Translations)
    (upd : String → String → σ → σ) (cv : Nat) (args : List Nat) (st : σ) :
    getFunctionName E tbl upd cv args st ≠ .timeout := by
  intro h
  unfold getFunctionName at h
  split at h
  · cases h
  · split at h
    · cases h
    · split at h
      · split at h
        · split at h
          · cases h
          · split at h
            · cases h
            · cases h
        · cases h
      · cases h

/-- One level of the Symbolic Formula Builder returns when the calls it makes return: the
calls on the operands of a value that is not a merge, and the calls inside a merge on the
incoming values of a merge met outside any merge. -/
theorem stepV_ne_timeout {σ : Type} (E : Env) (tbl : Translations)
    (upd : String → String → σ → σ) (recV : Nat → Bool → σ → Res (String × σ)) (v : Nat)
    (p : Bool) (st : σ)
    (hrec : ∀ w ∈ valueOperands E v, ∀ s, recV w p s ≠ .timeout)
    (hphi : ∀ incoming, (E.ir v).node = .phi incoming → p = false →
      ∀ w ∈ incoming, ∀ s, recV w true s ≠ .timeout) :
    stepV E tbl upd recV v p st ≠ .timeout := by
  unfold valueOperands at hrec
  unfold stepV
  cases hn : (E.ir v).node with
  | call cv args =>
    simp only
    split
    · exact getFunctionName_ne_timeout E tbl upd cv args st
    · split
      · exact getFunctionName_ne_timeout E tbl upd cv args st
      · split
        · exact getFunctionName_ne_timeout E tbl upd cv args st
        · split
          · intro h; cases h
          · split
            · intro h; cases h
            · exact getFunctionName_ne_timeout E tbl upd cv args st
  | extractValue agg indices =>
    rw [hn] at hrec
    have hagg := hrec agg (List.mem_singleton.mpr rfl)
    simp only
    split
    · intro h; cases h
    · split
      · split
        · intro h; cases h
        · split
          · intro h; cases h
          · intro h; cases h
      · exact hagg st
    · exact hagg st
  | getElementPtr ptr =>
    rw [hn] at hrec
    exact hrec ptr (List.mem_singleton.mpr rfl) st
  | cast b op0 =>
    rw [hn] at hrec
    exact hrec op0 (List.mem_singleton.mpr rfl) st
  | load ptr =>
    rw [hn] at hrec
    exact hrec ptr (List.mem_singleton.mpr rfl) st
  | constantExpr opcode operands =>
    rw [hn] at hrec
    simp only at hrec ⊢
    split
    · intro h; cases h
    · rename_i op0 hop0
      have hmem : op0 ∈ operands := List.mem_of_mem_head? hop0
      split
      · apply bind_ne_timeout _ _ (hrec op0 hmem st)
        intro r _
        split
        · split
          · intro h; cases h
          · split
            · split
              · intro h; cases h
              · intro h; cases h
            · intro h; cases h
        · intro h; cases h
      · exact renderLoop_ne_timeout _ _ _ _ operands 0 st (fun x hx s => hrec x hx s)
  | inst opcode pred operands =>
    rw [hn] at hrec
    simp only at hrec ⊢
    split
    · rename_i left right
      apply bind_ne_timeout _ _ (hrec left (List.mem_cons_self _ _) st)
      intro l _
      split
      · intro h; cases h
      · apply bind_ne_timeout _ _
          (hrec right (List.mem_cons_of_mem _ (List.mem_cons_self _ _)) l.2)
        intro r _ h
        cases h
    · intro h; cases h
  | phi incoming =>
    simp only
    split
    · rename_i hp
      have hp' : p = false := by simpa using hp
      apply bind_ne_timeout _ _
        (renderLoop_ne_timeout _ _ _ _ incoming 0 st (fun x hx s => hphi incoming hn hp' x hx s))
      intro r _ h
      cases h
    · intro h; cases h
  | _ => intro h; cases h

theorem mem_of_mem_addOrder (operands : List SCEV) (x : SCEV) (h : x ∈ addOrder operands) :
    x ∈ operands := by
  unfold addOrder at h
  simp only [List.mem_append, List.mem_filter] at h
  rcases h with (h | h) | h <;> exact h.1

/-- One level of the Evolution Formula Builder returns when the Symbolic Formula Builder
returns on every value and the calls on the sub-expressions return. -/
theorem stepS_ne_timeout {σ : Type} (E : Env) (recV : Nat → Bool → σ → Res (String × σ))
    (recS : SCEV → Bool → σ → Res (String × σ)) (e : SCEV) (p : Bool) (st : σ)
    (hV : ∀ v s, recV v p s ≠ .timeout)
    (hS : ∀ e' ∈ subexpressions E e, ∀ s, recS e' p s ≠ .timeout) :
    stepS E recV recS e p st ≠ .timeout := by
  cases e with
  | null => intro h; cases h
  | unknown v => exact hV v st
  | constant w b => intro h; cases h
  | udiv l r =>
    simp only [stepS]
    apply bind_ne_timeout _ _ (hS l (by simp [subexpressions]) st)
    intro a _
    apply bind_ne_timeout _ _ (hS r (by simp [subexpressions]) a.2)
    intro b _ h
    cases h
  | addRec operands loop =>
    simp only [stepS]
    cases hh : operands.head? with
    | none => intro h; cases h
    | some start =>
      have hsub : subexpressions E (.addRec operands loop) =
          start :: getStepRecurrence E operands loop ::
            (if E.hasLoopInvariantBackedgeTakenCount loop &&
                !isCouldNotCompute (E.getBackedgeTakenCount loop) then
              [E.getBackedgeTakenCount loop]
            else []) := by
        simp only [subexpressions, hh]
      rw [hsub] at hS
      have hstart := hS start (List.mem_cons_self _ _)
      have hstep := hS (getStepRecurrence E operands loop)
        (List.mem_cons_of_mem _ (List.mem_cons_self _ _))
      simp only
      apply bind_ne_timeout _ _ (hstart st)
      intro s _
      by_cases hcond : (!E.hasLoopInvariantBackedgeTakenCount loop ||
          isCouldNotCompute (if E.hasLoopInvariantBackedgeTakenCount loop = true then
            E.getBackedgeTakenCount loop else E.getMaxBackedgeTakenCount loop)) = true
      · rw [if_pos hcond]
        split
        · intro h; cases h
        · split
          · intro h; cases h
          · split
            · split
              · intro h; cases h
              · split
                · intro h; cases h
                · apply bind_ne_timeout _ _ (hV _ s.2)
                  intro b _
                  apply bind_ne_timeout _ _ (hstep b.2)
                  intro t _ h
                  cases h
            · intro h; cases h
      · rw [if_neg hcond]
        have hinv : E.hasLoopInvariantBackedgeTakenCount loop = true := by
          cases hi : E.hasLoopInvariantBackedgeTakenCount loop with
          | true => rfl
          | false => rw [hi] at hcond; exact absurd rfl hcond
        have hcnc : isCouldNotCompute (E.getBackedgeTakenCount loop) = false := by
          cases hc : isCouldNotCompute (E.getBackedgeTakenCount loop) with
          | false => rfl
          | true =>
            rw [hinv] at hcond
            simp only [if_true, hc, Bool.or_true, not_true_eq_false] at hcond
        have hcount := hS (E.getBackedgeTakenCount loop) (by
          rw [hinv, hcnc]
          simp)
        simp only [hinv, if_true]
        apply bind_ne_timeout _ _ (hcount s.2)
        intro b _
        apply bind_ne_timeout _ _ (hstep b.2)
        intro t _ h
        cases h
  | mul operands =>
    simp only [stepS]
    apply bind_ne_timeout _ _ (renderLoop_ne_timeout _ _ _ _ operands 0 st
      (fun x hx s => hS x (by simpa [subexpressions] using hx) s))
    intro r _ h
    cases h
  | add operands =>
    simp only [stepS]
    apply bind_ne_timeout _ _ (renderLoop_ne_timeout _ _ _ _ (addOrder operands) 0 st
      (fun x hx s => hS x (by simpa [subexpressions] using mem_of_mem_addOrder _ _ hx) s))
    intro r _ h
    cases h
  | smax operands =>
    simp only [stepS]
    apply bind_ne_timeout _ _ (renderLoop_ne_timeout _ _ _ _ operands 0 st
      (fun x hx s => hS x (by simpa [subexpressions] using hx) s))
    intro r _ h
    cases h
  | umax operands =>
    simp only [stepS]
    apply bind_ne_timeout _ _ (renderLoop_ne_timeout _ _ _ _ operands 0 st
      (fun x hx s => hS x (by simpa [subexpressions] using hx) s))
    intro r _ h
    cases h
  | cast kind operand => exact hS operand (by simp [subexpressions]) st
  | couldNotCompute => intro h; cases h

/-- With the values ranked so that every operand of a value that is not a merge has a
smaller rank, the Symbolic Formula Builder returns inside a merge within `rank v + 1` levels
and outside within `rank v + N + 2` levels, `N` bounding the ranks. -/
theorem getDimInfo_terminates (E : Env) (tbl : Translations) (rank : Nat → Nat) (N : Nat)
    (hN : ∀ v, rank v ≤ N) (hrank : ∀ v, ∀ w ∈ valueOperands E v, rank w < rank v) :
    ∀ (g v m : Nat),
      (rank v + 1 ≤ g → getDimInfo E tbl orMask g v true m ≠ .timeout) ∧
      (rank v + N + 2 ≤ g → getDimInfo E tbl orMask g v false m ≠ .timeout) := by
  intro g
  induction g with
  | zero =>
    intro v m
    exact ⟨fun h => absurd h (by omega), fun h => absurd h (by omega)⟩
  | succ n ih =>
    intro v m
    refine ⟨?_, ?_⟩
    · intro hg
      apply stepV_ne_timeout E tbl orMask _ v true m
      · intro w hw s
        have := hrank v w hw
        exact (ih w s).1 (by omega)
      · intro incoming _ hp
        cases hp
    · intro hg
      apply stepV_ne_timeout E tbl orMask _ v false m
      · intro w hw s
        have := hrank v w hw
        exact (ih w s).2 (by omega)
      · intro incoming _ _ w _ s
        have := hN w
        exact (ih w s).1 (by omega)

theorem getDimInfoSCEV_terminates (E : Env) (tbl : Translations) (rank : Nat → Nat) (N : Nat)
    (μ : SCEV → Nat) (hN : ∀ v, rank v ≤ N)
    (hrank : ∀ v, ∀ w ∈ valueOperands E v, rank w < rank v)
    (hμ : ∀ e, ∀ e' ∈ subexpressions E e, μ e' < μ e) :
    ∀ (g : Nat) (e : SCEV) (p : Bool) (m : Nat), μ e + 2 * N + 3 ≤ g →
      getDimInfoSCEV E tbl orMask g e p m ≠ .timeout := by
  intro g
  induction g with
  | zero => intro e p m h; omega
  | succ n ih =>
    intro e p m hg
    apply stepS_ne_timeout E _ _ e p m
    · intro v s
      have hv := getDimInfo_terminates E tbl rank N hN hrank n v s
      have := hN v
      cases p with
      | true => exact hv.1 (by omega)
      | false => exact hv.2 (by omega)
    · intro e' he' s
      have := hμ e e' he'
      exact ih e' p s (by omega)

/-- C34: on a value graph that is acyclic once the edges leaving control-flow merges are
left out (the values have ranks, bounded by N, that decrease along these edges, so that
every cycle passes through a merge), the Symbolic Formula Builder returns on every value:
inside a merge no merge is expanded and `rank v + 1` levels of recursion are enough, outside
`2 N + 2` levels are enough. On evolution expressions that are finite together with the
counts and steps the evolution service returns for them (a measure decreases along the
sub-expressions), the Evolution Formula Builder returns as well. -/
theorem builders_terminate (E : Env) (tbl : Translations) (rank : Nat → Nat) (N : Nat)
    (μ : SCEV → Nat) (hN : ∀ v, rank v ≤ N)
    (hrank : ∀ v, ∀ w ∈ valueOperands E v, rank w < rank v)
    (hμ : ∀ e, ∀ e' ∈ subexpressions E e, μ e' < μ e) :
    (∀ (v : Nat) (p : Bool) (m g : Nat), 2 * N + 2 ≤ g →
      getDimInfo E tbl orMask g v p m ≠ .timeout) ∧
    (∀ (v m g : Nat), rank v + 1 ≤ g → getDimInfo E tbl orMask g v true m ≠ .timeout) ∧
    (∀ (v : Nat) (incoming : List Nat) (m g : Nat), (E.ir v).node = .phi incoming →
      getDimInfo E tbl orMask (g + 1) v true m = .ok ("#PHIRECURSION", m)) ∧
    (∀ (e : SCEV) (p : Bool) (m g : Nat), μ e + 2 * N + 3 ≤ g →
      getDimInfoSCEV E tbl orMask g e p m ≠ .timeout) := by
  refine ⟨?_, ?_, ?_, ?_⟩
  · intro v p m g hg
    have hv := getDimInfo_terminates E tbl rank N hN hrank g v m
    have := hN v
    cases p with
    | true => exact hv.1 (by omega)
    | false => exact hv.2 (by omega)
  · intro v m g hg
    exact (getDimInfo_terminates E tbl rank N hN hrank g v m).1 hg
  · intro v incoming m g hv
    simp only [getDimInfo, stepV, hv]
    rfl
  · intro e p m g hg
    exact getDimInfoSCEV_terminates E tbl rank N μ hN hrank hμ g e p m hg

theorem SCEV_size_pos (e : SCEV) : 0 < e.size := by
  cases e <;> simp [SCEV.size]

theorem SCEV_size_le_sizeList (x : SCEV) :
    ∀ (es : List SCEV), x ∈ es → x.size ≤ SCEV.sizeList es := by
  intro es
  induction es with
  | nil => intro h; cases h
  | cons e rest ih =>
    intro h
    rw [SCEV.sizeList]
    rcases List.mem_cons.mp h with h1 | h1
    · rw [h1]
      omega
    · have := ih h1
      omega

/-- In `kernelPhi` the evolution service answers no loop-invariant count and builds the
recurrence it is asked for, so the number of nodes decreases along the sub-expressions. -/
theorem kernelPhi_subexpressions_smaller :
    ∀ e, ∀ e' ∈ subexpressions kernelPhi e, e'.size < e.size := by
  intro e e' he
  cases e with
  | udiv l r =>
    simp only [subexpressions, List.mem_cons, List.mem_singleton, List.not_mem_nil,
      or_false] at he
    have hl := SCEV_size_pos l
    have hr := SCEV_size_pos r
    rw [SCEV.size]
    rcases he with h | h <;> rw [h] <;> omega
  | addRec operands loop =>
    cases operands with
    | nil => simp [subexpressions] at he
    | cons a rest =>
      have hsub : subexpressions kernelPhi (.addRec (a :: rest) loop) =
          [a, getStepRecurrence kernelPhi (a :: rest) loop] := rfl
      rw [hsub] at he
      have ha := SCEV_size_pos a
      rw [SCEV.size, SCEV.sizeList]
      simp only [List.mem_cons, List.mem_singleton, List.not_mem_nil, or_false] at he
      rcases he with h | h
      · rw [h]
        omega
      · rw [h]
        unfold getStepRecurrence
        split
        · rename_i hlen
          cases rest with
          | nil => simp at hlen
          | cons b rest2 =>
            have hb : (a :: b :: rest2).getD 1 .null = b := rfl
            rw [hb, SCEV.sizeList]
            omega
        · have hs : kernelPhi.getAddRecExpr (a :: rest).tail loop = .addRec rest loop := rfl
          rw [hs, SCEV.size]
          omega
  | mul operands =>
    have := SCEV_size_le_sizeList e' operands he
    rw [SCEV.size]
    omega
  | add operands =>
    have := SCEV_size_le_sizeList e' operands he
    rw [SCEV.size]
    omega
  | smax operands =>
    have := SCEV_size_le_sizeList e' operands he
    rw [SCEV.size]
    omega
  | umax operands =>
    have := SCEV_size_le_sizeList e' operands he
    rw [SCEV.size]
    omega
  | cast kind operand =>
    simp only [subexpressions, List.mem_singleton] at he
    rw [he, SCEV.size]
    omega
  | null => simp [subexpressions] at he
  | unknown v => simp [subexpressions] at he
  | constant w b => simp [subexpressions] at he
  | couldNotCompute => simp [subexpressions] at he

/-- In `kernelPhi` the only value with operands that is not a merge is the addition 6. -/
theorem kernelPhi_ranked : ∀ v, ∀ w ∈ valueOperands kernelPhi v, rankPhi w < rankPhi v := by
  intro v w hw
  by_cases h9 : v < 9
  · interval_cases v <;> simp [valueOperands, kernelPhi] at hw
    rcases hw with h | h <;> rw [h] <;> decide
  · obtain ⟨n, hn⟩ : ∃ n, v = n + 9 := ⟨v - 9, by omega⟩
    subst hn
    have : valueOperands kernelPhi (n + 9) = [] := rfl
    rw [this] at hw
    cases hw

/-- C34 (witness): `kernelPhi` has the merge 4 that merges itself; with the rank 1 for the
addition 6 and 0 elsewhere, 4 levels of recursion are enough for every value and both
flags. -/
theorem builders_terminate_witness :
    (∀ (v : Nat) (p : Bool) (m g : Nat), 2 * 1 + 2 ≤ g →
      getDimInfo kernelPhi cudaTable orMask g v p m ≠ .timeout) ∧
    (∀ (e : SCEV) (p : Bool) (m g : Nat), e.size + 2 * 1 + 3 ≤ g →
      getDimInfoSCEV kernelPhi cudaTable orMask g e p m ≠ .timeout) ∧
    getDimInfo kernelPhi cudaTable orMask 2 4 false 0 = .ok ("(#PHIRECURSION | 5)", 0) :=
  have h := builders_terminate kernelPhi cudaTable rankPhi 1 SCEV.size
    (fun v => by unfold rankPhi; split <;> omega) kernelPhi_ranked
    kernelPhi_subexpressions_smaller
  ⟨h.1, h.2.2.2, by decide⟩

end Delinear
